import Mathlib

/-!
PortalPaths: maze generation, exit placement and obstacle injection.

A shallow embedding of `src/src/maze.cpp` (with `ResetGame` and `CanMove` of
`src/src/gameplay.cpp`) and a verification of its contracts.

Conventions of the embedding:

* a coordinate is an `Int` (the source uses `int`), a position is a pair `(x, y)`;
* `g.cell x y` stands for `GAME_STATE.getGrid()[y][x]`;
* a `Cell*` is the position of the cell it points to inside the grid;
* `std::rand()` is a stream `rand : Nat → Nat` read at a running index, and each
  `std::mt19937` engine is a stream of raw draws of its own;
* a loop that the source runs until a condition holds takes a bound on the number of
  iterations and yields `none` when the bound is reached before the loop has ended;
* an `int` is an unbounded `Int`; the value `INT_MAX` that fills the cost table of
  `PathExists` is kept, and the results that need the costs to stay below it assume
  `GridFitsInt`, which says that the grid has fewer than `INT_MAX` cells;
* what a loop does on its way (the cells `GenerateMaze` pushes, the cells `PathExists`
  expands, the table indices it uses) is a list computed by a function that follows the
  loop step by step (`generatePushes`, `searchExpansions`, `searchReads`).
-/

set_option autoImplicit false

namespace PortalPaths

/-! ## Data model (`maze.h`) -/

/-- The enum `DesertObstacleType` of `maze.h`. -/
inductive DesertObstacleType where
  | Cactus
  | Tumbleweed
  deriving DecidableEq

/-- The enum `GameTheme` the obstacle sprites depend on. -/
inductive GameTheme where
  | Space
  | Jungle
  | Desert
  deriving DecidableEq

/-- The table `directions[4][2]` of `maze.h`: up, right, down, left. -/
def directions (i : Fin 4) : Int × Int :=
  match i with
  | 0 => (0, -1)
  | 1 => (1, 0)
  | 2 => (0, 1)
  | 3 => (-1, 0)

/-- The struct `Cell` of `maze.h`; `walls` is indexed top, right, bottom, left. -/
structure Cell where
  x : Int
  y : Int
  visited : Bool
  walls : Fin 4 → Bool
  isObstacle : Bool
  spriteRow : Int
  spriteCol : Int
  logSpriteRow : Int
  logSpriteCol : Int
  desertObstacleType : DesertObstacleType

/-- The constructor `Cell::Cell(int x_, int y_)`: unvisited, four walls, no obstacle. -/
def Cell.new (x y : Int) : Cell :=
  { x := x, y := y, visited := false, walls := fun _ => true, isObstacle := false,
    spriteRow := 0, spriteCol := 0, logSpriteRow := 0, logSpriteCol := 0,
    desertObstacleType := DesertObstacleType.Cactus }

/-- The grid of `GameState`: `rows` is `getRows()`, `cols` is `getColumns()` and
`cell x y` is `getGrid()[y][x]`. -/
structure Grid where
  rows : Nat
  cols : Nat
  cell : Int → Int → Cell

/-- Assignment `getGrid()[y][x] = c`. -/
def Grid.set (g : Grid) (x y : Int) (c : Cell) : Grid :=
  { g with cell := fun x' y' => if x' = x ∧ y' = y then c else g.cell x' y' }

/-- The function `IsInBounds`, also the inline bounds test of `PathExists`. -/
def IsInBounds (g : Grid) (x y : Int) : Bool :=
  decide (x ≥ 0) && decide (x < (g.cols : Int)) && decide (y ≥ 0) && decide (y < (g.rows : Int))

/-- The loop of `InitializeGrid` (and the first loop of `GenerateMaze`): every cell of
the grid is assigned `Cell(x, y)`. -/
def InitializeGrid (g : Grid) : Grid :=
  { g with cell := fun x y => if IsInBounds g x y then Cell.new x y else g.cell x y }

/-! ## The path oracle (`Heuristic`, `PathExists`) -/

/-- The function `Heuristic`: Manhattan distance. -/
def Heuristic (x1 y1 x2 y2 : Int) : Int :=
  |x1 - x2| + |y1 - y2|

/-- The constant `std::numeric_limits<int>::max()`. -/
def INT_MAX : Int := 2147483647

/-- A frontier entry `<cost, <x, y>>`. -/
abbrev Node := Int × Int × Int

/-- The order `std::greater<Node>` turns into a min-heap: lexicographic `<` on
`<cost, <x, y>>`. -/
def Node.lt (a b : Node) : Bool :=
  decide (a.1 < b.1) ||
    (decide (a.1 = b.1) &&
      (decide (a.2.1 < b.2.1) || (decide (a.2.1 = b.2.1) && decide (a.2.2 < b.2.2))))

/-- The least entry of a non-empty frontier, which is what `top()` returns. -/
def frontierTop : Node → List Node → Node
  | a, [] => a
  | a, b :: l => if Node.lt b a then frontierTop b l else frontierTop a l

/-- The calls `top()` and `pop()`: the least entry and the frontier without one copy of it. -/
def frontierPop : List Node → Option (Node × List Node)
  | [] => none
  | a :: l =>
    let m := frontierTop a l
    some (m, (a :: l).erase m)

/-- The local state of `PathExists`: the priority queue, `cost` and `visited`
(`cost x y` is `cost[y][x]`). -/
structure SearchState where
  frontier : List Node
  cost : Int → Int → Int
  visited : Int → Int → Bool

/-- One pass of the neighbour loop of `PathExists` for direction `i` at cell `(x, y)`. -/
def relax (g : Grid) (endX endY x y : Int) (s : SearchState) (i : Fin 4) : SearchState :=
  let nx := x + (directions i).1
  let ny := y + (directions i).2
  if IsInBounds g nx ny && !(g.cell nx ny).isObstacle && !s.visited nx ny &&
      !(g.cell x y).walls i then
    let newCost := s.cost x y + 1
    if newCost < s.cost nx ny then
      { frontier := (newCost + Heuristic nx ny endX endY, nx, ny) :: s.frontier,
        cost := fun x' y' => if x' = nx ∧ y' = ny then newCost else s.cost x' y',
        visited := s.visited }
    else s
  else s

/-- The `while (!frontier.empty())` loop of `PathExists`; `none` when the iteration
bound is reached. -/
def searchLoop (g : Grid) (endX endY : Int) : Nat → SearchState → Option Bool
  | 0, _ => none
  | fuel + 1, s =>
    match frontierPop s.frontier with
    | none => some false
    | some ((_, x, y), rest) =>
      if x = endX ∧ y = endY then some true
      else if s.visited x y then searchLoop g endX endY fuel { s with frontier := rest }
      else
        let s1 : SearchState :=
          { frontier := rest, cost := s.cost,
            visited := fun x' y' => if x' = x ∧ y' = y then true else s.visited x' y' }
        searchLoop g endX endY fuel (List.foldl (relax g endX endY x y) s1 [0, 1, 2, 3])

/-- The state `PathExists` enters its loop with. -/
def searchInit (startX startY : Int) : SearchState :=
  { frontier := [(0, startX, startY)],
    cost := fun x y => if x = startX ∧ y = startY then 0 else INT_MAX,
    visited := fun _ _ => false }

/-- The number of loop iterations `PathExists` is given: every cell is expanded at most
once and an expansion pushes at most four entries, so `4 * rows * cols + 2` is never
reached (`searchLoop_total`). -/
def searchFuel (g : Grid) : Nat := 4 * (g.rows * g.cols) + 2

/-- The function `PathExists(startX, startY, endX, endY)`. -/
def PathExists (g : Grid) (startX startY endX endY : Int) : Option Bool :=
  searchLoop g endX endY (searchFuel g) (searchInit startX startY)

/-! ## Maze generation (`GetUnvisitedNeighbor`, `RemoveWalls`, `GenerateMaze`) -/

/-- The function `GetUnvisitedNeighbor(current)`, reading `std::rand()` at index `k`:
the pointer it returns (`none` for `nullptr`) and the index of the next draw. -/
def GetUnvisitedNeighbor (g : Grid) (rand : Nat → Nat) (k : Nat) (current : Int × Int) :
    Option (Int × Int) × Nat :=
  let c := g.cell current.1 current.2
  let neighbors : List (Fin 4) :=
    List.filter
      (fun i =>
        IsInBounds g (c.x + (directions i).1) (c.y + (directions i).2) &&
          !(g.cell (c.x + (directions i).1) (c.y + (directions i).2)).visited)
      [0, 1, 2, 3]
  match neighbors with
  | [] => (none, k)
  | d :: ds =>
    let randIndex := (d :: ds).getD (rand k % (d :: ds).length) d
    (some (c.x + (directions randIndex).1, c.y + (directions randIndex).2), k + 1)

/-- Assignment `p->walls[i] = false`. -/
def clearWall (g : Grid) (p : Int × Int) (i : Fin 4) : Grid :=
  g.set p.1 p.2
    { g.cell p.1 p.2 with walls := fun j => if j = i then false else (g.cell p.1 p.2).walls j }

/-- The function `RemoveWalls(current, next)`. -/
def RemoveWalls (g : Grid) (current next : Int × Int) : Grid :=
  let dx := (g.cell next.1 next.2).x - (g.cell current.1 current.2).x
  let dy := (g.cell next.1 next.2).y - (g.cell current.1 current.2).y
  if dx = 1 then clearWall (clearWall g current 1) next 3
  else if dx = -1 then clearWall (clearWall g current 3) next 1
  else if dy = 1 then clearWall (clearWall g current 2) next 0
  else if dy = -1 then clearWall (clearWall g current 0) next 2
  else g

/-- Assignment `p->visited = true`. -/
def markVisited (g : Grid) (p : Int × Int) : Grid :=
  g.set p.1 p.2 { g.cell p.1 p.2 with visited := true }

/-- The state `GenerateMaze` works on: the grid, `m_stack` (top first) and the number of
`std::rand()` calls made so far. -/
structure GenState where
  grid : Grid
  stack : List (Int × Int)
  seed : Nat

/-- The body of the `while (!getStack().empty())` loop of `GenerateMaze`, for a stack
whose top is `current`. -/
def generateStep (rand : Nat → Nat) (s : GenState) (current : Int × Int)
    (rest : List (Int × Int)) : GenState :=
  match GetUnvisitedNeighbor s.grid rand s.seed current with
  | (some next, k) =>
    { grid := RemoveWalls (markVisited s.grid next) current next,
      stack := next :: current :: rest, seed := k }
  | (none, k) => { grid := s.grid, stack := rest, seed := k }

/-- The `while (!getStack().empty())` loop of `GenerateMaze`; `none` when the iteration
bound is reached. -/
def generateLoop (rand : Nat → Nat) : Nat → GenState → Option GenState
  | 0, _ => none
  | fuel + 1, s =>
    match s.stack with
    | [] => some s
    | current :: rest => generateLoop rand fuel (generateStep rand s current rest)

/-- The state `GenerateMaze` enters its loop with: every cell reset, `grid[0][0]`
visited and pushed. The stack is empty on entry: it is empty when `GameState` is built
and `GenerateMaze` leaves it empty. -/
def generateInit (g : Grid) (seed : Nat) : GenState :=
  { grid := markVisited (InitializeGrid g) (0, 0), stack := [(0, 0)], seed := seed }

/-- The number of loop iterations `GenerateMaze` is given: every cell is pushed once and
popped once, so `2 * rows * cols` iterations end the loop (`GenerateMaze_total`). -/
def generateFuel (g : Grid) : Nat := 2 * (g.rows * g.cols) + 1

/-- The function `GenerateMaze`, started with `seed` calls of `std::rand()` behind it. -/
def GenerateMaze (g : Grid) (rand : Nat → Nat) (seed : Nat) : Option GenState :=
  generateLoop rand (generateFuel g) (generateInit g seed)

/-! ## Exit placement (`PlaceRandomExit`) -/

/-- A draw `std::uniform_int_distribution<>(lo, hi)(gen)`: the raw draw brought into
`[lo, hi]`. -/
def uniformInt (lo hi : Int) (raw : Nat) : Int :=
  lo + (raw : Int) % (hi - lo + 1)

/-- The `while (true)` loop of `PlaceRandomExit`, with `gen` read from index `j`: the
exit it returns with, `none` when the iteration bound is reached. -/
def placeExitLoop (g : Grid) (gen : Nat → Nat) : Nat → Nat → Option (Int × Int)
  | 0, _ => none
  | fuel + 1, j =>
    let MIN_DISTANCE : Int := max (g.cols : Int) (g.rows : Int) / 2
    let exitX := uniformInt 0 ((g.cols : Int) - 1) (gen j)
    let exitY := uniformInt 0 ((g.rows : Int) - 1) (gen (j + 1))
    let distance := |exitX - 0| + |exitY - 0|
    if decide (distance ≥ MIN_DISTANCE) && !(g.cell exitX exitY).isObstacle then
      match PathExists g 0 0 exitX exitY with
      | some true => some (exitX, exitY)
      | some false => placeExitLoop g gen fuel (j + 2)
      | none => none
    else placeExitLoop g gen fuel (j + 2)

/-- The function `PlaceRandomExit` allowed `fuel` iterations: the pair
`(getExitX(), getExitY())` it returns with. -/
def PlaceRandomExit (g : Grid) (gen : Nat → Nat) (fuel : Nat) : Option (Int × Int) :=
  placeExitLoop g gen fuel 0

/-! ## Obstacle injection (`AddRandomObstacles`) -/

/-- The local state of `AddRandomObstacles`: the grid, `obstacleCount`, the number of
`std::rand()` calls and the number of draws from its own `gen`. -/
structure ObstState where
  grid : Grid
  obstacleCount : Int
  seed : Nat
  genPos : Nat

/-- The sprite assignments of `AddRandomObstacles` for the cell `(x, y)`, by theme. -/
def setSprite (theme : GameTheme) (gen : Nat → Nat) (j : Nat) (g : Grid) (x y : Int) :
    Grid × Nat :=
  match theme with
  | GameTheme.Space =>
    let g1 := g.set x y { g.cell x y with spriteRow := uniformInt 0 1 (gen j) }
    (g1.set x y { g1.cell x y with spriteCol := uniformInt 0 15 (gen (j + 1)) }, j + 2)
  | GameTheme.Jungle =>
    let g1 := g.set x y { g.cell x y with logSpriteRow := uniformInt 0 2 (gen j) }
    (g1.set x y { g1.cell x y with logSpriteCol := uniformInt 0 2 (gen (j + 1)) }, j + 2)
  | GameTheme.Desert =>
    (g.set x y
      { g.cell x y with
        desertObstacleType :=
          if uniformInt 0 1 (gen j) = 0 then DesertObstacleType.Cactus
          else DesertObstacleType.Tumbleweed },
      j + 1)

/-- Assignment `getGrid()[y][x].isObstacle = b`. -/
def setObstacle (g : Grid) (x y : Int) (b : Bool) : Grid :=
  g.set x y { g.cell x y with isObstacle := b }

/-- The body of the `while (obstacleCount < maxObstacles)` loop of
`AddRandomObstacles(exitX, exitY)`; `none` only if `PathExists` has not returned. -/
def obstacleIter (theme : GameTheme) (rand gen : Nat → Nat) (exitX exitY : Int)
    (s : ObstState) : Option ObstState :=
  let x : Int := ((rand s.seed % s.grid.cols : Nat) : Int)
  let y : Int := ((rand (s.seed + 1) % s.grid.rows : Nat) : Int)
  if (x = 0 ∧ y = 0) ∨ (x = exitX ∧ y = exitY) ∨ (s.grid.cell x y).isObstacle = true then
    some { s with seed := s.seed + 2 }
  else
    let g1 := setObstacle s.grid x y true
    let r := setSprite theme gen s.genPos g1 x y
    match PathExists r.1 0 0 exitX exitY with
    | some true =>
      some { grid := r.1, obstacleCount := s.obstacleCount + 1, seed := s.seed + 2,
             genPos := r.2 }
    | some false =>
      some { grid := setObstacle r.1 x y false, obstacleCount := s.obstacleCount,
             seed := s.seed + 2, genPos := r.2 }
    | none => none

/-- The `while (obstacleCount < maxObstacles)` loop of `AddRandomObstacles`; `none` when
the iteration bound is reached. -/
def obstacleLoop (theme : GameTheme) (rand gen : Nat → Nat) (exitX exitY maxObstacles : Int) :
    Nat → ObstState → Option ObstState
  | 0, _ => none
  | fuel + 1, s =>
    if s.obstacleCount < maxObstacles then
      match obstacleIter theme rand gen exitX exitY s with
      | some s1 => obstacleLoop theme rand gen exitX exitY maxObstacles fuel s1
      | none => none
    else some s

/-- The function `AddRandomObstacles(exitX, exitY)` allowed `fuel` iterations. `scaled` is
the value of `static_cast<int>(getRows() * getColumns() * getObstaclePercentage())`. -/
def AddRandomObstacles (theme : GameTheme) (scaled : Int) (rand gen : Nat → Nat)
    (exitX exitY : Int) (g : Grid) (seed : Nat) (fuel : Nat) : Option ObstState :=
  let maxObstacles : Int := max 1 scaled
  obstacleLoop theme rand gen exitX exitY maxObstacles fuel
    { grid := g, obstacleCount := 0, seed := seed, genPos := 0 }

/-! ## The build pipeline (`ResetGame`) -/

/-- What the build pipeline of `ResetGame` leaves behind: the grid, the exit and the
number of `std::rand()` calls made. -/
structure Built where
  grid : Grid
  exitX : Int
  exitY : Int
  seed : Nat

/-- The build pipeline of `ResetGame`: the grid is cleared and resized to `Cell(0, 0)`
cells, then `InitializeGrid`, `GenerateMaze`, `PlaceRandomExit` and `AddRandomObstacles`
run in turn. `genExit` and `genObst` are the engines the last two create. -/
def ResetGame (old : Grid) (theme : GameTheme) (scaled : Int) (rand genExit genObst : Nat → Nat)
    (seed fuelExit fuelObst : Nat) : Option Built :=
  let g0 : Grid := { rows := old.rows, cols := old.cols, cell := fun _ _ => Cell.new 0 0 }
  match GenerateMaze (InitializeGrid g0) rand seed with
  | none => none
  | some s =>
    match PlaceRandomExit s.grid genExit fuelExit with
    | none => none
    | some (exitX, exitY) =>
      match AddRandomObstacles theme scaled rand genObst exitX exitY s.grid s.seed fuelObst with
      | none => none
      | some t => some { grid := t.grid, exitX := exitX, exitY := exitY, seed := t.seed }

/-! ## Player steps (`CanMove`, `gameplay.cpp`) -/

/-- The cell the `switch` of `CanMove` and of `MovePlayer` moves to from
`(playerX, playerY)`. -/
def movedTo (playerX playerY : Int) (direction : Fin 4) : Int × Int :=
  match direction with
  | 0 => (playerX, playerY - 1)
  | 1 => (playerX + 1, playerY)
  | 2 => (playerX, playerY + 1)
  | 3 => (playerX - 1, playerY)

/-- The function `CanMove(direction)` of `gameplay.cpp` for the player cell
`(playerX, playerY)`. -/
def CanMove (g : Grid) (playerX playerY : Int) (direction : Fin 4) : Bool :=
  let newX := (movedTo playerX playerY direction).1
  let newY := (movedTo playerX playerY direction).2
  IsInBounds g newX newY && !(g.cell playerX playerY).walls direction &&
    !(g.cell newX newY).isObstacle

/-! ## Specification vocabulary -/

/-- The cells of the grid, column by column. -/
def allCells (g : Grid) : List (Int × Int) :=
  List.map (fun p : Nat × Nat => ((p.1 : Int), (p.2 : Int)))
    (List.product (List.range g.cols) (List.range g.rows))

/-- The number of grid cells on which `v` holds. -/
def cellCount (g : Grid) (v : Int → Int → Bool) : Nat :=
  List.countP (fun p : Int × Int => v p.1 p.2) (allCells g)

/-- The cell next to `a` in direction `i`. -/
def neighbor (a : Int × Int) (i : Fin 4) : Int × Int :=
  (a.1 + (directions i).1, a.2 + (directions i).2)

/-- The move `PathExists` makes from `a` in direction `i`: the neighbour is in bounds and
no obstacle, and `a` has no wall on that side. -/
def StepDir (g : Grid) (a : Int × Int) (i : Fin 4) : Prop :=
  IsInBounds g (neighbor a i).1 (neighbor a i).2 = true ∧
    (g.cell (neighbor a i).1 (neighbor a i).2).isObstacle = false ∧
    (g.cell a.1 a.2).walls i = false

/-- The edge relation `PathExists` explores. -/
def Step (g : Grid) (a b : Int × Int) : Prop :=
  ∃ i : Fin 4, b = neighbor a i ∧ StepDir g a i

/-- Reachability over the edges `PathExists` explores. -/
def Reach (g : Grid) (a b : Int × Int) : Prop :=
  Relation.ReflTransGen (Step g) a b

/-- A cell the search has expanded or holds in its frontier. -/
def Seen (s : SearchState) (b : Int × Int) : Prop :=
  s.visited b.1 b.2 = true ∨ ∃ n ∈ s.frontier, (n.2.1, n.2.2) = b

/-- What the frontier of `PathExists` always satisfies: its cells are in bounds and
reachable from the start. -/
structure SearchSound (g : Grid) (start : Int × Int) (s : SearchState) : Prop where
  reach : ∀ n ∈ s.frontier, Reach g start (n.2.1, n.2.2)
  inb : ∀ n ∈ s.frontier, IsInBounds g n.2.1 n.2.2 = true

/-- The invariant of `PathExists` behind completeness, while the cell `cur` is being
expanded and the directions `pending` are still to be tried. -/
structure SearchComplete (g : Grid) (start goal : Int × Int) (s : SearchState)
    (cur : Int × Int) (pending : List (Fin 4)) : Prop where
  start_seen : Seen s start
  closed : ∀ a i, s.visited a.1 a.2 = true → StepDir g a i →
    (a = cur ∧ i ∈ pending) ∨ Seen s (neighbor a i)
  cost_seen : ∀ b : Int × Int, s.cost b.1 b.2 < INT_MAX → Seen s b
  front_cost : ∀ n ∈ s.frontier, s.cost n.2.1 n.2.2 ≤ (cellCount g s.visited : Int)
  goal_unvisited : s.visited goal.1 goal.2 = false
  cur_ok : pending ≠ [] →
    s.visited cur.1 cur.2 = true ∧ s.cost cur.1 cur.2 + 1 ≤ (cellCount g s.visited : Int)

/-- The grid is small enough for the `int` arithmetic of the source: the number of cells
stays below `INT_MAX`, the value `PathExists` fills its cost table with. -/
def GridFitsInt (g : Grid) : Prop := ((g.rows * g.cols : Nat) : Int) < INT_MAX

/-- The quantity that goes down with every iteration of the loop of `PathExists`. -/
def searchMeasure (g : Grid) (s : SearchState) : Nat :=
  4 * (g.rows * g.cols - cellCount g s.visited) + s.frontier.length

/-- Two grids with the same size, walls and obstacle flags. -/
def SameMaze (g h : Grid) : Prop :=
  g.rows = h.rows ∧ g.cols = h.cols ∧
    ∀ x y, (g.cell x y).isObstacle = (h.cell x y).isObstacle ∧
      (g.cell x y).walls = (h.cell x y).walls

/-- Wall symmetry: a cell and its in-bounds neighbour in direction `i` agree on the wall
between them, `A.walls[i] = B.walls[(i + 2) mod 4]`. -/
def WallsSymmetric (g : Grid) : Prop :=
  ∀ (a : Int × Int) (i : Fin 4), IsInBounds g a.1 a.2 = true →
    IsInBounds g (neighbor a i).1 (neighbor a i).2 = true →
    (g.cell a.1 a.2).walls i = (g.cell (neighbor a i).1 (neighbor a i).2).walls (i + 2)

/-- The wall-pair between the cell `e.1` and its neighbour in direction `e.2` is opened:
the neighbour is in the grid and both facing wall flags are false. -/
def pairOpen (g : Grid) (e : (Int × Int) × Fin 4) : Bool :=
  IsInBounds g (neighbor e.1 e.2).1 (neighbor e.1 e.2).2 &&
    !(g.cell e.1.1 e.1.2).walls e.2 &&
    !(g.cell (neighbor e.1 e.2).1 (neighbor e.1 e.2).2).walls (e.2 + 2)

/-- The number of opened wall-pairs: every pair of adjacent cells is counted once, from
its left cell (direction 1) or from its upper cell (direction 2). -/
def openPairs (g : Grid) : Nat :=
  List.countP (pairOpen g) (List.product (allCells g) [1, 2])

/-- The passage graph of the maze: two cells of the grid are joined when they are
adjacent and the wall-pair between them is opened. -/
def passageGraph (g : Grid) : SimpleGraph (Int × Int) where
  Adj a b := ∃ i : Fin 4, b = neighbor a i ∧ IsInBounds g a.1 a.2 = true ∧
    IsInBounds g b.1 b.2 = true ∧ (g.cell a.1 a.2).walls i = false ∧
    (g.cell b.1 b.2).walls (i + 2) = false
  symm := by
    rintro a b ⟨i, rfl, ha, hb, hwa, hwb⟩
    refine ⟨i + 2, ?_, hb, ha, hwb, ?_⟩
    · fin_cases i <;> ext <;> simp [neighbor, directions]
    · have hi : i + 2 + 2 = i := by fin_cases i <;> rfl
      rw [hi]
      exact hwa
  loopless := by
    rintro a ⟨i, h, -⟩
    have h1 := congrArg Prod.fst h
    have h2 := congrArg Prod.snd h
    fin_cases i <;> simp [neighbor, directions] at h1 h2

/-- The wall flag `walls[j]` of the cell `p` is one of the two that opening the passage
from `c` in direction `i` clears. -/
def CarvedAt (c : Int × Int) (i : Fin 4) (p : Int × Int) (j : Fin 4) : Prop :=
  (p = c ∧ j = i) ∨ (p = neighbor c i ∧ j = i + 2)

instance (c : Int × Int) (i : Fin 4) (p : Int × Int) (j : Fin 4) :
    Decidable (CarvedAt c i p j) := by
  unfold CarvedAt
  infer_instance

/-- The grid `h` is the grid `g` after the passage from `c` in direction `i` has been
opened and the cell behind it marked visited. -/
structure Carved (g h : Grid) (c : Int × Int) (i : Fin 4) : Prop where
  rows_eq : h.rows = g.rows
  cols_eq : h.cols = g.cols
  x_eq : ∀ x y, (h.cell x y).x = (g.cell x y).x
  y_eq : ∀ x y, (h.cell x y).y = (g.cell x y).y
  obst_eq : ∀ x y, (h.cell x y).isObstacle = (g.cell x y).isObstacle
  visited_eq : ∀ x y, (h.cell x y).visited =
    if (x, y) = neighbor c i then true else (g.cell x y).visited
  walls_eq : ∀ x y j, (h.cell x y).walls j =
    if CarvedAt c i (x, y) j then false else (g.cell x y).walls j

/-- The invariant of the loop of `GenerateMaze`. -/
structure GenInv (s : GenState) : Prop where
  origin_in : IsInBounds s.grid 0 0 = true
  origin_visited : (s.grid.cell 0 0).visited = true
  coords : ∀ x y, IsInBounds s.grid x y = true →
    (s.grid.cell x y).x = x ∧ (s.grid.cell x y).y = y
  stack_ok : ∀ p ∈ s.stack,
    IsInBounds s.grid p.1 p.2 = true ∧ (s.grid.cell p.1 p.2).visited = true
  sym : WallsSymmetric s.grid
  fresh : ∀ x y, IsInBounds s.grid x y = true → (s.grid.cell x y).visited = false →
    ∀ i, (s.grid.cell x y).walls i = true
  noObst : ∀ x y, IsInBounds s.grid x y = true → (s.grid.cell x y).isObstacle = false
  conn : ∀ x y, IsInBounds s.grid x y = true → (s.grid.cell x y).visited = true →
    Reach s.grid (0, 0) (x, y)
  dfs : ∀ a : Int × Int, IsInBounds s.grid a.1 a.2 = true →
    (s.grid.cell a.1 a.2).visited = true → a ∉ s.stack →
    ∀ i, IsInBounds s.grid (neighbor a i).1 (neighbor a i).2 = true →
      (s.grid.cell (neighbor a i).1 (neighbor a i).2).visited = true
  count : openPairs s.grid + 1 = cellCount s.grid (fun x y => (s.grid.cell x y).visited)
  acyclic : (passageGraph s.grid).IsAcyclic

/-- The entry of the wall-pair list that opening the passage from `c` in direction `i`
turns from closed to opened. -/
def carveKey (c : Int × Int) (i : Fin 4) : (Int × Int) × Fin 4 :=
  if i = 1 ∨ i = 2 then (c, i) else (neighbor c i, i + 2)

/-- The state of `GenerateMaze` after `k` more iterations of its loop (fewer if the
stack empties before). -/
def generateRun (rand : Nat → Nat) : Nat → GenState → GenState
  | 0, s => s
  | k + 1, s =>
    match s.stack with
    | [] => s
    | current :: rest => generateRun rand k (generateStep rand s current rest)

/-- The quantity that goes down with every iteration of the loop of `GenerateMaze`. -/
def genMeasure (s : GenState) : Nat :=
  2 * (s.grid.rows * s.grid.cols - cellCount s.grid (fun x y => (s.grid.cell x y).visited)) +
    s.stack.length

/-- The edge relation of the path oracle as the specification words it: two adjacent
cells, both in bounds, neither flagged obstacle, not separated by a wall (both facing
wall flags are false). -/
def Passage (g : Grid) (a b : Int × Int) : Prop :=
  ∃ i : Fin 4, b = neighbor a i ∧ IsInBounds g a.1 a.2 = true ∧
    IsInBounds g b.1 b.2 = true ∧ (g.cell a.1 a.2).isObstacle = false ∧
    (g.cell b.1 b.2).isObstacle = false ∧ (g.cell a.1 a.2).walls i = false ∧
    (g.cell b.1 b.2).walls (i + 2) = false

/-- A sequence of cells from `a` to `b` in which consecutive cells are joined by a
passage. -/
def IsPassagePath (g : Grid) (p : List (Int × Int)) (a b : Int × Int) : Prop :=
  p.head? = some a ∧ p.getLast? = some b ∧ List.Chain' (Passage g) p

/-- What an iteration of the loop of `AddRandomObstacles` leaves untouched: the size of
the grid, every wall flag, and the obstacle flags of the start and exit cells. -/
structure ObstFrame (exitX exitY : Int) (g h : Grid) : Prop where
  rows_eq : h.rows = g.rows
  cols_eq : h.cols = g.cols
  walls_eq : ∀ x y, (h.cell x y).walls = (g.cell x y).walls
  start_eq : (h.cell 0 0).isObstacle = (g.cell 0 0).isObstacle
  exit_eq : (h.cell exitX exitY).isObstacle = (g.cell exitX exitY).isObstacle

/-- The state of `AddRandomObstacles` after `k` more iterations of its loop (fewer if the
loop ends before). -/
def obstacleRun (theme : GameTheme) (rand gen : Nat → Nat) (exitX exitY maxObstacles : Int) :
    Nat → ObstState → Option ObstState
  | 0, s => some s
  | k + 1, s =>
    if s.obstacleCount < maxObstacles then
      match obstacleIter theme rand gen exitX exitY s with
      | some s1 => obstacleRun theme rand gen exitX exitY maxObstacles k s1
      | none => none
    else some s

/-- The grid indices `GetUnvisitedNeighbor(current)` uses: the cell `current` points to,
the neighbours whose `visited` flag it reads (those that pass `IsInBounds`, since `&&`
short-circuits) and the cell whose address it returns. -/
def GetUnvisitedNeighborReads (g : Grid) (rand : Nat → Nat) (k : Nat) (current : Int × Int) :
    List (Int × Int) :=
  let c := g.cell current.1 current.2
  current ::
    (List.map (fun i => (c.x + (directions i).1, c.y + (directions i).2))
        (List.filter (fun i => IsInBounds g (c.x + (directions i).1) (c.y + (directions i).2))
          [0, 1, 2, 3]) ++
      match (GetUnvisitedNeighbor g rand k current).1 with
      | some next => [next]
      | none => [])

/-- The player cell after the moves `ds` from the cell `p`, each of which `CanMove` has to
permit. -/
def walkPlayer (g : Grid) : Int × Int → List (Fin 4) → Option (Int × Int)
  | p, [] => some p
  | p, d :: ds => if CanMove g p.1 p.2 d then walkPlayer g (movedTo p.1 p.2 d) ds else none

/-- The number of cells of the grid flagged as obstacle. -/
def obstacleCells (g : Grid) : Nat :=
  cellCount g (fun x y => (g.cell x y).isObstacle)

/-- No cell of the grid can be kept as an obstacle: each one is the start, the exit,
already an obstacle, or cuts the start off from the exit once flagged. -/
def NoCandidate (g : Grid) (exitX exitY : Int) : Prop :=
  ∀ x y, IsInBounds g x y = true →
    (x = 0 ∧ y = 0) ∨ (x = exitX ∧ y = exitY) ∨ (g.cell x y).isObstacle = true ∨
      PathExists (setObstacle g x y true) 0 0 exitX exitY = some false

/-- The `while (!frontier.empty())` loop of `PathExists` once more, handing back with the
answer the local state (frontier, `cost`, `visited`) it returns in. -/
def searchTrace (g : Grid) (endX endY : Int) : Nat → SearchState → Option (Bool × SearchState)
  | 0, _ => none
  | fuel + 1, s =>
    match frontierPop s.frontier with
    | none => some (false, s)
    | some ((_, x, y), rest) =>
      if x = endX ∧ y = endY then some (true, { s with frontier := rest })
      else if s.visited x y then searchTrace g endX endY fuel { s with frontier := rest }
      else
        let s1 : SearchState :=
          { frontier := rest, cost := s.cost,
            visited := fun x' y' => if x' = x ∧ y' = y then true else s.visited x' y' }
        searchTrace g endX endY fuel (List.foldl (relax g endX endY x y) s1 [0, 1, 2, 3])

/-- A path of exactly `n` steps from `a` over the edges `PathExists` explores. -/
inductive StepsIn (g : Grid) (a : Int × Int) : Nat → Int × Int → Prop where
  | zero : StepsIn g a 0 a
  | succ {n : Nat} {b c : Int × Int} : StepsIn g a n b → Step g b c → StepsIn g a (n + 1) c

/-- The invariant of `PathExists` behind optimality, while the cell `cur` is being
expanded and the directions `pending` are still to be tried. -/
structure SearchOptimal (g : Grid) (start goal : Int × Int) (s : SearchState)
    (cur : Int × Int) (pending : List (Fin 4)) : Prop where
  vis_opt : ∀ (v : Int × Int) (m : Nat), s.visited v.1 v.2 = true → StepsIn g start m v →
    s.cost v.1 v.2 ≤ (m : Int)
  relaxed : ∀ (v : Int × Int) (i : Fin 4), s.visited v.1 v.2 = true → StepDir g v i →
    (v = cur ∧ i ∈ pending) ∨
      (s.cost (neighbor v i).1 (neighbor v i).2 ≤ s.cost v.1 v.2 + 1 ∧
        s.cost (neighbor v i).1 (neighbor v i).2 < INT_MAX)
  front_cur : ∀ w : Int × Int, s.visited w.1 w.2 = false → s.cost w.1 w.2 < INT_MAX →
    (s.cost w.1 w.2 + Heuristic w.1 w.2 goal.1 goal.2, w.1, w.2) ∈ s.frontier
  front_lb : ∀ n ∈ s.frontier,
    s.cost n.2.1 n.2.2 + Heuristic n.2.1 n.2.2 goal.1 goal.2 ≤ n.1
  realised : ∀ w : Int × Int, s.cost w.1 w.2 < INT_MAX →
    ∃ n : Nat, s.cost w.1 w.2 = (n : Int) ∧ StepsIn g start n w
  start_zero : s.cost start.1 start.2 ≤ 0

/-- A sequence of exactly `n` axis-aligned unit moves from `a`, walls, obstacles and the
edge of the grid disregarded. -/
inductive MovesIn (a : Int × Int) : Nat → Int × Int → Prop where
  | zero : MovesIn a 0 a
  | succ {n : Nat} {b : Int × Int} (i : Fin 4) : MovesIn a n b → MovesIn a (n + 1) (neighbor b i)

/-- The cell `(x, y)` an iteration of the loop of `AddRandomObstacles` samples with its
two calls of `std::rand()`. -/
def sampledCell (rand : Nat → Nat) (s : ObstState) : Int × Int :=
  (((rand s.seed % s.grid.cols : Nat) : Int), ((rand (s.seed + 1) % s.grid.rows : Nat) : Int))

/-- The test `(x == 0 && y == 0) || (x == exitX && y == exitY) || getGrid()[y][x].isObstacle`
that makes an iteration of `AddRandomObstacles` drop the sampled cell `c`. -/
def sampleSkipped (g : Grid) (exitX exitY : Int) (c : Int × Int) : Prop :=
  (c.1 = 0 ∧ c.2 = 0) ∨ (c.1 = exitX ∧ c.2 = exitY) ∨ (g.cell c.1 c.2).isObstacle = true

instance (g : Grid) (exitX exitY : Int) (c : Int × Int) :
    Decidable (sampleSkipped g exitX exitY c) := by
  unfold sampleSkipped
  infer_instance

/-- The grid `PathExists` is asked about in an iteration of `AddRandomObstacles`: the
sampled cell flagged and given its sprite. -/
def tentativeGrid (theme : GameTheme) (rand gen : Nat → Nat) (s : ObstState) : Grid :=
  (setSprite theme gen s.genPos
    (setObstacle s.grid (sampledCell rand s).1 (sampledCell rand s).2 true)
    (sampledCell rand s).1 (sampledCell rand s).2).1

/-- The cells the loop of `GenerateMaze` marks visited and pushes onto the stack
(`next->visited = true; ... getStack().push(next)`) during its next `k` iterations, in
order. -/
def generatePushes (rand : Nat → Nat) : Nat → GenState → List (Int × Int)
  | 0, _ => []
  | k + 1, s =>
    match s.stack with
    | [] => []
    | current :: rest =>
      match (GetUnvisitedNeighbor s.grid rand s.seed current).1 with
      | some next => next :: generatePushes rand k (generateStep rand s current rest)
      | none => generatePushes rand k (generateStep rand s current rest)

/-- The cells the loop of `PathExists` expands in its next `fuel` iterations, in order: a
cell is expanded when it is popped, is not the goal and is not yet visited; it is then
marked visited and its neighbours are tried. -/
def searchExpansions (g : Grid) (endX endY : Int) : Nat → SearchState → List (Int × Int)
  | 0, _ => []
  | fuel + 1, s =>
    match frontierPop s.frontier with
    | none => []
    | some ((_, x, y), rest) =>
      if x = endX ∧ y = endY then []
      else if s.visited x y then searchExpansions g endX endY fuel { s with frontier := rest }
      else
        let s1 : SearchState :=
          { frontier := rest, cost := s.cost,
            visited := fun x' y' => if x' = x ∧ y' = y then true else s.visited x' y' }
        (x, y) ::
          searchExpansions g endX endY fuel (List.foldl (relax g endX endY x y) s1 [0, 1, 2, 3])

/-- The indices one pass of the neighbour loop of `PathExists` uses, for the direction `i`
from the cell `(x, y)`, in the order of use: `getGrid()[ny][nx]` once the bounds test has
passed, then `visited[ny][nx]`, then `getGrid()[y][x]` (whose `walls[i]` has `i < 4`),
then `cost[y][x]` and `cost[ny][nx]` (`&&` short-circuits). -/
def relaxReads (g : Grid) (x y : Int) (s : SearchState) (i : Fin 4) : List (Int × Int) :=
  let nx := x + (directions i).1
  let ny := y + (directions i).2
  if IsInBounds g nx ny then
    (nx, ny) ::
      if !(g.cell nx ny).isObstacle then
        (nx, ny) ::
          if !s.visited nx ny then
            (x, y) :: if !(g.cell x y).walls i then [(x, y), (nx, ny)] else []
          else []
      else []
  else []

/-- The indices the neighbour loop of `PathExists` uses over the directions `ds`. -/
def relaxAllReads (g : Grid) (endX endY x y : Int) :
    SearchState → List (Fin 4) → List (Int × Int)
  | _, [] => []
  | s, i :: ds =>
    relaxReads g x y s i ++ relaxAllReads g endX endY x y (relax g endX endY x y s i) ds

/-- The indices the loop of `PathExists` uses into the grid, the cost table and the
visited table in its next `fuel` iterations: `visited[y][x]` of the popped cell (read, and
written when the cell is expanded) and those of the neighbour loop. -/
def searchReads (g : Grid) (endX endY : Int) : Nat → SearchState → List (Int × Int)
  | 0, _ => []
  | fuel + 1, s =>
    match frontierPop s.frontier with
    | none => []
    | some ((_, x, y), rest) =>
      if x = endX ∧ y = endY then []
      else
        (x, y) ::
          if s.visited x y then searchReads g endX endY fuel { s with frontier := rest }
          else
            let s1 : SearchState :=
              { frontier := rest, cost := s.cost,
                visited := fun x' y' => if x' = x ∧ y' = y then true else s.visited x' y' }
            (x, y) :: (relaxAllReads g endX endY x y s1 [0, 1, 2, 3] ++
              searchReads g endX endY fuel (List.foldl (relax g endX endY x y) s1 [0, 1, 2, 3]))

/-- The indices `PathExists(startX, startY, endX, endY)` uses into the grid, the cost
table and the visited table: `cost[startY][startX]`, then those of its loop. -/
def PathExistsReads (g : Grid) (startX startY endX endY : Int) : List (Int × Int) :=
  (startX, startY) :: searchReads g endX endY (searchFuel g) (searchInit startX startY)

/-- The grid `h` of the obstacle loop over the maze `m`: same size, same walls, and none
of the cells `l` (the cells of the start-to-exit path) flagged as obstacle. -/
structure OffPath (m h : Grid) (l : List (Int × Int)) : Prop where
  rows_eq : h.rows = m.rows
  cols_eq : h.cols = m.cols
  walls_eq : ∀ x y, (h.cell x y).walls = (m.cell x y).walls
  free : ∀ v ∈ l, (h.cell v.1 v.2).isObstacle = false

/-! ## Sample inputs -/

/-- A two by two grid as `ResetGame` finds it. -/
def demoOld : Grid := { rows := 2, cols := 2, cell := fun _ _ => Cell.new 0 0 }

/-- A sample stream for `std::rand()`. -/
def demoRand : Nat → Nat := fun n => if n < 3 then n else 1

/-- A sample stream of raw engine draws. -/
def demoGen : Nat → Nat := fun n => n + 1

/-- The two by two maze `(0,0) - (1,0) - (1,1) - (0,1)`. -/
def demoMaze : Grid :=
  { rows := 2, cols := 2,
    cell := fun x y =>
      { Cell.new x y with
        visited := true,
        walls := fun i =>
          if x = 0 then decide (i ≠ 1)
          else if y = 0 then decide (i ≠ 2 ∧ i ≠ 3)
          else decide (i ≠ 0 ∧ i ≠ 3) } }

/-- A one by two grid with the wall between its two cells opened and the start cell
flagged as an obstacle. -/
def blockedStart : Grid :=
  { rows := 1, cols := 2,
    cell := fun x y =>
      { Cell.new x y with
        isObstacle := decide (x = 0),
        walls := fun i => if x = 0 then decide (i ≠ 1) else decide (i ≠ 3) } }

/-- A two by two grid with every wall in place. -/
def walledGrid : Grid := InitializeGrid demoOld

/-- The state `AddRandomObstacles` enters its loop with on `demoMaze`. -/
def demoEntry : ObstState := { grid := demoMaze, obstacleCount := 0, seed := 3, genPos := 0 }

/-- A one by one grid as `ResetGame` finds it. -/
def unitOld : Grid := { rows := 1, cols := 1, cell := fun _ _ => Cell.new 0 0 }

/-- A one by two grid with the wall between its two cells opened. -/
def corridor : Grid :=
  { rows := 1, cols := 2,
    cell := fun x y =>
      { Cell.new x y with
        visited := true,
        walls := fun i => if x = 0 then decide (i ≠ 1) else decide (i ≠ 3) } }

/-- A ten by ten grid as `ResetGame` finds it. -/
def tenOld : Grid := { rows := 10, cols := 10, cell := fun _ _ => Cell.new 0 0 }

/-- A second sample stream for `std::rand()`. -/
def tenRand : Nat → Nat := fun n => n * 7 + 3

/-- The maze `demoMaze` with other sprite fields and every `visited` flag cleared. -/
def demoPainted : Grid :=
  { demoMaze with
    cell := fun x y =>
      { demoMaze.cell x y with
        visited := false, spriteRow := 1, spriteCol := 15, logSpriteRow := 2,
        logSpriteCol := 2, desertObstacleType := DesertObstacleType.Tumbleweed } }

/-- The maze `demoMaze` with an obstacle on the cell `(0,1)`. -/
def demoBlocked : Grid := setObstacle demoMaze 0 1 true

/-! ## Counting the cells of the grid -/

theorem isInBounds_iff (g : Grid) (x y : Int) :
    IsInBounds g x y = true ↔ 0 ≤ x ∧ x < (g.cols : Int) ∧ 0 ≤ y ∧ y < (g.rows : Int) := by
  simp [IsInBounds, and_assoc]

theorem mem_allCells (g : Grid) (p : Int × Int) :
    p ∈ allCells g ↔ IsInBounds g p.1 p.2 = true := by
  rw [isInBounds_iff]
  simp only [allCells, List.mem_map, List.pair_mem_product, List.mem_range, Prod.exists]
  constructor
  · rintro ⟨a, b, ⟨ha, hb⟩, rfl⟩
    simp only
    omega
  · rintro ⟨h1, h2, h3, h4⟩
    refine ⟨p.1.toNat, p.2.toNat, ⟨by omega, by omega⟩, ?_⟩
    ext <;> simp <;> omega

theorem nodup_allCells (g : Grid) : (allCells g).Nodup := by
  unfold allCells
  refine List.Nodup.map ?_ (List.Nodup.product (List.nodup_range _) (List.nodup_range _))
  rintro ⟨a, b⟩ ⟨c, d⟩ h
  simp only [Prod.mk.injEq, Nat.cast_inj] at h
  simp [h.1, h.2]

theorem length_allCells (g : Grid) : (allCells g).length = g.rows * g.cols := by
  unfold allCells
  rw [List.length_map]
  exact (List.length_product _ _).trans (by simp [Nat.mul_comm])

theorem cellCount_le (g : Grid) (v : Int → Int → Bool) : cellCount g v ≤ g.rows * g.cols := by
  rw [← length_allCells]
  exact List.countP_le_length _

/-- Counting after one more element of the list satisfies the predicate. -/
theorem countP_update {α : Type} [DecidableEq α] (l : List α) (hl : l.Nodup) (a : α)
    (p q : α → Bool) (ha : a ∈ l) (hpa : p a = false) (hqa : q a = true)
    (hq : ∀ b ∈ l, b ≠ a → q b = p b) : List.countP q l = List.countP p l + 1 := by
  induction l with
  | nil => simp at ha
  | cons b l ih =>
    rw [List.nodup_cons] at hl
    by_cases hba : b = a
    · subst hba
      have : List.countP q l = List.countP p l := by
        apply List.countP_congr
        intro c hc
        have hcb : c ≠ b := fun h => hl.1 (h ▸ hc)
        rw [hq c (List.mem_cons_of_mem _ hc) hcb]
      simp [List.countP_cons, hpa, hqa, this]
    · have ha' : a ∈ l := by
        rcases List.mem_cons.1 ha with h | h
        · exact absurd h.symm hba
        · exact h
      have := ih hl.2 ha' (fun c hc => hq c (List.mem_cons_of_mem _ hc))
      simp [List.countP_cons, hq b (List.mem_cons_self _ _) hba, this]
      omega

theorem cellCount_mark (g : Grid) (v : Int → Int → Bool) (x y : Int)
    (hin : IsInBounds g x y = true) (hv : v x y = false) :
    cellCount g (fun x' y' => if x' = x ∧ y' = y then true else v x' y') = cellCount g v + 1 := by
  unfold cellCount
  apply countP_update _ (nodup_allCells g) (x, y)
  · exact (mem_allCells g (x, y)).2 hin
  · simpa using hv
  · simp
  · rintro ⟨a, b⟩ - hne
    have : ¬ (a = x ∧ b = y) := by
      rintro ⟨rfl, rfl⟩
      exact hne rfl
    simp [this]

/-! ## The path oracle: invariants of the search -/

theorem Seen.seen_mono {s t : SearchState} {b : Int × Int} (h : Seen s b)
    (hv : ∀ x y, s.visited x y = true → t.visited x y = true)
    (hf : ∀ n ∈ s.frontier, n ∈ t.frontier ∨ t.visited n.2.1 n.2.2 = true) : Seen t b := by
  rcases h with h | ⟨n, hn, rfl⟩
  · exact Or.inl (hv _ _ h)
  · rcases hf n hn with h | h
    · exact Or.inr ⟨n, h, rfl⟩
    · exact Or.inl h

theorem relax_visited (g : Grid) (endX endY x y : Int) (s : SearchState) (i : Fin 4) :
    (relax g endX endY x y s i).visited = s.visited := by
  unfold relax
  simp only
  split_ifs <;> rfl

theorem relax_length (g : Grid) (endX endY x y : Int) (s : SearchState) (i : Fin 4) :
    (relax g endX endY x y s i).frontier.length ≤ s.frontier.length + 1 := by
  unfold relax
  simp only
  split_ifs <;> simp

theorem relax_sound (g : Grid) (start : Int × Int) (endX endY x y : Int) (s : SearchState)
    (i : Fin 4) (hs : SearchSound g start s) (hr : Reach g start (x, y)) :
    SearchSound g start (relax g endX endY x y s i) := by
  unfold relax
  simp only
  split_ifs with h1 h2
  · simp only [Bool.and_eq_true, Bool.not_eq_eq_eq_not, Bool.not_true] at h1
    obtain ⟨⟨⟨hin, hob⟩, -⟩, hw⟩ := h1
    constructor
    · intro n hn
      rcases List.mem_cons.1 hn with rfl | hn
      · exact Relation.ReflTransGen.tail hr ⟨i, rfl, hin, hob, hw⟩
      · exact hs.reach n hn
    · intro n hn
      rcases List.mem_cons.1 hn with rfl | hn
      · exact hin
      · exact hs.inb n hn
  · exact hs
  · exact hs

theorem relax_complete (g : Grid) (start goal : Int × Int) (endX endY x y : Int)
    (s : SearchState) (i : Fin 4) (ds : List (Fin 4)) (hfit : GridFitsInt g)
    (hs : SearchComplete g start goal s (x, y) (i :: ds)) :
    SearchComplete g start goal (relax g endX endY x y s i) (x, y) ds := by
  have hcur := hs.cur_ok (List.cons_ne_nil _ _)
  have hbound : (cellCount g s.visited : Int) < INT_MAX :=
    lt_of_le_of_lt (by exact_mod_cast cellCount_le g s.visited) hfit
  unfold relax
  simp only
  split_ifs with h1 h2
  · simp only [Bool.and_eq_true, Bool.not_eq_eq_eq_not, Bool.not_true] at h1
    obtain ⟨⟨⟨hin, hob⟩, hnv⟩, hw⟩ := h1
    have hne : ¬ (x = x + (directions i).1 ∧ y = y + (directions i).2) := by
      rintro ⟨h1, h2⟩
      rw [← h1, ← h2] at hnv
      rw [hcur.1] at hnv
      exact Bool.noConfusion hnv
    have hmono : ∀ b, Seen s b → Seen
        { frontier := (s.cost x y + 1 + Heuristic (x + (directions i).1) (y + (directions i).2)
            endX endY, x + (directions i).1, y + (directions i).2) :: s.frontier,
          cost := fun x' y' =>
            if x' = x + (directions i).1 ∧ y' = y + (directions i).2 then s.cost x y + 1
            else s.cost x' y',
          visited := s.visited } b := fun b hb =>
      hb.seen_mono (fun _ _ h => h) (fun n hn => Or.inl (List.mem_cons_of_mem _ hn))
    constructor
    · exact hmono _ hs.start_seen
    · intro a j hv hstep
      rcases hs.closed a j hv hstep with ⟨rfl, hj⟩ | h
      · rcases List.mem_cons.1 hj with rfl | hj
        · exact Or.inr (Or.inr ⟨_, List.mem_cons_self _ _, rfl⟩)
        · exact Or.inl ⟨rfl, hj⟩
      · exact Or.inr (hmono _ h)
    · intro b hb
      simp only at hb
      split_ifs at hb with hb1
      · exact Or.inr ⟨_, List.mem_cons_self _ _, by ext <;> simp [hb1.1, hb1.2]⟩
      · exact hmono _ (hs.cost_seen b hb)
    · intro n hn
      simp only
      split_ifs with hb1
      · exact hcur.2
      · rcases List.mem_cons.1 hn with rfl | hn
        · exact absurd ⟨rfl, rfl⟩ hb1
        · exact hs.front_cost n hn
    · exact hs.goal_unvisited
    · intro _
      refine ⟨hcur.1, ?_⟩
      simp only [if_neg hne]
      exact hcur.2
  · refine ⟨hs.start_seen, ?_, hs.cost_seen, hs.front_cost, hs.goal_unvisited,
      fun _ => hcur⟩
    intro a j hv hstep
    rcases hs.closed a j hv hstep with ⟨rfl, hj⟩ | h
    · rcases List.mem_cons.1 hj with rfl | hj
      · refine Or.inr (hs.cost_seen _ ?_)
        have h3 : s.cost (neighbor (x, y) j).1 (neighbor (x, y) j).2 ≤ s.cost x y + 1 :=
          not_lt.1 h2
        exact lt_of_le_of_lt (le_trans h3 hcur.2) hbound
      · exact Or.inl ⟨rfl, hj⟩
    · exact Or.inr h
  · refine ⟨hs.start_seen, ?_, hs.cost_seen, hs.front_cost, hs.goal_unvisited,
      fun _ => hcur⟩
    intro a j hv hstep
    rcases hs.closed a j hv hstep with ⟨rfl, hj⟩ | h
    · rcases List.mem_cons.1 hj with rfl | hj
      · obtain ⟨hin, hob, hw⟩ := hstep
        have hvis : s.visited (neighbor (x, y) j).1 (neighbor (x, y) j).2 = true := by
          by_contra hc
          apply h1
          simp only [neighbor] at hin hob hc hw
          simp [hin, hob, hw, hc]
        exact Or.inr (Or.inl hvis)
      · exact Or.inl ⟨rfl, hj⟩
    · exact Or.inr h

theorem foldl_relax_visited (g : Grid) (endX endY x y : Int) (ds : List (Fin 4))
    (s : SearchState) :
    (List.foldl (relax g endX endY x y) s ds).visited = s.visited := by
  induction ds generalizing s with
  | nil => rfl
  | cons i ds ih => rw [List.foldl_cons, ih, relax_visited]

theorem foldl_relax_length (g : Grid) (endX endY x y : Int) (ds : List (Fin 4))
    (s : SearchState) :
    (List.foldl (relax g endX endY x y) s ds).frontier.length ≤ s.frontier.length + ds.length := by
  induction ds generalizing s with
  | nil => simp
  | cons i ds ih =>
    rw [List.foldl_cons, List.length_cons]
    have h1 := ih (relax g endX endY x y s i)
    have h2 := relax_length g endX endY x y s i
    omega

theorem foldl_relax_sound (g : Grid) (start : Int × Int) (endX endY x y : Int)
    (ds : List (Fin 4)) (s : SearchState) (hs : SearchSound g start s)
    (hr : Reach g start (x, y)) :
    SearchSound g start (List.foldl (relax g endX endY x y) s ds) := by
  induction ds generalizing s with
  | nil => exact hs
  | cons i ds ih =>
    rw [List.foldl_cons]
    exact ih _ (relax_sound g start endX endY x y s i hs hr)

theorem foldl_relax_complete (g : Grid) (start goal : Int × Int) (endX endY x y : Int)
    (hfit : GridFitsInt g) (ds : List (Fin 4)) (s : SearchState)
    (hs : SearchComplete g start goal s (x, y) ds) :
    SearchComplete g start goal (List.foldl (relax g endX endY x y) s ds) (x, y) [] := by
  induction ds generalizing s with
  | nil => exact hs
  | cons i ds ih =>
    rw [List.foldl_cons]
    exact ih _ (relax_complete g start goal endX endY x y s i ds hfit hs)

theorem frontierTop_mem (a : Node) (l : List Node) : frontierTop a l ∈ a :: l := by
  induction l generalizing a with
  | nil => simp [frontierTop]
  | cons b l ih =>
    unfold frontierTop
    split_ifs
    · exact List.mem_cons_of_mem _ (ih b)
    · rcases List.mem_cons.1 (ih a) with h | h
      · rw [h]; exact List.mem_cons_self _ _
      · exact List.mem_cons_of_mem _ (List.mem_cons_of_mem _ h)

theorem frontierPop_none (l : List Node) (h : frontierPop l = none) : l = [] := by
  cases l with
  | nil => rfl
  | cons a l => simp [frontierPop] at h

theorem frontierPop_some (l : List Node) (m : Node) (rest : List Node)
    (h : frontierPop l = some (m, rest)) :
    m ∈ l ∧ (∀ n ∈ rest, n ∈ l) ∧ (∀ n ∈ l, n = m ∨ n ∈ rest) ∧ rest.length + 1 = l.length := by
  cases l with
  | nil => simp [frontierPop] at h
  | cons a l =>
    simp only [frontierPop, Option.some.injEq, Prod.mk.injEq] at h
    obtain ⟨rfl, rfl⟩ := h
    have hm := frontierTop_mem a l
    refine ⟨hm, fun n hn => List.mem_of_mem_erase hn, ?_, ?_⟩
    · intro n hn
      by_cases hnm : n = frontierTop a l
      · exact Or.inl hnm
      · exact Or.inr ((List.mem_erase_of_ne hnm).2 hn)
    · rw [List.length_erase_of_mem hm]
      simp

theorem searchLoop_total (g : Grid) (start : Int × Int) (endX endY : Int) (fuel : Nat)
    (s : SearchState) (hs : SearchSound g start s) (hfuel : searchMeasure g s < fuel) :
    ∃ b, searchLoop g endX endY fuel s = some b := by
  induction fuel generalizing s with
  | zero => omega
  | succ fuel ih =>
    unfold searchLoop
    cases hpop : frontierPop s.frontier with
    | none => exact ⟨false, rfl⟩
    | some r =>
      obtain ⟨⟨c, x, y⟩, rest⟩ := r
      obtain ⟨hm, hsub, -, hlen⟩ := frontierPop_some _ _ _ hpop
      simp only
      split_ifs with h1 h2
      · exact ⟨true, rfl⟩
      · apply ih
        · exact ⟨fun n hn => hs.reach n (hsub n hn), fun n hn => hs.inb n (hsub n hn)⟩
        · unfold searchMeasure at hfuel ⊢
          simp only
          omega
      · have hin := hs.inb _ hm
        simp only at hin
        have hv : s.visited x y = false := by simpa using h2
        apply ih
        · apply foldl_relax_sound
          · exact ⟨fun n hn => hs.reach n (hsub n hn), fun n hn => hs.inb n (hsub n hn)⟩
          · exact hs.reach _ hm
        · unfold searchMeasure at hfuel ⊢
          have h3 := foldl_relax_length g endX endY x y [0, 1, 2, 3]
            { frontier := rest, cost := s.cost,
              visited := fun x' y' => if x' = x ∧ y' = y then true else s.visited x' y' }
          rw [foldl_relax_visited]
          simp only [List.length_cons, List.length_nil] at h3 ⊢
          have h4 := cellCount_mark g s.visited x y hin hv
          have h5 := cellCount_le g
            (fun x' y' => if x' = x ∧ y' = y then true else s.visited x' y')
          omega

theorem searchLoop_sound (g : Grid) (start : Int × Int) (endX endY : Int) (fuel : Nat)
    (s : SearchState) (hs : SearchSound g start s)
    (h : searchLoop g endX endY fuel s = some true) : Reach g start (endX, endY) := by
  induction fuel generalizing s with
  | zero => simp [searchLoop] at h
  | succ fuel ih =>
    unfold searchLoop at h
    cases hpop : frontierPop s.frontier with
    | none => simp [hpop] at h
    | some r =>
      obtain ⟨⟨c, x, y⟩, rest⟩ := r
      obtain ⟨hm, hsub, -, -⟩ := frontierPop_some _ _ _ hpop
      have hrest : SearchSound g start { s with frontier := rest } :=
        ⟨fun n hn => hs.reach n (hsub n hn), fun n hn => hs.inb n (hsub n hn)⟩
      rw [hpop] at h
      simp only at h
      split_ifs at h with h1 h2
      · have := hs.reach _ hm
        simp only at this
        rw [h1.1, h1.2] at this
        exact this
      · exact ih _ hrest h
      · exact ih _ (foldl_relax_sound g start endX endY x y _ _
          ⟨fun n hn => hs.reach n (hsub n hn), fun n hn => hs.inb n (hsub n hn)⟩
          (hs.reach _ hm)) h

theorem visited_of_reach (g : Grid) (start goal : Int × Int) (s : SearchState)
    (hs : SearchComplete g start goal s goal []) (hempty : s.frontier = [])
    (b : Int × Int) (hr : Reach g start b) : s.visited b.1 b.2 = true := by
  have seen_vis : ∀ c, Seen s c → s.visited c.1 c.2 = true := by
    rintro c (h | ⟨n, hn, -⟩)
    · exact h
    · rw [hempty] at hn
      simp at hn
  induction hr with
  | refl => exact seen_vis _ hs.start_seen
  | tail _ hstep ih =>
    obtain ⟨i, rfl, hdir⟩ := hstep
    rcases hs.closed _ i ih hdir with ⟨-, hi⟩ | h
    · simp at hi
    · exact seen_vis _ h

theorem searchLoop_complete (g : Grid) (start : Int × Int) (endX endY : Int)
    (hfit : GridFitsInt g) (hr : Reach g start (endX, endY)) (fuel : Nat)
    (s : SearchState) (cur : Int × Int) (hsound : SearchSound g start s)
    (hs : SearchComplete g start (endX, endY) s cur []) :
    searchLoop g endX endY fuel s ≠ some false := by
  have anycur : ∀ (t : SearchState) (c c' : Int × Int),
      SearchComplete g start (endX, endY) t c [] → SearchComplete g start (endX, endY) t c' [] := by
    intro t c c' ht
    refine ⟨ht.start_seen, ?_, ht.cost_seen, ht.front_cost, ht.goal_unvisited,
      fun h => absurd rfl h⟩
    intro a i hv hd
    rcases ht.closed a i hv hd with ⟨-, hi⟩ | h
    · simp at hi
    · exact Or.inr h
  induction fuel generalizing s cur with
  | zero => simp [searchLoop]
  | succ fuel ih =>
    unfold searchLoop
    cases hpop : frontierPop s.frontier with
    | none =>
      exfalso
      have hempty := frontierPop_none _ hpop
      have := visited_of_reach g start (endX, endY) s (anycur _ _ _ hs) hempty _ hr
      rw [hs.goal_unvisited] at this
      exact Bool.noConfusion this
    | some r =>
      obtain ⟨⟨c, x, y⟩, rest⟩ := r
      obtain ⟨hm, hsub, hcov, -⟩ := frontierPop_some _ _ _ hpop
      have hrest : ∀ v, SearchSound g start { frontier := rest, cost := s.cost, visited := v } :=
        fun v => ⟨fun n hn => hsound.reach n (hsub n hn), fun n hn => hsound.inb n (hsub n hn)⟩
      simp only
      split_ifs with h1 h2
      · simp
      · apply ih _ cur (hrest _)
        have hmono : ∀ b, Seen s b → Seen { s with frontier := rest } b := by
          intro b hb
          refine Seen.seen_mono hb (fun _ _ h => h) ?_
          intro n hn
          rcases hcov n hn with rfl | h
          · exact Or.inr h2
          · exact Or.inl h
        refine ⟨hmono _ hs.start_seen, ?_, fun b hb => hmono _ (hs.cost_seen b hb),
          fun n hn => hs.front_cost n (hsub n hn), hs.goal_unvisited, fun h => absurd rfl h⟩
        intro a i hv hd
        rcases hs.closed a i hv hd with ⟨-, hi⟩ | h
        · simp at hi
        · exact Or.inr (hmono _ h)
      · have hin := hsound.inb _ hm
        simp only at hin
        have hv : s.visited x y = false := by simpa using h2
        apply ih _ (x, y)
          (foldl_relax_sound g start endX endY x y _ _ (hrest _) (hsound.reach _ hm))
        apply foldl_relax_complete g start (endX, endY) endX endY x y hfit
        have hmono : ∀ b, Seen s b → Seen
            { frontier := rest, cost := s.cost,
              visited := fun x' y' => if x' = x ∧ y' = y then true else s.visited x' y' } b := by
          intro b hb
          refine Seen.seen_mono hb ?_ ?_
          · intro x' y' h
            simp only
            split_ifs
            · rfl
            · exact h
          · intro n hn
            rcases hcov n hn with rfl | h
            · right; simp
            · exact Or.inl h
        have hcount := cellCount_mark g s.visited x y hin hv
        refine ⟨hmono _ hs.start_seen, ?_, fun b hb => hmono _ (hs.cost_seen b hb), ?_, ?_, ?_⟩
        · intro a i hva hd
          simp only at hva
          split_ifs at hva with hax
          · left
            refine ⟨by ext <;> simp [hax.1, hax.2], ?_⟩
            fin_cases i <;> simp
          · rcases hs.closed a i hva hd with ⟨-, hi⟩ | h
            · simp at hi
            · exact Or.inr (hmono _ h)
        · intro n hn
          have := hs.front_cost n (hsub n hn)
          simp only at this ⊢
          rw [hcount]
          push_cast
          omega
        · simp only
          rw [if_neg (fun h => h1 ⟨h.1.symm, h.2.symm⟩)]
          exact hs.goal_unvisited
        · intro _
          have := hs.front_cost _ hm
          simp only at this ⊢
          rw [hcount]
          refine ⟨by simp, ?_⟩
          push_cast
          omega

theorem searchInit_sound (g : Grid) (startX startY : Int)
    (hin : IsInBounds g startX startY = true) :
    SearchSound g (startX, startY) (searchInit startX startY) := by
  constructor
  · intro n hn
    simp only [searchInit, List.mem_singleton] at hn
    subst hn
    exact Relation.ReflTransGen.refl
  · intro n hn
    simp only [searchInit, List.mem_singleton] at hn
    subst hn
    exact hin

theorem searchInit_complete (g : Grid) (startX startY endX endY : Int) :
    SearchComplete g (startX, startY) (endX, endY) (searchInit startX startY) (endX, endY) [] := by
  refine ⟨Or.inr ⟨_, List.mem_singleton_self _, rfl⟩, ?_, ?_, ?_, rfl, fun h => absurd rfl h⟩
  · intro a i hv
    simp [searchInit] at hv
  · intro b hb
    simp only [searchInit] at hb
    split_ifs at hb with h
    · exact Or.inr ⟨_, List.mem_singleton_self _, by ext <;> simp [h.1, h.2]⟩
    · exact absurd hb (lt_irrefl _)
  · intro n hn
    simp only [searchInit, List.mem_singleton] at hn
    subst hn
    simp [searchInit]

/-- The call `PathExists` returns: its loop ends within the iteration bound. -/
theorem PathExists_total (g : Grid) (startX startY endX endY : Int)
    (hin : IsInBounds g startX startY = true) :
    ∃ b, PathExists g startX startY endX endY = some b := by
  apply searchLoop_total g (startX, startY) endX endY _ _ (searchInit_sound g _ _ hin)
  unfold searchMeasure searchFuel
  simp only [searchInit, List.length_singleton]
  have := Nat.sub_le (g.rows * g.cols) (cellCount g fun _ _ => false)
  omega

theorem PathExists_sound (g : Grid) (startX startY endX endY : Int)
    (hin : IsInBounds g startX startY = true)
    (h : PathExists g startX startY endX endY = some true) :
    Reach g (startX, startY) (endX, endY) :=
  searchLoop_sound g (startX, startY) endX endY _ _ (searchInit_sound g _ _ hin) h

theorem PathExists_complete (g : Grid) (startX startY endX endY : Int)
    (hin : IsInBounds g startX startY = true) (hfit : GridFitsInt g)
    (h : Reach g (startX, startY) (endX, endY)) :
    PathExists g startX startY endX endY = some true := by
  obtain ⟨b, hb⟩ := PathExists_total g startX startY endX endY hin
  have hne := searchLoop_complete g (startX, startY) endX endY hfit h (searchFuel g)
    (searchInit startX startY) (endX, endY) (searchInit_sound g _ _ hin)
    (searchInit_complete g startX startY endX endY)
  cases b with
  | true => exact hb
  | false => exact absurd hb hne

theorem PathExists_false (g : Grid) (startX startY endX endY : Int)
    (hin : IsInBounds g startX startY = true)
    (h : ¬ Reach g (startX, startY) (endX, endY)) :
    PathExists g startX startY endX endY = some false := by
  obtain ⟨b, hb⟩ := PathExists_total g startX startY endX endY hin
  cases b with
  | true => exact absurd (PathExists_sound g _ _ _ _ hin hb) h
  | false => exact hb

/-! ## The path oracle reads walls and obstacle flags only -/

theorem SameMaze.same_refl (g : Grid) : SameMaze g g := ⟨rfl, rfl, fun _ _ => ⟨rfl, rfl⟩⟩

theorem SameMaze.same_symm {g h : Grid} (e : SameMaze g h) : SameMaze h g :=
  ⟨e.1.symm, e.2.1.symm, fun x y => ⟨(e.2.2 x y).1.symm, (e.2.2 x y).2.symm⟩⟩

theorem SameMaze.same_trans {g h k : Grid} (e : SameMaze g h) (f : SameMaze h k) : SameMaze g k :=
  ⟨e.1.trans f.1, e.2.1.trans f.2.1,
    fun x y => ⟨(e.2.2 x y).1.trans (f.2.2 x y).1, (e.2.2 x y).2.trans (f.2.2 x y).2⟩⟩

theorem SameMaze.same_bounds {g h : Grid} (e : SameMaze g h) (x y : Int) :
    IsInBounds g x y = IsInBounds h x y := by
  unfold IsInBounds
  rw [e.1, e.2.1]

theorem relax_congr {g h : Grid} (e : SameMaze g h) (endX endY x y : Int) :
    relax g endX endY x y = relax h endX endY x y := by
  funext s i
  unfold relax
  simp only [e.same_bounds, (e.2.2 _ _).1, (e.2.2 _ _).2]

theorem searchLoop_congr {g h : Grid} (e : SameMaze g h) (endX endY : Int) (fuel : Nat)
    (s : SearchState) : searchLoop g endX endY fuel s = searchLoop h endX endY fuel s := by
  induction fuel generalizing s with
  | zero => rfl
  | succ fuel ih =>
    unfold searchLoop
    simp only [ih, relax_congr e]

theorem PathExists_congr {g h : Grid} (e : SameMaze g h) (startX startY endX endY : Int) :
    PathExists g startX startY endX endY = PathExists h startX startY endX endY := by
  unfold PathExists searchFuel
  rw [e.1, e.2.1]
  exact searchLoop_congr e _ _ _ _

/-! ## Directions, walls and the passage graph -/

theorem neighbor_ne (a : Int × Int) (i : Fin 4) : neighbor a i ≠ a := by
  intro h
  have h1 := congrArg Prod.fst h
  have h2 := congrArg Prod.snd h
  fin_cases i <;> simp [neighbor, directions] at h1 h2

theorem neighbor_neighbor (a : Int × Int) (i : Fin 4) : neighbor (neighbor a i) (i + 2) = a := by
  fin_cases i <;> ext <;> simp [neighbor, directions]

theorem fin4_add_two_add_two (i : Fin 4) : i + 2 + 2 = i := by
  fin_cases i <;> rfl

theorem neighbor_injective (a b : Int × Int) (i : Fin 4) (h : neighbor a i = neighbor b i) :
    a = b := by
  have h1 := congrArg Prod.fst h
  have h2 := congrArg Prod.snd h
  simp only [neighbor, add_left_inj] at h1 h2
  exact Prod.ext h1 h2

theorem carvedAt_neighbor (c : Int × Int) (i : Fin 4) (p : Int × Int) (j : Fin 4) :
    CarvedAt c i (neighbor p j) (j + 2) ↔ CarvedAt c i p j := by
  unfold CarvedAt
  constructor
  · rintro (⟨h1, h2⟩ | ⟨h1, h2⟩)
    · subst h1 h2
      exact Or.inr ⟨(neighbor_neighbor p j).symm, (fin4_add_two_add_two j).symm⟩
    · left
      have hj : j = i := by
        have := congrArg (· + 2) h2
        simpa [fin4_add_two_add_two] using this
      subst hj
      exact ⟨neighbor_injective _ _ _ h1, rfl⟩
  · rintro (⟨rfl, rfl⟩ | ⟨rfl, rfl⟩)
    · exact Or.inr ⟨rfl, rfl⟩
    · exact Or.inl ⟨neighbor_neighbor c i, fin4_add_two_add_two i⟩

theorem clearWall_walls (g : Grid) (p : Int × Int) (i : Fin 4) (x y : Int) (j : Fin 4) :
    ((clearWall g p i).cell x y).walls j =
      if (x, y) = p ∧ j = i then false else (g.cell x y).walls j := by
  obtain ⟨px, py⟩ := p
  simp only [clearWall, Grid.set, Prod.mk.injEq]
  by_cases h : x = px ∧ y = py
  · obtain ⟨rfl, rfl⟩ := h
    by_cases hj : j = i <;> simp [hj]
  · simp [h]

theorem clearWall_fields (g : Grid) (p : Int × Int) (i : Fin 4) (x y : Int) :
    ((clearWall g p i).cell x y).x = (g.cell x y).x ∧
      ((clearWall g p i).cell x y).y = (g.cell x y).y ∧
      ((clearWall g p i).cell x y).visited = (g.cell x y).visited ∧
      ((clearWall g p i).cell x y).isObstacle = (g.cell x y).isObstacle := by
  obtain ⟨px, py⟩ := p
  simp only [clearWall, Grid.set]
  by_cases h : x = px ∧ y = py
  · obtain ⟨rfl, rfl⟩ := h
    simp
  · simp [h]

theorem markVisited_fields (g : Grid) (p : Int × Int) (x y : Int) :
    ((markVisited g p).cell x y).x = (g.cell x y).x ∧
      ((markVisited g p).cell x y).y = (g.cell x y).y ∧
      ((markVisited g p).cell x y).walls = (g.cell x y).walls ∧
      ((markVisited g p).cell x y).isObstacle = (g.cell x y).isObstacle ∧
      ((markVisited g p).cell x y).visited =
        if (x, y) = p then true else (g.cell x y).visited := by
  obtain ⟨px, py⟩ := p
  simp only [markVisited, Grid.set, Prod.mk.injEq]
  by_cases h : x = px ∧ y = py
  · obtain ⟨rfl, rfl⟩ := h
    simp
  · simp [h]

theorem RemoveWalls_eq (g : Grid) (c : Int × Int) (i : Fin 4)
    (hc : (g.cell c.1 c.2).x = c.1 ∧ (g.cell c.1 c.2).y = c.2)
    (hn : (g.cell (neighbor c i).1 (neighbor c i).2).x = (neighbor c i).1 ∧
      (g.cell (neighbor c i).1 (neighbor c i).2).y = (neighbor c i).2) :
    RemoveWalls g c (neighbor c i) = clearWall (clearWall g c i) (neighbor c i) (i + 2) := by
  unfold RemoveWalls
  simp only [hc.1, hc.2, hn.1, hn.2]
  fin_cases i <;> simp [neighbor, directions]

theorem carved_step (g : Grid) (c : Int × Int) (i : Fin 4)
    (hc : (g.cell c.1 c.2).x = c.1 ∧ (g.cell c.1 c.2).y = c.2)
    (hn : (g.cell (neighbor c i).1 (neighbor c i).2).x = (neighbor c i).1 ∧
      (g.cell (neighbor c i).1 (neighbor c i).2).y = (neighbor c i).2) :
    Carved g (RemoveWalls (markVisited g (neighbor c i)) c (neighbor c i)) c i := by
  have hm := markVisited_fields g (neighbor c i)
  rw [RemoveWalls_eq _ c i (by rw [(hm _ _).1, (hm _ _).2.1]; exact hc)
    (by rw [(hm _ _).1, (hm _ _).2.1]; exact hn)]
  refine ⟨rfl, rfl, ?_, ?_, ?_, ?_, ?_⟩
  · intro x y
    rw [(clearWall_fields _ _ _ x y).1, (clearWall_fields _ _ _ x y).1, (hm x y).1]
  · intro x y
    rw [(clearWall_fields _ _ _ x y).2.1, (clearWall_fields _ _ _ x y).2.1, (hm x y).2.1]
  · intro x y
    rw [(clearWall_fields _ _ _ x y).2.2.2, (clearWall_fields _ _ _ x y).2.2.2,
      (hm x y).2.2.2.1]
  · intro x y
    rw [(clearWall_fields _ _ _ x y).2.2.1, (clearWall_fields _ _ _ x y).2.2.1,
      (hm x y).2.2.2.2]
  · intro x y j
    rw [clearWall_walls, clearWall_walls, (hm x y).2.2.1]
    unfold CarvedAt
    by_cases h1 : (x, y) = c ∧ j = i
    · simp [h1]
    · by_cases h2 : (x, y) = neighbor c i ∧ j = i + 2
      · simp [h2]
      · simp [h1, h2]

/-- Joining an isolated vertex `n` to a vertex `c` of an acyclic graph by one edge
leaves the graph acyclic. -/
theorem isAcyclic_add_leaf {V : Type} [DecidableEq V] (G H : SimpleGraph V) (c n : V)
    (hiso : ∀ v, ¬ G.Adj n v)
    (hadj : ∀ a b, H.Adj a b ↔ G.Adj a b ∨ (a = c ∧ b = n) ∨ (a = n ∧ b = c))
    (hG : G.IsAcyclic) : H.IsAcyclic := by
  have hn : ∀ v, H.Adj n v → v = c := by
    intro v hv
    rcases (hadj n v).1 hv with h | ⟨-, h⟩ | ⟨-, h⟩
    · exact absurd h (hiso v)
    · exact absurd h.symm hv.ne
    · exact h
  intro v w hw
  by_cases hmem : n ∈ w.support
  · have hrot := hw.rotate hmem
    generalize w.rotate hmem = r at hrot
    cases r with
    | nil => exact hrot.ne_nil rfl
    | cons h p =>
      rename_i u
      rw [SimpleGraph.Walk.cons_isCycle_iff] at hrot
      obtain ⟨hp, hedge⟩ := hrot
      have hu : u = c := hn u h
      subst hu
      apply hedge
      have hrev : s(n, u) ∈ p.reverse.edges := by
        generalize p.reverse = q
        cases q with
        | nil => exact absurd rfl h.ne
        | cons h' q' =>
          rename_i z
          have hz : z = u := hn z h'
          subst hz
          simp
      rw [SimpleGraph.Walk.edges_reverse] at hrev
      exact List.mem_reverse.1 hrev
  · have hedges : ∀ e ∈ w.edges, e ∈ G.edgeSet := by
      intro e he
      induction e using Sym2.ind with
      | _ a b =>
        have ha := w.fst_mem_support_of_mem_edges he
        have hb := w.snd_mem_support_of_mem_edges he
        have hab := w.adj_of_mem_edges he
        rcases (hadj a b).1 hab with h | ⟨-, h⟩ | ⟨h, -⟩
        · exact h
        · exact absurd (h ▸ hb) hmem
        · exact absurd (h ▸ ha) hmem
    exact hG _ (hw.transfer hedges)

/-! ## Maze generation: the loop invariant -/

theorem GetUnvisitedNeighbor_some (g : Grid) (rand : Nat → Nat) (k k' : Nat)
    (cur next : Int × Int) (hc : (g.cell cur.1 cur.2).x = cur.1 ∧ (g.cell cur.1 cur.2).y = cur.2)
    (h : GetUnvisitedNeighbor g rand k cur = (some next, k')) :
    ∃ i : Fin 4, next = neighbor cur i ∧ IsInBounds g next.1 next.2 = true ∧
      (g.cell next.1 next.2).visited = false := by
  unfold GetUnvisitedNeighbor at h
  simp only [hc.1, hc.2] at h
  split at h
  · simp at h
  · rename_i d ds heq
    simp only [Prod.mk.injEq, Option.some.injEq] at h
    have hlt : rand k % (d :: ds).length < (d :: ds).length :=
      Nat.mod_lt _ (by simp)
    obtain ⟨h1, -⟩ := h
    generalize hr : (d :: ds).getD (rand k % (d :: ds).length) d = r at h1
    have hmem : r ∈ d :: ds := by
      rw [← hr, List.getD_eq_getElem _ _ hlt]
      exact List.getElem_mem _
    rw [← heq, List.mem_filter] at hmem
    have hp := hmem.2
    simp only [Bool.and_eq_true, Bool.not_eq_eq_eq_not, Bool.not_true] at hp
    subst h1
    exact ⟨r, rfl, hp.1, hp.2⟩

theorem GetUnvisitedNeighbor_none (g : Grid) (rand : Nat → Nat) (k k' : Nat)
    (cur : Int × Int) (hc : (g.cell cur.1 cur.2).x = cur.1 ∧ (g.cell cur.1 cur.2).y = cur.2)
    (h : GetUnvisitedNeighbor g rand k cur = (none, k')) (i : Fin 4)
    (hin : IsInBounds g (neighbor cur i).1 (neighbor cur i).2 = true) :
    (g.cell (neighbor cur i).1 (neighbor cur i).2).visited = true := by
  unfold GetUnvisitedNeighbor at h
  simp only [hc.1, hc.2] at h
  split at h
  · rename_i heq
    have hi : i ∈ ([0, 1, 2, 3] : List (Fin 4)) := by fin_cases i <;> simp
    have := List.filter_eq_nil_iff.1 heq i hi
    simp only [Bool.and_eq_true, Bool.not_eq_eq_eq_not, Bool.not_true, not_and,
      Bool.not_eq_false] at this
    exact this hin
  · simp at h

theorem Carved.carved_bounds {g h : Grid} {c : Int × Int} {i : Fin 4} (hc : Carved g h c i)
    (x y : Int) : IsInBounds h x y = IsInBounds g x y := by
  unfold IsInBounds
  rw [hc.rows_eq, hc.cols_eq]

theorem Carved.cells_eq {g h : Grid} {c : Int × Int} {i : Fin 4} (hc : Carved g h c i) :
    allCells h = allCells g := by
  unfold PortalPaths.allCells
  rw [hc.rows_eq, hc.cols_eq]

theorem Carved.walls_false {g h : Grid} {c : Int × Int} {i : Fin 4} (hc : Carved g h c i)
    (x y : Int) (j : Fin 4) (hw : (g.cell x y).walls j = false) :
    (h.cell x y).walls j = false := by
  rw [hc.walls_eq]
  split_ifs
  · rfl
  · exact hw

theorem Carved.walls_carved {g h : Grid} {c : Int × Int} {i : Fin 4} (hc : Carved g h c i)
    (p : Int × Int) (j : Fin 4) (hp : CarvedAt c i p j) : (h.cell p.1 p.2).walls j = false := by
  rw [hc.walls_eq, if_pos hp]

theorem Carved.step_mono {g h : Grid} {c : Int × Int} {i : Fin 4} (hc : Carved g h c i)
    (a b : Int × Int) (hs : Step g a b) : Step h a b := by
  obtain ⟨j, rfl, hin, hob, hw⟩ := hs
  refine ⟨j, rfl, ?_, ?_, hc.walls_false _ _ _ hw⟩
  · rw [hc.carved_bounds]; exact hin
  · rw [hc.obst_eq]; exact hob

theorem Carved.reach_mono {g h : Grid} {c : Int × Int} {i : Fin 4} (hc : Carved g h c i)
    (a b : Int × Int) (hr : Reach g a b) : Reach h a b :=
  Relation.ReflTransGen.mono (hc.step_mono) hr

theorem Carved.adj_iff {g h : Grid} {c : Int × Int} {i : Fin 4} (hc : Carved g h c i)
    (hcin : IsInBounds g c.1 c.2 = true)
    (hnin : IsInBounds g (neighbor c i).1 (neighbor c i).2 = true) (a b : Int × Int) :
    (passageGraph h).Adj a b ↔
      (passageGraph g).Adj a b ∨ (a = c ∧ b = neighbor c i) ∨ (a = neighbor c i ∧ b = c) := by
  constructor
  · rintro ⟨j, rfl, ha, hb, hwa, hwb⟩
    by_cases hcarve : CarvedAt c i a j
    · rcases hcarve with ⟨rfl, rfl⟩ | ⟨rfl, rfl⟩
      · exact Or.inr (Or.inl ⟨rfl, rfl⟩)
      · exact Or.inr (Or.inr ⟨rfl, neighbor_neighbor _ _⟩)
    · left
      rw [hc.walls_eq, if_neg hcarve] at hwa
      rw [hc.walls_eq, if_neg (by rw [carvedAt_neighbor]; exact hcarve)] at hwb
      rw [hc.carved_bounds] at ha hb
      exact ⟨j, rfl, ha, hb, hwa, hwb⟩
  · rintro (⟨j, rfl, ha, hb, hwa, hwb⟩ | ⟨rfl, rfl⟩ | ⟨rfl, rfl⟩)
    · refine ⟨j, rfl, ?_, ?_, hc.walls_false _ _ _ hwa, hc.walls_false _ _ _ hwb⟩
      · rw [hc.carved_bounds]; exact ha
      · rw [hc.carved_bounds]; exact hb
    · refine ⟨i, rfl, ?_, ?_, ?_, ?_⟩
      · rw [hc.carved_bounds]; exact hcin
      · rw [hc.carved_bounds]; exact hnin
      · exact hc.walls_carved _ _ (Or.inl ⟨rfl, rfl⟩)
      · exact hc.walls_carved _ _ (Or.inr ⟨rfl, rfl⟩)
    · refine ⟨i + 2, (neighbor_neighbor b i).symm, ?_, ?_, ?_, ?_⟩
      · rw [hc.carved_bounds]; exact hnin
      · rw [hc.carved_bounds]; exact hcin
      · exact hc.walls_carved _ _ (Or.inr ⟨rfl, rfl⟩)
      · exact hc.walls_carved _ _ (Or.inl ⟨rfl, fin4_add_two_add_two i⟩)

theorem carveKey_carved (c : Int × Int) (i : Fin 4) :
    CarvedAt c i (carveKey c i).1 (carveKey c i).2 := by
  unfold carveKey
  split_ifs
  · exact Or.inl ⟨rfl, rfl⟩
  · exact Or.inr ⟨rfl, rfl⟩

theorem carveKey_dir (c : Int × Int) (i : Fin 4) :
    (carveKey c i).2 = 1 ∨ (carveKey c i).2 = 2 := by
  unfold carveKey
  fin_cases i <;> simp

theorem carveKey_unique (c : Int × Int) (i : Fin 4) (p : Int × Int) (j : Fin 4)
    (hj : j = 1 ∨ j = 2) (h : CarvedAt c i p j) : (p, j) = carveKey c i := by
  unfold carveKey
  rcases h with ⟨rfl, rfl⟩ | ⟨rfl, rfl⟩
  · rw [if_pos hj]
  · have : ¬ (i = 1 ∨ i = 2) := by
      revert hj
      fin_cases i <;> simp
    rw [if_neg this]

theorem nodup_pairs (g : Grid) : (List.product (allCells g) ([1, 2] : List (Fin 4))).Nodup :=
  List.Nodup.product (nodup_allCells g) (by decide)

theorem mem_pairs (g : Grid) (e : (Int × Int) × Fin 4) :
    e ∈ List.product (allCells g) ([1, 2] : List (Fin 4)) ↔
      IsInBounds g e.1.1 e.1.2 = true ∧ (e.2 = 1 ∨ e.2 = 2) := by
  obtain ⟨p, j⟩ := e
  rw [List.pair_mem_product, mem_allCells]
  simp

theorem pairOpen_carved {g h : Grid} {c : Int × Int} {i : Fin 4} (hc : Carved g h c i)
    (p : Int × Int) (j : Fin 4) (hin : IsInBounds g (neighbor p j).1 (neighbor p j).2 = true)
    (hp : CarvedAt c i p j) : pairOpen h (p, j) = true := by
  unfold pairOpen
  simp only
  rw [hc.carved_bounds, hin, hc.walls_carved p j hp,
    hc.walls_carved (neighbor p j) (j + 2) ((carvedAt_neighbor c i p j).2 hp)]
  rfl

theorem pairOpen_not_carved {g h : Grid} {c : Int × Int} {i : Fin 4} (hc : Carved g h c i)
    (p : Int × Int) (j : Fin 4) (hp : ¬ CarvedAt c i p j) :
    pairOpen h (p, j) = pairOpen g (p, j) := by
  unfold pairOpen
  simp only
  rw [hc.carved_bounds, hc.walls_eq, hc.walls_eq, if_neg hp,
    if_neg (by rw [carvedAt_neighbor]; exact hp)]

theorem Carved.openPairs_succ {g h : Grid} {c : Int × Int} {i : Fin 4} (hc : Carved g h c i)
    (hcin : IsInBounds g c.1 c.2 = true)
    (hnin : IsInBounds g (neighbor c i).1 (neighbor c i).2 = true)
    (hwall : (g.cell (neighbor c i).1 (neighbor c i).2).walls (i + 2) = true) :
    openPairs h = openPairs g + 1 := by
  unfold PortalPaths.openPairs
  rw [hc.cells_eq]
  have hkey := carveKey_carved c i
  have hkin : IsInBounds g (carveKey c i).1.1 (carveKey c i).1.2 = true ∧
      IsInBounds g (neighbor (carveKey c i).1 (carveKey c i).2).1
        (neighbor (carveKey c i).1 (carveKey c i).2).2 = true := by
    unfold carveKey
    split_ifs
    · exact ⟨hcin, hnin⟩
    · refine ⟨hnin, ?_⟩
      simp only
      rw [neighbor_neighbor]
      exact hcin
  apply countP_update _ (nodup_pairs g) (carveKey c i)
  · exact (mem_pairs g _).2 ⟨hkin.1, carveKey_dir c i⟩
  · unfold pairOpen carveKey
    split_ifs
    · simp [hwall]
    · simp [hwall]
  · exact pairOpen_carved hc _ _ hkin.2 hkey
  · rintro ⟨p, j⟩ hmem hne
    apply pairOpen_not_carved hc
    intro hcarve
    exact hne (carveKey_unique c i p j ((mem_pairs g _).1 hmem).2 hcarve)

theorem GenInv.carve {s : GenState} (hs : GenInv s) (h : Grid) (c : Int × Int) (i : Fin 4)
    (rest : List (Int × Int)) (k : Nat) (hstack : s.stack = c :: rest)
    (hc : Carved s.grid h c i)
    (hnin : IsInBounds s.grid (neighbor c i).1 (neighbor c i).2 = true)
    (hnv : (s.grid.cell (neighbor c i).1 (neighbor c i).2).visited = false) :
    GenInv { grid := h, stack := neighbor c i :: c :: rest, seed := k } := by
  have hcs := hs.stack_ok c (by rw [hstack]; exact List.mem_cons_self _ _)
  have hvis : ∀ x y, (s.grid.cell x y).visited = true → (h.cell x y).visited = true := by
    intro x y hv
    rw [hc.visited_eq]
    split_ifs
    · rfl
    · exact hv
  have hvn : (h.cell (neighbor c i).1 (neighbor c i).2).visited = true := by
    rw [hc.visited_eq, if_pos rfl]
  have hwn := hs.fresh _ _ hnin hnv
  constructor
  · simp only
    rw [hc.carved_bounds]
    exact hs.origin_in
  · exact hvis _ _ hs.origin_visited
  · intro x y hin
    simp only at hin ⊢
    rw [hc.carved_bounds] at hin
    rw [hc.x_eq, hc.y_eq]
    exact hs.coords x y hin
  · intro p hp
    simp only at hp ⊢
    rw [hc.carved_bounds]
    rcases List.mem_cons.1 hp with rfl | hp
    · exact ⟨hnin, hvn⟩
    · have := hs.stack_ok p (by rw [hstack]; exact hp)
      exact ⟨this.1, hvis _ _ this.2⟩
  · intro a j ha hb
    simp only at ha hb ⊢
    rw [hc.carved_bounds] at ha hb
    rw [hc.walls_eq, hc.walls_eq, hs.sym a j ha hb]
    by_cases hcarve : CarvedAt c i a j
    · rw [if_pos hcarve, if_pos ((carvedAt_neighbor c i a j).2 hcarve)]
    · rw [if_neg hcarve, if_neg (by rw [carvedAt_neighbor]; exact hcarve)]
  · intro x y hin hv j
    simp only at hin hv ⊢
    rw [hc.carved_bounds] at hin
    rw [hc.visited_eq] at hv
    split_ifs at hv with hxy
    rw [hc.walls_eq, if_neg, hs.fresh x y hin hv j]
    rintro (⟨h1, -⟩ | ⟨h1, -⟩)
    · have hcv := hcs.2
      rw [← h1, hv] at hcv
      exact Bool.noConfusion hcv
    · exact hxy h1
  · intro x y hin
    simp only at hin ⊢
    rw [hc.carved_bounds] at hin
    rw [hc.obst_eq]
    exact hs.noObst x y hin
  · intro x y hin hv
    simp only at hin hv ⊢
    rw [hc.carved_bounds] at hin
    rw [hc.visited_eq] at hv
    split_ifs at hv with hxy
    · rw [hxy]
      refine Relation.ReflTransGen.tail (hc.reach_mono _ _ (hs.conn c.1 c.2 hcs.1 hcs.2))
        ⟨i, rfl, ?_, ?_, hc.walls_carved c i (Or.inl ⟨rfl, rfl⟩)⟩
      · rw [hc.carved_bounds]; exact hnin
      · rw [hc.obst_eq]; exact hs.noObst _ _ hnin
    · exact hc.reach_mono _ _ (hs.conn x y hin hv)
  · intro a ha hv hnot j hb
    simp only at ha hv hnot hb ⊢
    rw [hc.carved_bounds] at ha hb
    rw [hc.visited_eq] at hv
    have hane : a ≠ neighbor c i := fun h => hnot (h ▸ List.mem_cons_self _ _)
    rw [if_neg hane] at hv
    apply hvis
    apply hs.dfs a ha hv _ j hb
    rw [hstack]
    exact fun h => hnot (List.mem_cons_of_mem _ h)
  · simp only
    rw [hc.openPairs_succ hcs.1 hnin (hwn _)]
    have : (fun x y => (h.cell x y).visited) = fun x y =>
        if x = (neighbor c i).1 ∧ y = (neighbor c i).2 then true
        else (s.grid.cell x y).visited := by
      funext x y
      rw [hc.visited_eq]
      by_cases hxy : (x, y) = neighbor c i
      · rw [if_pos hxy, if_pos ⟨congrArg Prod.fst hxy, congrArg Prod.snd hxy⟩]
      · rw [if_neg hxy, if_neg]
        rintro ⟨h1, h2⟩
        exact hxy (Prod.ext h1 h2)
    rw [this]
    have hcount := cellCount_mark s.grid (fun x y => (s.grid.cell x y).visited) _ _ hnin hnv
    unfold cellCount at hcount ⊢
    rw [hc.cells_eq, hcount, hs.count]
    rfl
  · simp only
    apply isAcyclic_add_leaf (passageGraph s.grid) (passageGraph h) c (neighbor c i) _
      (hc.adj_iff hcs.1 hnin) hs.acyclic
    rintro v ⟨j, -, -, -, hw, -⟩
    rw [hwn j] at hw
    exact Bool.noConfusion hw

theorem generateStep_dims (rand : Nat → Nat) (s : GenState) (cur : Int × Int)
    (rest : List (Int × Int)) (hs : GenInv s) (hstack : s.stack = cur :: rest) :
    (generateStep rand s cur rest).grid.rows = s.grid.rows ∧
      (generateStep rand s cur rest).grid.cols = s.grid.cols := by
  have hcs := hs.stack_ok cur (by rw [hstack]; exact List.mem_cons_self _ _)
  have hcc := hs.coords _ _ hcs.1
  unfold generateStep
  split
  · rename_i next k heq
    obtain ⟨i, rfl, hin, hv⟩ := GetUnvisitedNeighbor_some _ _ _ _ _ _ hcc heq
    have hc := carved_step s.grid cur i hcc (hs.coords _ _ hin)
    exact ⟨hc.rows_eq, hc.cols_eq⟩
  · exact ⟨rfl, rfl⟩

theorem GenInv.step_inv (rand : Nat → Nat) (s : GenState) (cur : Int × Int)
    (rest : List (Int × Int)) (hs : GenInv s) (hstack : s.stack = cur :: rest) :
    GenInv (generateStep rand s cur rest) := by
  have hcs := hs.stack_ok cur (by rw [hstack]; exact List.mem_cons_self _ _)
  have hcc := hs.coords _ _ hcs.1
  unfold generateStep
  split
  · rename_i next k heq
    obtain ⟨i, rfl, hin, hv⟩ := GetUnvisitedNeighbor_some _ _ _ _ _ _ hcc heq
    exact hs.carve _ cur i rest k hstack (carved_step s.grid cur i hcc (hs.coords _ _ hin)) hin hv
  · rename_i k heq
    refine ⟨hs.origin_in, hs.origin_visited, hs.coords, ?_, hs.sym, hs.fresh, hs.noObst,
      hs.conn, ?_, hs.count, hs.acyclic⟩
    · intro p hp
      exact hs.stack_ok p (by rw [hstack]; exact List.mem_cons_of_mem _ hp)
    · intro a ha hv hnot j hb
      simp only at hnot
      by_cases hac : a = cur
      · subst hac
        exact GetUnvisitedNeighbor_none _ _ _ _ _ hcc heq j hb
      · apply hs.dfs a ha hv _ j hb
        rw [hstack]
        intro hmem
        rcases List.mem_cons.1 hmem with h | h
        · exact hac h
        · exact hnot h

theorem passageGraph_isAcyclic_of_walls (g : Grid)
    (hw : ∀ x y, IsInBounds g x y = true → ∀ i, (g.cell x y).walls i = true) :
    (passageGraph g).IsAcyclic := by
  intro v w hcyc
  cases w with
  | nil => exact hcyc.ne_nil rfl
  | cons h p =>
    obtain ⟨i, -, ha, -, hwa, -⟩ := h
    rw [hw _ _ ha i] at hwa
    exact Bool.noConfusion hwa

theorem generateInit_inv (g : Grid) (seed : Nat) (hr : 1 ≤ g.rows) (hc : 1 ≤ g.cols) :
    GenInv (generateInit g seed) := by
  have h00 : IsInBounds g 0 0 = true := by
    rw [isInBounds_iff]
    omega
  have hm := markVisited_fields (InitializeGrid g) (0, 0)
  have hcell : ∀ x y, IsInBounds g x y = true → (InitializeGrid g).cell x y = Cell.new x y := by
    intro x y hin
    simp [InitializeGrid, hin]
  have hwalls : ∀ x y, IsInBounds g x y = true →
      ∀ i, ((generateInit g seed).grid.cell x y).walls i = true := by
    intro x y hin i
    simp only [generateInit]
    rw [(hm x y).2.2.1, hcell x y hin]
    rfl
  have hvis : ∀ x y, IsInBounds g x y = true →
      ((generateInit g seed).grid.cell x y).visited = if (x, y) = (0, 0) then true else false := by
    intro x y hin
    simp only [generateInit]
    rw [(hm x y).2.2.2.2, hcell x y hin]
    rfl
  have hinb : ∀ x y, IsInBounds (generateInit g seed).grid x y = IsInBounds g x y :=
    fun _ _ => rfl
  constructor
  · exact h00
  · rw [hvis 0 0 h00, if_pos rfl]
  · intro x y hin
    rw [hinb] at hin
    simp only [generateInit]
    rw [(hm x y).1, (hm x y).2.1, hcell x y hin]
    exact ⟨rfl, rfl⟩
  · intro p hp
    simp only [generateInit, List.mem_singleton] at hp
    subst hp
    exact ⟨h00, by rw [hvis 0 0 h00, if_pos rfl]⟩
  · intro a i ha hb
    rw [hwalls _ _ ha, hwalls _ _ hb]
  · intro x y hin _ i
    exact hwalls x y hin i
  · intro x y hin
    rw [hinb] at hin
    simp only [generateInit]
    rw [(hm x y).2.2.2.1, hcell x y hin]
    rfl
  · intro x y hin hv
    rw [hinb] at hin
    rw [hvis x y hin] at hv
    split_ifs at hv with hxy
    rw [hxy]
    exact Relation.ReflTransGen.refl
  · intro a ha hv hnot
    rw [hinb] at ha
    rw [hvis _ _ ha] at hv
    split_ifs at hv with hxy
    have ha0 : a = (0, 0) := hxy
    exact absurd (by rw [ha0]; exact List.mem_singleton_self _) hnot
  · have h1 : openPairs (generateInit g seed).grid = 0 := by
      unfold openPairs
      rw [List.countP_eq_zero]
      rintro ⟨p, j⟩ hmem
      have hin := ((mem_pairs _ _).1 hmem).1
      unfold pairOpen
      simp only
      rw [hwalls _ _ hin j]
      simp
    have h2 : cellCount (generateInit g seed).grid
        (fun x y => ((generateInit g seed).grid.cell x y).visited) =
        cellCount (generateInit g seed).grid (fun _ _ => false) + 1 := by
      unfold cellCount
      apply countP_update _ (nodup_allCells _) (0, 0)
      · exact (mem_allCells _ _).2 h00
      · rfl
      · simp only
        rw [hvis 0 0 h00, if_pos rfl]
      · intro b hb hne
        simp only
        rw [hvis _ _ ((mem_allCells _ _).1 hb), if_neg hne]
    rw [h1, h2]
    simp [cellCount]
  · exact passageGraph_isAcyclic_of_walls _ hwalls

theorem generateStep_measure (rand : Nat → Nat) (s : GenState) (cur : Int × Int)
    (rest : List (Int × Int)) (hs : GenInv s) (hstack : s.stack = cur :: rest) :
    genMeasure (generateStep rand s cur rest) + 1 = genMeasure s := by
  have hd := generateStep_dims rand s cur rest hs hstack
  have hinv := hs.step_inv rand s cur rest hstack
  have hle := cellCount_le (generateStep rand s cur rest).grid
    (fun x y => ((generateStep rand s cur rest).grid.cell x y).visited)
  have hcount := hinv.count
  have hcs := hs.stack_ok cur (by rw [hstack]; exact List.mem_cons_self _ _)
  have hcc := hs.coords _ _ hcs.1
  unfold genMeasure
  rw [hd.1, hd.2] at hle ⊢
  rw [← hcount, ← hs.count]
  rw [← hcount] at hle
  revert hle
  unfold generateStep
  split
  · rename_i next k heq
    obtain ⟨i, rfl, hin, hv⟩ := GetUnvisitedNeighbor_some _ _ _ _ _ _ hcc heq
    have hc := carved_step s.grid cur i hcc (hs.coords _ _ hin)
    simp only
    rw [hc.openPairs_succ hcs.1 hin (hs.fresh _ _ hin hv _), hstack]
    simp only [List.length_cons]
    omega
  · simp only
    rw [hstack]
    simp only [List.length_cons]
    omega

theorem generateRun_inv (rand : Nat → Nat) (k : Nat) (s : GenState) (hs : GenInv s) :
    GenInv (generateRun rand k s) ∧ (generateRun rand k s).grid.rows = s.grid.rows ∧
      (generateRun rand k s).grid.cols = s.grid.cols := by
  induction k generalizing s with
  | zero => exact ⟨hs, rfl, rfl⟩
  | succ k ih =>
    unfold generateRun
    split
    · exact ⟨hs, rfl, rfl⟩
    · rename_i cur rest hstack
      have h1 := ih _ (hs.step_inv rand s cur rest hstack)
      have h2 := generateStep_dims rand s cur rest hs hstack
      exact ⟨h1.1, h1.2.1.trans h2.1, h1.2.2.trans h2.2⟩

theorem generateLoop_eq_run (rand : Nat → Nat) (fuel : Nat) (s t : GenState)
    (h : generateLoop rand fuel s = some t) : t = generateRun rand fuel s ∧ t.stack = [] := by
  induction fuel generalizing s with
  | zero => simp [generateLoop] at h
  | succ fuel ih =>
    cases hstack : s.stack with
    | nil =>
      simp only [generateLoop, hstack, Option.some.injEq] at h
      subst h
      simp [generateRun, hstack]
    | cons cur rest =>
      simp only [generateLoop, hstack] at h
      simp only [generateRun, hstack]
      exact ih _ h

theorem generateLoop_total (rand : Nat → Nat) (fuel : Nat) (s : GenState) (hs : GenInv s)
    (hfuel : genMeasure s < fuel) : ∃ t, generateLoop rand fuel s = some t := by
  induction fuel generalizing s with
  | zero => omega
  | succ fuel ih =>
    unfold generateLoop
    split
    · exact ⟨s, rfl⟩
    · rename_i cur rest hstack
      apply ih _ (hs.step_inv rand s cur rest hstack)
      have := generateStep_measure rand s cur rest hs hstack
      omega

/-- The call `GenerateMaze` returns, with the loop invariant and an empty stack, on a
grid of the size it was given. -/
theorem GenerateMaze_spec (g : Grid) (rand : Nat → Nat) (seed : Nat) (hr : 1 ≤ g.rows)
    (hc : 1 ≤ g.cols) :
    ∃ t, GenerateMaze g rand seed = some t ∧ GenInv t ∧ t.stack = [] ∧
      t.grid.rows = g.rows ∧ t.grid.cols = g.cols := by
  have hinit := generateInit_inv g seed hr hc
  have hfuel : genMeasure (generateInit g seed) < generateFuel g := by
    unfold genMeasure generateFuel
    rw [← hinit.count]
    simp only [generateInit, List.length_singleton]
    have hpos : 1 ≤ g.rows * g.cols := Nat.mul_pos hr hc
    show 2 * (g.rows * g.cols - _) + 1 < 2 * (g.rows * g.cols) + 1
    generalize g.rows * g.cols = n at hpos ⊢
    omega
  obtain ⟨t, ht⟩ := generateLoop_total rand _ _ hinit hfuel
  obtain ⟨hrun, hstack⟩ := generateLoop_eq_run rand _ _ _ ht
  have hinv := generateRun_inv rand (generateFuel g) _ hinit
  rw [← hrun] at hinv
  exact ⟨t, ht, hinv.1, hstack, hinv.2.1, hinv.2.2⟩

theorem GenInv.all_visited {s : GenState} (hs : GenInv s) (hstack : s.stack = [])
    (x y : Int) (hin : IsInBounds s.grid x y = true) : (s.grid.cell x y).visited = true := by
  have hstep : ∀ (a : Int × Int) (i : Fin 4), IsInBounds s.grid a.1 a.2 = true →
      (s.grid.cell a.1 a.2).visited = true →
      IsInBounds s.grid (neighbor a i).1 (neighbor a i).2 = true →
      (s.grid.cell (neighbor a i).1 (neighbor a i).2).visited = true := by
    intro a i ha hv hb
    exact hs.dfs a ha hv (by rw [hstack]; exact List.not_mem_nil _) i hb
  rw [isInBounds_iff] at hin
  have hrow : ∀ n : Nat, (n : Int) < s.grid.cols → (s.grid.cell n 0).visited = true := by
    intro n
    induction n with
    | zero => intro _; exact hs.origin_visited
    | succ n ih =>
      intro hn
      have h0 := hs.origin_in
      rw [isInBounds_iff] at h0
      have := hstep ((n : Int), 0) 1 (by rw [isInBounds_iff]; simp only; omega)
        (ih (by omega)) (by rw [isInBounds_iff]; simp only [neighbor, directions]; omega)
      simpa [neighbor, directions] using this
  have hcol : ∀ m : Nat, (m : Int) < s.grid.rows → (s.grid.cell x m).visited = true := by
    intro m
    induction m with
    | zero =>
      intro _
      have := hrow x.toNat (by omega)
      rwa [Int.toNat_of_nonneg hin.1] at this
    | succ m ih =>
      intro hm
      have := hstep (x, (m : Int)) 2 (by rw [isInBounds_iff]; simp only; omega)
        (ih (by omega)) (by rw [isInBounds_iff]; simp only [neighbor, directions]; omega)
      simpa [neighbor, directions] using this
  have := hcol y.toNat (by omega)
  rwa [Int.toNat_of_nonneg hin.2.2.1] at this

theorem GenInv.openPairs_eq {s : GenState} (hs : GenInv s) (hstack : s.stack = []) :
    openPairs s.grid = s.grid.rows * s.grid.cols - 1 := by
  have hcount := hs.count
  have hall : cellCount s.grid (fun x y => (s.grid.cell x y).visited) =
      s.grid.rows * s.grid.cols := by
    unfold cellCount
    rw [← length_allCells, List.countP_eq_length]
    intro p hp
    exact hs.all_visited hstack p.1 p.2 ((mem_allCells _ _).1 hp)
  omega

/-! ## Paths of passages -/

theorem Passage.to_step {g : Grid} {a b : Int × Int} (h : Passage g a b) : Step g a b := by
  obtain ⟨i, hb, -, hin, -, hob, hw, -⟩ := h
  subst hb
  exact ⟨i, rfl, hin, hob, hw⟩

theorem Passage.to_adj {g : Grid} {a b : Int × Int} (h : Passage g a b) :
    (passageGraph g).Adj a b := by
  obtain ⟨i, hb, ha, hin, -, -, hw, hw2⟩ := h
  exact ⟨i, hb, ha, hin, hw, hw2⟩

theorem reach_of_isPassagePath (g : Grid) (p : List (Int × Int)) (a b : Int × Int)
    (h : IsPassagePath g p a b) : Reach g a b := by
  obtain ⟨hhead, hlast, hchain⟩ := h
  cases p with
  | nil => simp at hhead
  | cons c l =>
    simp only [List.head?_cons, Option.some.injEq] at hhead
    subst hhead
    rw [List.getLast?_eq_getLast _ (List.cons_ne_nil _ _)] at hlast
    simp only [Option.some.injEq] at hlast
    have hc : List.Chain (Passage g) c l := hchain
    have := List.relationReflTransGen_of_exists_chain l hc hlast
    exact Relation.ReflTransGen.mono (fun _ _ h => h.to_step) this

theorem isPassagePath_of_reflTransGen (g : Grid) (a b : Int × Int)
    (h : Relation.ReflTransGen (Passage g) a b) : ∃ p, IsPassagePath g p a b := by
  obtain ⟨l, hchain, hlast⟩ := List.exists_chain_of_relationReflTransGen h
  refine ⟨a :: l, rfl, ?_, hchain⟩
  rw [List.getLast?_eq_getLast _ (List.cons_ne_nil _ _), hlast]

/-- On a grid with symmetric walls, a cell the oracle reaches from a free cell of the grid
is joined to it by passages. -/
theorem passage_of_reach (g : Grid) (hsym : WallsSymmetric g) (a b : Int × Int)
    (ha : IsInBounds g a.1 a.2 = true) (hoa : (g.cell a.1 a.2).isObstacle = false)
    (h : Reach g a b) :
    Relation.ReflTransGen (Passage g) a b ∧ IsInBounds g b.1 b.2 = true ∧
      (g.cell b.1 b.2).isObstacle = false := by
  induction h with
  | refl => exact ⟨Relation.ReflTransGen.refl, ha, hoa⟩
  | tail _ hstep ih =>
    obtain ⟨hr, hin, hob⟩ := ih
    obtain ⟨i, rfl, hin2, hob2, hw⟩ := hstep
    refine ⟨Relation.ReflTransGen.tail hr ⟨i, rfl, hin, hin2, hob, hob2, hw, ?_⟩, hin2, hob2⟩
    rw [← hsym _ i hin hin2]
    exact hw

theorem passageGraph_reachable (g : Grid) (a b : Int × Int)
    (h : Relation.ReflTransGen (Passage g) a b) : (passageGraph g).Reachable a b := by
  induction h with
  | refl => exact SimpleGraph.Reachable.refl _
  | tail _ hstep ih => exact ih.trans hstep.to_adj.reachable

/-- Every cell of a generated maze is joined to the start cell by passages. -/
theorem GenInv.passage_all {s : GenState} (hs : GenInv s) (hstack : s.stack = [])
    (x y : Int) (hin : IsInBounds s.grid x y = true) :
    Relation.ReflTransGen (Passage s.grid) (0, 0) (x, y) :=
  (passage_of_reach s.grid hs.sym (0, 0) (x, y) hs.origin_in (hs.noObst 0 0 hs.origin_in)
    (hs.conn x y hin (hs.all_visited hstack x y hin))).1

theorem GenInv.unique_path {s : GenState} (hs : GenInv s) (hstack : s.stack = [])
    (u v : Int × Int) (hu : IsInBounds s.grid u.1 u.2 = true)
    (hv : IsInBounds s.grid v.1 v.2 = true) :
    ∃! p : (passageGraph s.grid).Walk u v, p.IsPath := by
  have h1 := passageGraph_reachable _ _ _ (hs.passage_all hstack u.1 u.2 hu)
  have h2 := passageGraph_reachable _ _ _ (hs.passage_all hstack v.1 v.2 hv)
  obtain ⟨w⟩ := h1.symm.trans h2
  refine ⟨(w.toPath : (passageGraph s.grid).Walk u v), w.toPath.2, ?_⟩
  intro q hq
  exact congrArg Subtype.val (hs.acyclic.path_unique ⟨q, hq⟩ w.toPath)

/-! ## Exit placement and obstacle injection -/

theorem uniformInt_range (n : Nat) (raw : Nat) (hn : 1 ≤ n) :
    0 ≤ uniformInt 0 ((n : Int) - 1) raw ∧ uniformInt 0 ((n : Int) - 1) raw < (n : Int) := by
  unfold uniformInt
  have h1 : ((n : Int) - 1 - 0 + 1) = (n : Int) := by ring
  rw [h1]
  have hpos : (0 : Int) < (n : Int) := by omega
  have := Int.emod_nonneg (raw : Int) (ne_of_gt hpos)
  have := Int.emod_lt_of_pos (raw : Int) hpos
  omega

theorem placeExitLoop_spec (g : Grid) (gen : Nat → Nat) (fuel j : Nat) (exitX exitY : Int)
    (hr : 1 ≤ g.rows) (hc : 1 ≤ g.cols)
    (h : placeExitLoop g gen fuel j = some (exitX, exitY)) :
    IsInBounds g exitX exitY = true ∧
      exitX + exitY ≥ max (g.cols : Int) (g.rows : Int) / 2 ∧
      (g.cell exitX exitY).isObstacle = false ∧
      PathExists g 0 0 exitX exitY = some true := by
  induction fuel generalizing j with
  | zero => simp [placeExitLoop] at h
  | succ fuel ih =>
    unfold placeExitLoop at h
    simp only at h
    split_ifs at h with hcond
    · split at h
      · rename_i hpe
        simp only [Option.some.injEq, Prod.mk.injEq] at h
        obtain ⟨hx, hy⟩ := h
        have hxr := uniformInt_range g.cols (gen j) hc
        have hyr := uniformInt_range g.rows (gen (j + 1)) hr
        rw [hx] at hxr hpe hcond
        rw [hy] at hyr hpe hcond
        simp only [Bool.and_eq_true, decide_eq_true_eq, Bool.not_eq_eq_eq_not, Bool.not_true,
          sub_zero] at hcond
        refine ⟨?_, ?_, hcond.2, hpe⟩
        · rw [isInBounds_iff]
          omega
        · have h1 := abs_of_nonneg hxr.1
          have h2 := abs_of_nonneg hyr.1
          rw [h1, h2] at hcond
          exact hcond.1
      · exact ih _ h
      · simp at h
    · exact ih _ h

theorem setObstacle_fields (g : Grid) (x y : Int) (b : Bool) (x' y' : Int) :
    (setObstacle g x y b).rows = g.rows ∧ (setObstacle g x y b).cols = g.cols ∧
      ((setObstacle g x y b).cell x' y').walls = (g.cell x' y').walls ∧
      ((setObstacle g x y b).cell x' y').isObstacle =
        if x' = x ∧ y' = y then b else (g.cell x' y').isObstacle := by
  simp only [setObstacle, Grid.set]
  by_cases h : x' = x ∧ y' = y
  · obtain ⟨rfl, rfl⟩ := h
    simp
  · simp [h]

theorem setSprite_fields (theme : GameTheme) (gen : Nat → Nat) (j : Nat) (g : Grid)
    (x y x' y' : Int) :
    (setSprite theme gen j g x y).1.rows = g.rows ∧
      (setSprite theme gen j g x y).1.cols = g.cols ∧
      ((setSprite theme gen j g x y).1.cell x' y').walls = (g.cell x' y').walls ∧
      ((setSprite theme gen j g x y).1.cell x' y').isObstacle = (g.cell x' y').isObstacle := by
  by_cases h : x' = x ∧ y' = y
  · obtain ⟨rfl, rfl⟩ := h
    cases theme <;> simp [setSprite, Grid.set]
  · cases theme <;> simp [setSprite, Grid.set, h]

theorem setSprite_sameMaze (theme : GameTheme) (gen : Nat → Nat) (j : Nat) (g : Grid)
    (x y : Int) : SameMaze (setSprite theme gen j g x y).1 g :=
  ⟨(setSprite_fields theme gen j g x y 0 0).1, (setSprite_fields theme gen j g x y 0 0).2.1,
    fun x' y' => ⟨(setSprite_fields theme gen j g x y x' y').2.2.2,
      (setSprite_fields theme gen j g x y x' y').2.2.1⟩⟩

/-- Setting the obstacle flag of a free cell and clearing it again gives back the maze. -/
theorem revert_sameMaze (theme : GameTheme) (gen : Nat → Nat) (j : Nat) (g : Grid)
    (x y : Int) (hfree : (g.cell x y).isObstacle = false) :
    SameMaze (setObstacle (setSprite theme gen j (setObstacle g x y true) x y).1 x y false) g := by
  refine ⟨?_, ?_, fun x' y' => ⟨?_, ?_⟩⟩
  · rw [(setObstacle_fields _ x y false 0 0).1, (setSprite_fields theme gen j _ x y 0 0).1,
      (setObstacle_fields _ x y true 0 0).1]
  · rw [(setObstacle_fields _ x y false 0 0).2.1, (setSprite_fields theme gen j _ x y 0 0).2.1,
      (setObstacle_fields _ x y true 0 0).2.1]
  · rw [(setObstacle_fields _ x y false x' y').2.2.2,
      (setSprite_fields theme gen j _ x y x' y').2.2.2,
      (setObstacle_fields _ x y true x' y').2.2.2]
    by_cases h : x' = x ∧ y' = y
    · rw [if_pos h, h.1, h.2, hfree]
    · rw [if_neg h, if_neg h]
  · rw [(setObstacle_fields _ x y false x' y').2.2.1,
      (setSprite_fields theme gen j _ x y x' y').2.2.1,
      (setObstacle_fields _ x y true x' y').2.2.1]

theorem ObstFrame.frame_refl (exitX exitY : Int) (g : Grid) : ObstFrame exitX exitY g g :=
  ⟨rfl, rfl, fun _ _ => rfl, rfl, rfl⟩

theorem ObstFrame.frame_trans {exitX exitY : Int} {g h k : Grid} (a : ObstFrame exitX exitY g h)
    (b : ObstFrame exitX exitY h k) : ObstFrame exitX exitY g k :=
  ⟨b.rows_eq.trans a.rows_eq, b.cols_eq.trans a.cols_eq,
    fun x y => (b.walls_eq x y).trans (a.walls_eq x y), b.start_eq.trans a.start_eq,
    b.exit_eq.trans a.exit_eq⟩

theorem obstacleIter_spec (theme : GameTheme) (rand gen : Nat → Nat) (exitX exitY : Int)
    (s t : ObstState) (h : obstacleIter theme rand gen exitX exitY s = some t) :
    ObstFrame exitX exitY s.grid t.grid ∧
      (PathExists s.grid 0 0 exitX exitY = some true →
        PathExists t.grid 0 0 exitX exitY = some true) := by
  unfold obstacleIter at h
  simp only at h
  split_ifs at h with hskip
  · simp only [Option.some.injEq] at h
    subst h
    exact ⟨ObstFrame.frame_refl _ _ _, fun h => h⟩
  · push_neg at hskip
    obtain ⟨hstart, hexit, hfree⟩ := hskip
    have hfree' := Bool.eq_false_iff.2 hfree
    split at h
    · rename_i hpe
      simp only [Option.some.injEq] at h
      subst h
      refine ⟨⟨?_, ?_, ?_, ?_, ?_⟩, fun _ => hpe⟩
      · exact (setSprite_fields _ _ _ _ _ _ 0 0).1.trans (setObstacle_fields _ _ _ _ 0 0).1
      · exact (setSprite_fields _ _ _ _ _ _ 0 0).2.1.trans (setObstacle_fields _ _ _ _ 0 0).2.1
      · intro x' y'
        exact (setSprite_fields _ _ _ _ _ _ x' y').2.2.1.trans
          (setObstacle_fields _ _ _ _ x' y').2.2.1
      · refine (setSprite_fields _ _ _ _ _ _ 0 0).2.2.2.trans ?_
        rw [(setObstacle_fields _ _ _ _ 0 0).2.2.2, if_neg]
        exact fun h => hstart h.1.symm h.2.symm
      · refine (setSprite_fields _ _ _ _ _ _ exitX exitY).2.2.2.trans ?_
        rw [(setObstacle_fields _ _ _ _ exitX exitY).2.2.2, if_neg]
        exact fun h => hexit h.1.symm h.2.symm
    · simp only [Option.some.injEq] at h
      subst h
      have hsame := revert_sameMaze theme gen s.genPos s.grid _ _ hfree'
      refine ⟨⟨hsame.1, hsame.2.1, fun x' y' => (hsame.2.2 x' y').2, (hsame.2.2 0 0).1,
        (hsame.2.2 exitX exitY).1⟩, fun hp => ?_⟩
      rw [PathExists_congr hsame]
      exact hp
    · simp at h

theorem obstacleIter_total (theme : GameTheme) (rand gen : Nat → Nat) (exitX exitY : Int)
    (s : ObstState) (hin : IsInBounds s.grid 0 0 = true) :
    ∃ t, obstacleIter theme rand gen exitX exitY s = some t := by
  unfold obstacleIter
  simp only
  split_ifs with hskip
  · exact ⟨_, rfl⟩
  · have hsame := (setSprite_sameMaze theme gen s.genPos
      (setObstacle s.grid ((rand s.seed % s.grid.cols : Nat) : Int)
        ((rand (s.seed + 1) % s.grid.rows : Nat) : Int) true)
      ((rand s.seed % s.grid.cols : Nat) : Int) ((rand (s.seed + 1) % s.grid.rows : Nat) : Int))
    have hin2 : IsInBounds (setSprite theme gen s.genPos
        (setObstacle s.grid ((rand s.seed % s.grid.cols : Nat) : Int)
          ((rand (s.seed + 1) % s.grid.rows : Nat) : Int) true)
        ((rand s.seed % s.grid.cols : Nat) : Int)
        ((rand (s.seed + 1) % s.grid.rows : Nat) : Int)).1 0 0 = true := by
      rw [hsame.same_bounds]
      exact hin
    obtain ⟨b, hb⟩ := PathExists_total _ 0 0 exitX exitY hin2
    rw [hb]
    cases b <;> exact ⟨_, rfl⟩

theorem obstacleRun_spec (theme : GameTheme) (rand gen : Nat → Nat)
    (exitX exitY maxObstacles : Int) (k : Nat) (s : ObstState)
    (hin : IsInBounds s.grid 0 0 = true) :
    ∃ t, obstacleRun theme rand gen exitX exitY maxObstacles k s = some t ∧
      ObstFrame exitX exitY s.grid t.grid ∧
      (PathExists s.grid 0 0 exitX exitY = some true →
        PathExists t.grid 0 0 exitX exitY = some true) := by
  induction k generalizing s with
  | zero => exact ⟨s, rfl, ObstFrame.frame_refl _ _ _, fun h => h⟩
  | succ k ih =>
    unfold obstacleRun
    split_ifs
    · obtain ⟨s1, hs1⟩ := obstacleIter_total theme rand gen exitX exitY s hin
      obtain ⟨hf, hp⟩ := obstacleIter_spec theme rand gen exitX exitY s s1 hs1
      have hin1 : IsInBounds s1.grid 0 0 = true := by
        unfold IsInBounds at hin ⊢
        rw [hf.rows_eq, hf.cols_eq]
        exact hin
      obtain ⟨t, ht, hf2, hp2⟩ := ih s1 hin1
      rw [hs1]
      exact ⟨t, ht, hf.frame_trans hf2, fun h => hp2 (hp h)⟩
    · exact ⟨s, rfl, ObstFrame.frame_refl _ _ _, fun h => h⟩

theorem obstacleLoop_spec (theme : GameTheme) (rand gen : Nat → Nat)
    (exitX exitY maxObstacles : Int) (fuel : Nat) (s t : ObstState)
    (h : obstacleLoop theme rand gen exitX exitY maxObstacles fuel s = some t) :
    ObstFrame exitX exitY s.grid t.grid ∧
      (PathExists s.grid 0 0 exitX exitY = some true →
        PathExists t.grid 0 0 exitX exitY = some true) := by
  induction fuel generalizing s with
  | zero => simp [obstacleLoop] at h
  | succ fuel ih =>
    unfold obstacleLoop at h
    split_ifs at h
    · split at h
      · rename_i s1 hs1
        obtain ⟨hf, hp⟩ := obstacleIter_spec theme rand gen exitX exitY s s1 hs1
        obtain ⟨hf2, hp2⟩ := ih s1 h
        exact ⟨hf.frame_trans hf2, fun h => hp2 (hp h)⟩
      · simp at h
    · simp only [Option.some.injEq] at h
      subst h
      exact ⟨ObstFrame.frame_refl _ _ _, fun h => h⟩

theorem ObstFrame.frame_symmetric {exitX exitY : Int} {g h : Grid}
    (hf : ObstFrame exitX exitY g h) (hsym : WallsSymmetric g) : WallsSymmetric h := by
  intro a i ha hb
  unfold IsInBounds at ha hb
  rw [hf.rows_eq, hf.cols_eq] at ha hb
  rw [hf.walls_eq, hf.walls_eq]
  exact hsym a i ha hb

theorem ObstFrame.frame_bounds {exitX exitY : Int} {g h : Grid}
    (hf : ObstFrame exitX exitY g h) (x y : Int) : IsInBounds h x y = IsInBounds g x y := by
  unfold IsInBounds
  rw [hf.rows_eq, hf.cols_eq]

theorem chain_passage_free (g : Grid) (a : Int × Int) (l : List (Int × Int))
    (h : List.Chain (Passage g) a l) :
    ∀ c ∈ l, IsInBounds g c.1 c.2 = true ∧ (g.cell c.1 c.2).isObstacle = false := by
  induction l generalizing a with
  | nil => simp
  | cons b l ih =>
    rw [List.chain_cons] at h
    intro c hc
    rcases List.mem_cons.1 hc with rfl | hc
    · obtain ⟨i, -, -, hin, -, hob, -⟩ := h.1
      exact ⟨hin, hob⟩
    · exact ih b h.2 c hc

/-- On a grid with symmetric walls, a positive answer of `PathExists` from a free cell
comes with a path of passages through free cells of the grid. -/
theorem path_of_pathExists (g : Grid) (hsym : WallsSymmetric g) (startX startY endX endY : Int)
    (hin : IsInBounds g startX startY = true)
    (hfree : (g.cell startX startY).isObstacle = false)
    (h : PathExists g startX startY endX endY = some true) :
    ∃ p, IsPassagePath g p (startX, startY) (endX, endY) ∧
      ∀ c ∈ p, IsInBounds g c.1 c.2 = true ∧ (g.cell c.1 c.2).isObstacle = false := by
  have hreach := PathExists_sound g startX startY endX endY hin h
  have hpass := (passage_of_reach g hsym _ _ hin hfree hreach).1
  obtain ⟨l, hchain, hlast⟩ := List.exists_chain_of_relationReflTransGen hpass
  refine ⟨(startX, startY) :: l, ⟨rfl, ?_, hchain⟩, ?_⟩
  · rw [List.getLast?_eq_getLast _ (List.cons_ne_nil _ _), hlast]
  · intro c hc
    rcases List.mem_cons.1 hc with rfl | hc
    · exact ⟨hin, hfree⟩
    · exact chain_passage_free g _ l hchain c hc

/-- What the build pipeline of `ResetGame` hands over. -/
theorem ResetGame_spec (old : Grid) (theme : GameTheme) (scaled : Int)
    (rand genExit genObst : Nat → Nat) (seed fuelExit fuelObst : Nat) (b : Built)
    (hr : 1 ≤ old.rows) (hc : 1 ≤ old.cols)
    (h : ResetGame old theme scaled rand genExit genObst seed fuelExit fuelObst = some b) :
    b.grid.rows = old.rows ∧ b.grid.cols = old.cols ∧ WallsSymmetric b.grid ∧
      IsInBounds b.grid 0 0 = true ∧ (b.grid.cell 0 0).isObstacle = false ∧
      IsInBounds b.grid b.exitX b.exitY = true ∧
      (b.grid.cell b.exitX b.exitY).isObstacle = false ∧
      PathExists b.grid 0 0 b.exitX b.exitY = some true := by
  unfold ResetGame at h
  simp only at h
  split at h
  · simp at h
  · rename_i s hs
    obtain ⟨t, ht, hinv, hstack, hrows, hcols⟩ := GenerateMaze_spec
      (InitializeGrid { rows := old.rows, cols := old.cols, cell := fun _ _ => Cell.new 0 0 })
      rand seed hr hc
    rw [hs] at ht
    simp only [Option.some.injEq] at ht
    subst ht
    have hrows' : s.grid.rows = old.rows := hrows
    have hcols' : s.grid.cols = old.cols := hcols
    split at h
    · simp at h
    · rename_i exitX exitY hexit
      obtain ⟨hein, -, heob, hpe⟩ := placeExitLoop_spec s.grid genExit fuelExit 0 exitX exitY
        (by omega) (by omega) hexit
      split at h
      · simp at h
      · rename_i u hu
        simp only [Option.some.injEq] at h
        subst h
        obtain ⟨hf, hp⟩ := obstacleLoop_spec _ _ _ _ _ _ _ _ _ hu
        simp only at hf hp ⊢
        refine ⟨hf.rows_eq.trans hrows', hf.cols_eq.trans hcols', hf.frame_symmetric hinv.sym,
          ?_, ?_, ?_, ?_, hp hpe⟩
        · rw [hf.frame_bounds]; exact hinv.origin_in
        · rw [hf.start_eq]; exact hinv.noObst 0 0 hinv.origin_in
        · rw [hf.frame_bounds]; exact hein
        · rw [hf.exit_eq]; exact heob

/-! ## Neighbour choice and player steps -/

theorem movedTo_eq_neighbor (x y : Int) (d : Fin 4) : movedTo x y d = neighbor (x, y) d := by
  fin_cases d <;> simp [movedTo, neighbor, directions] <;> rfl

theorem GetUnvisitedNeighbor_some_fields (g : Grid) (rand : Nat → Nat) (k k' : Nat)
    (cur next : Int × Int) (h : GetUnvisitedNeighbor g rand k cur = (some next, k')) :
    ∃ i : Fin 4, next = neighbor ((g.cell cur.1 cur.2).x, (g.cell cur.1 cur.2).y) i ∧
      IsInBounds g next.1 next.2 = true ∧ (g.cell next.1 next.2).visited = false := by
  unfold GetUnvisitedNeighbor at h
  simp only at h
  split at h
  · simp at h
  · rename_i d ds heq
    simp only [Prod.mk.injEq, Option.some.injEq] at h
    have hlt : rand k % (d :: ds).length < (d :: ds).length :=
      Nat.mod_lt _ (by simp)
    obtain ⟨h1, -⟩ := h
    generalize hr : (d :: ds).getD (rand k % (d :: ds).length) d = r at h1
    have hmem : r ∈ d :: ds := by
      rw [← hr, List.getD_eq_getElem _ _ hlt]
      exact List.getElem_mem _
    rw [← heq, List.mem_filter] at hmem
    have hp := hmem.2
    simp only [Bool.and_eq_true, Bool.not_eq_eq_eq_not, Bool.not_true] at hp
    subst h1
    exact ⟨r, rfl, hp.1, hp.2⟩

theorem GetUnvisitedNeighbor_none_iff (g : Grid) (rand : Nat → Nat) (k : Nat)
    (cur : Int × Int) :
    (GetUnvisitedNeighbor g rand k cur).1 = none ↔
      ∀ i : Fin 4,
        IsInBounds g (neighbor ((g.cell cur.1 cur.2).x, (g.cell cur.1 cur.2).y) i).1
            (neighbor ((g.cell cur.1 cur.2).x, (g.cell cur.1 cur.2).y) i).2 = true →
          (g.cell (neighbor ((g.cell cur.1 cur.2).x, (g.cell cur.1 cur.2).y) i).1
            (neighbor ((g.cell cur.1 cur.2).x, (g.cell cur.1 cur.2).y) i).2).visited = true := by
  unfold GetUnvisitedNeighbor
  simp only
  split
  · rename_i heq
    simp only [true_iff]
    intro i hin
    have hi : i ∈ ([0, 1, 2, 3] : List (Fin 4)) := by fin_cases i <;> simp
    have := List.filter_eq_nil_iff.1 heq i hi
    simp only [Bool.and_eq_true, Bool.not_eq_eq_eq_not, Bool.not_true, not_and,
      Bool.not_eq_false] at this
    exact this hin
  · rename_i d ds heq
    have hd : d ∈ List.filter
        (fun i =>
          IsInBounds g ((g.cell cur.1 cur.2).x + (directions i).1)
              ((g.cell cur.1 cur.2).y + (directions i).2) &&
            !(g.cell ((g.cell cur.1 cur.2).x + (directions i).1)
              ((g.cell cur.1 cur.2).y + (directions i).2)).visited)
        [0, 1, 2, 3] := by
      rw [heq]
      exact List.mem_cons_self _ _
    rw [List.mem_filter] at hd
    have hp := hd.2
    simp only [Bool.and_eq_true, Bool.not_eq_eq_eq_not, Bool.not_true] at hp
    constructor
    · intro h
      simp at h
    · intro hall
      have hv := hall d hp.1
      simp only [neighbor] at hv
      rw [hp.2] at hv
      exact Bool.noConfusion hv

theorem abs_directions (i : Fin 4) : |(directions i).1| + |(directions i).2| = 1 := by
  fin_cases i <;> simp [directions]

theorem CanMove_iff_stepDir (g : Grid) (x y : Int) (d : Fin 4) :
    CanMove g x y d = true ↔ StepDir g (x, y) d := by
  unfold CanMove StepDir
  simp only [movedTo_eq_neighbor, Bool.and_eq_true, Bool.not_eq_eq_eq_not, Bool.not_true]
  constructor
  · rintro ⟨⟨h1, h2⟩, h3⟩
    exact ⟨h1, h3, h2⟩
  · rintro ⟨h1, h2, h3⟩
    exact ⟨⟨h1, h3⟩, h2⟩

theorem walkPlayer_of_reach (g : Grid) (a b : Int × Int) (h : Reach g a b) :
    ∃ ds, walkPlayer g a ds = some b := by
  induction h using Relation.ReflTransGen.head_induction_on with
  | refl => exact ⟨[], rfl⟩
  | @head c e hstep _ ih =>
    obtain ⟨ds, hds⟩ := ih
    obtain ⟨i, rfl, hdir⟩ := hstep
    refine ⟨i :: ds, ?_⟩
    unfold walkPlayer
    rw [if_pos ((CanMove_iff_stepDir g c.1 c.2 i).2 hdir), movedTo_eq_neighbor]
    exact hds

theorem relax_searchInit (g : Grid) (endX endY x y : Int) (d : Fin 4) :
    (relax g endX endY x y (searchInit x y) d).frontier =
      if CanMove g x y d = true then
        [(1 + Heuristic (x + (directions d).1) (y + (directions d).2) endX endY,
          x + (directions d).1, y + (directions d).2), (0, x, y)]
      else [(0, x, y)] := by
  have hne : ¬ (x + (directions d).1 = x ∧ y + (directions d).2 = y) := by
    rintro ⟨h1, h2⟩
    exact neighbor_ne (x, y) d (Prod.ext h1 h2)
  have hmv : movedTo x y d = (x + (directions d).1, y + (directions d).2) :=
    movedTo_eq_neighbor x y d
  unfold relax CanMove
  simp only [hmv, searchInit, if_neg hne, and_self, if_true, Bool.not_false, Bool.and_true]
  by_cases h1 : IsInBounds g (x + (directions d).1) (y + (directions d).2) = true
  · by_cases h2 : (g.cell (x + (directions d).1) (y + (directions d).2)).isObstacle = true
    · simp [h1, h2]
    · by_cases h3 : (g.cell x y).walls d = true
      · simp [h1, h2, h3]
      · simp [h1, h2, h3, INT_MAX]
  · simp [h1]

/-! ## Exit placement: the cells it accepts -/

theorem uniformInt_toNat (n : Nat) (x : Int) (h0 : 0 ≤ x) (hn : x < (n : Int)) :
    uniformInt 0 ((n : Int) - 1) x.toNat = x := by
  unfold uniformInt
  have h1 : ((n : Int) - 1 - 0 + 1) = (n : Int) := by ring
  rw [h1, Int.toNat_of_nonneg h0, Int.emod_eq_of_lt h0 hn]
  simp

theorem placeExitLoop_accept (g : Grid) (gen : Nat → Nat) (fuel j : Nat) (x y : Int)
    (hx : uniformInt 0 ((g.cols : Int) - 1) (gen j) = x)
    (hy : uniformInt 0 ((g.rows : Int) - 1) (gen (j + 1)) = y)
    (hx0 : 0 ≤ x) (hy0 : 0 ≤ y)
    (hdist : x + y ≥ max (g.cols : Int) (g.rows : Int) / 2)
    (hfree : (g.cell x y).isObstacle = false)
    (hpath : PathExists g 0 0 x y = some true) :
    placeExitLoop g gen (fuel + 1) j = some (x, y) := by
  unfold placeExitLoop
  simp only [hx, hy, sub_zero, abs_of_nonneg hx0, abs_of_nonneg hy0, hfree, hpath]
  simp [hdist]

/-! ## The build does not depend on the iteration bounds -/

theorem placeExitLoop_fuel (g : Grid) (gen : Nat → Nat) (fuel1 fuel2 j : Nat)
    (r1 r2 : Int × Int) (h1 : placeExitLoop g gen fuel1 j = some r1)
    (h2 : placeExitLoop g gen fuel2 j = some r2) : r1 = r2 := by
  induction fuel1 generalizing fuel2 j with
  | zero => simp [placeExitLoop] at h1
  | succ fuel1 ih =>
    cases fuel2 with
    | zero => simp [placeExitLoop] at h2
    | succ fuel2 =>
      unfold placeExitLoop at h1 h2
      simp only at h1 h2
      split_ifs at h1 h2 with hcond
      · split at h1
        · rename_i hpe
          rw [hpe] at h2
          simp only [Option.some.injEq] at h1 h2
          rw [← h1, ← h2]
        · rename_i hpe
          rw [hpe] at h2
          exact ih _ _ h1 h2
        · simp at h1
      · exact ih _ _ h1 h2

theorem obstacleLoop_fuel (theme : GameTheme) (rand gen : Nat → Nat)
    (exitX exitY maxObstacles : Int) (fuel1 fuel2 : Nat) (s t1 t2 : ObstState)
    (h1 : obstacleLoop theme rand gen exitX exitY maxObstacles fuel1 s = some t1)
    (h2 : obstacleLoop theme rand gen exitX exitY maxObstacles fuel2 s = some t2) :
    t1 = t2 := by
  induction fuel1 generalizing fuel2 s with
  | zero => simp [obstacleLoop] at h1
  | succ fuel1 ih =>
    cases fuel2 with
    | zero => simp [obstacleLoop] at h2
    | succ fuel2 =>
      unfold obstacleLoop at h1 h2
      split_ifs at h1 h2 with hcond
      · cases hiter : obstacleIter theme rand gen exitX exitY s with
        | none => simp [hiter] at h1
        | some s1 =>
          rw [hiter] at h1 h2
          exact ih _ _ h1 h2
      · simp only [Option.some.injEq] at h1 h2
        rw [← h1, ← h2]

/-- Two runs of the build pipeline on grids of the same size with the same draws end
with the same result, whatever the grids held and however many iterations the loops of
`PlaceRandomExit` and `AddRandomObstacles` were allowed. -/
theorem ResetGame_deterministic (old1 old2 : Grid) (theme : GameTheme) (scaled : Int)
    (rand genExit genObst : Nat → Nat) (seed fuelExit1 fuelObst1 fuelExit2 fuelObst2 : Nat)
    (b1 b2 : Built) (hrows : old1.rows = old2.rows) (hcols : old1.cols = old2.cols)
    (h1 : ResetGame old1 theme scaled rand genExit genObst seed fuelExit1 fuelObst1 = some b1)
    (h2 : ResetGame old2 theme scaled rand genExit genObst seed fuelExit2 fuelObst2 = some b2) :
    b1 = b2 := by
  unfold ResetGame at h1 h2
  simp only [← hrows, ← hcols] at h2
  simp only at h1
  cases hgen : GenerateMaze
      (InitializeGrid { rows := old1.rows, cols := old1.cols, cell := fun _ _ => Cell.new 0 0 })
      rand seed with
  | none => simp [hgen] at h1
  | some s =>
    rw [hgen] at h1 h2
    simp only at h1 h2
    cases hex1 : PlaceRandomExit s.grid genExit fuelExit1 with
    | none => simp [hex1] at h1
    | some e1 =>
      cases hex2 : PlaceRandomExit s.grid genExit fuelExit2 with
      | none => simp [hex2] at h2
      | some e2 =>
        have he := placeExitLoop_fuel s.grid genExit fuelExit1 fuelExit2 0 e1 e2 hex1 hex2
        subst he
        obtain ⟨ex, ey⟩ := e1
        rw [hex1] at h1
        rw [hex2] at h2
        simp only at h1 h2
        cases ho1 : AddRandomObstacles theme scaled rand genObst ex ey s.grid s.seed fuelObst1 with
        | none => simp [ho1] at h1
        | some t1 =>
          cases ho2 : AddRandomObstacles theme scaled rand genObst ex ey s.grid s.seed
              fuelObst2 with
          | none => simp [ho2] at h2
          | some t2 =>
            have ht := obstacleLoop_fuel theme rand genObst ex ey _ fuelObst1 fuelObst2 _ t1 t2
              ho1 ho2
            subst ht
            rw [ho1] at h1
            rw [ho2] at h2
            simp only [Option.some.injEq] at h1 h2
            rw [← h1, ← h2]

/-! ## Obstacle injection: the counter and the loop that cannot end -/

theorem sameMaze_obstacleCells {g h : Grid} (e : SameMaze g h) :
    obstacleCells g = obstacleCells h := by
  unfold obstacleCells cellCount allCells
  rw [e.1, e.2.1]
  apply List.countP_congr
  intro p _
  simp only [(e.2.2 p.1 p.2).1]

theorem sameMaze_setObstacle {g h : Grid} (e : SameMaze g h) (x y : Int) (b : Bool) :
    SameMaze (setObstacle g x y b) (setObstacle h x y b) := by
  refine ⟨e.1, e.2.1, fun x' y' => ⟨?_, ?_⟩⟩
  · rw [(setObstacle_fields g x y b x' y').2.2.2, (setObstacle_fields h x y b x' y').2.2.2,
      (e.2.2 x' y').1]
  · rw [(setObstacle_fields g x y b x' y').2.2.1, (setObstacle_fields h x y b x' y').2.2.1,
      (e.2.2 x' y').2]

theorem sameMaze_noCandidate {g h : Grid} (e : SameMaze g h) (exitX exitY : Int)
    (hn : NoCandidate g exitX exitY) : NoCandidate h exitX exitY := by
  intro x y hin
  rw [← e.same_bounds] at hin
  rcases hn x y hin with h1 | h1 | h1 | h1
  · exact Or.inl h1
  · exact Or.inr (Or.inl h1)
  · exact Or.inr (Or.inr (Or.inl (by rw [← (e.2.2 x y).1]; exact h1)))
  · exact Or.inr (Or.inr (Or.inr (by
      rw [← PathExists_congr (sameMaze_setObstacle e x y true)]; exact h1)))

theorem sample_inBounds (g : Grid) (a b : Nat) (hr : 1 ≤ g.rows) (hc : 1 ≤ g.cols) :
    IsInBounds g ((a % g.cols : Nat) : Int) ((b % g.rows : Nat) : Int) = true := by
  rw [isInBounds_iff]
  have h1 := Nat.mod_lt a (show 0 < g.cols by omega)
  have h2 := Nat.mod_lt b (show 0 < g.rows by omega)
  omega

theorem obstacleCells_set (g : Grid) (x y : Int) (hin : IsInBounds g x y = true)
    (hfree : (g.cell x y).isObstacle = false) :
    obstacleCells (setObstacle g x y true) = obstacleCells g + 1 := by
  unfold obstacleCells
  have h := cellCount_mark g (fun x' y' => (g.cell x' y').isObstacle) x y hin hfree
  rw [← h]
  unfold cellCount allCells
  apply List.countP_congr
  intro p _
  simp only [(setObstacle_fields g x y true p.1 p.2).2.2.2]

/-- What one iteration of the loop of `AddRandomObstacles` does to the counter and to the
number of flagged cells: both stay, or both go up by one. -/
theorem obstacleIter_count (theme : GameTheme) (rand gen : Nat → Nat) (exitX exitY : Int)
    (s t : ObstState) (hr : 1 ≤ s.grid.rows) (hc : 1 ≤ s.grid.cols)
    (h : obstacleIter theme rand gen exitX exitY s = some t) :
    (t.obstacleCount = s.obstacleCount ∧ obstacleCells t.grid = obstacleCells s.grid ∧
        SameMaze t.grid s.grid) ∨
      (t.obstacleCount = s.obstacleCount + 1 ∧
        obstacleCells t.grid = obstacleCells s.grid + 1 ∧
        ∃ x y, IsInBounds s.grid x y = true ∧ ¬ (x = 0 ∧ y = 0) ∧ ¬ (x = exitX ∧ y = exitY) ∧
          (s.grid.cell x y).isObstacle = false ∧
          PathExists (setObstacle s.grid x y true) 0 0 exitX exitY = some true ∧
          SameMaze t.grid (setObstacle s.grid x y true)) := by
  unfold obstacleIter at h
  simp only at h
  split_ifs at h with hskip
  · simp only [Option.some.injEq] at h
    subst h
    exact Or.inl ⟨rfl, rfl, SameMaze.same_refl _⟩
  · push_neg at hskip
    obtain ⟨hstart, hexit, hfree⟩ := hskip
    have hfree' := Bool.eq_false_iff.2 hfree
    have hin := sample_inBounds s.grid (rand s.seed) (rand (s.seed + 1)) hr hc
    have hsame := setSprite_sameMaze theme gen s.genPos
      (setObstacle s.grid ((rand s.seed % s.grid.cols : Nat) : Int)
        ((rand (s.seed + 1) % s.grid.rows : Nat) : Int) true)
      ((rand s.seed % s.grid.cols : Nat) : Int) ((rand (s.seed + 1) % s.grid.rows : Nat) : Int)
    split at h
    · rename_i hpe
      simp only [Option.some.injEq] at h
      subst h
      right
      refine ⟨rfl, ?_, _, _, hin, fun h => hstart h.1 h.2, fun h => hexit h.1 h.2, hfree', ?_,
        hsame⟩
      · simp only
        rw [sameMaze_obstacleCells hsame, obstacleCells_set _ _ _ hin hfree']
      · rw [← PathExists_congr hsame]
        exact hpe
    · simp only [Option.some.injEq] at h
      subst h
      left
      have hrev := revert_sameMaze theme gen s.genPos s.grid _ _ hfree'
      exact ⟨rfl, sameMaze_obstacleCells hrev, hrev⟩
    · simp at h

theorem obstacleLoop_count (theme : GameTheme) (rand gen : Nat → Nat)
    (exitX exitY maxObstacles : Int) (fuel : Nat) (s t : ObstState)
    (hr : 1 ≤ s.grid.rows) (hc : 1 ≤ s.grid.cols)
    (hle : s.obstacleCount ≤ maxObstacles)
    (hcount : (obstacleCells s.grid : Int) = s.obstacleCount)
    (h : obstacleLoop theme rand gen exitX exitY maxObstacles fuel s = some t) :
    t.obstacleCount = maxObstacles ∧ (obstacleCells t.grid : Int) = t.obstacleCount := by
  induction fuel generalizing s with
  | zero => simp [obstacleLoop] at h
  | succ fuel ih =>
    unfold obstacleLoop at h
    split_ifs at h with hlt
    · split at h
      · rename_i s1 hs1
        have hf := (obstacleIter_spec theme rand gen exitX exitY s s1 hs1).1
        have hr1 : 1 ≤ s1.grid.rows := by rw [hf.rows_eq]; exact hr
        have hc1 : 1 ≤ s1.grid.cols := by rw [hf.cols_eq]; exact hc
        rcases obstacleIter_count theme rand gen exitX exitY s s1 hr hc hs1 with
          ⟨h1, h2, -⟩ | ⟨h1, h2, -⟩
        · exact ih s1 hr1 hc1 (by omega) (by omega) h
        · exact ih s1 hr1 hc1 (by omega) (by omega) h
      · simp at h
    · simp only [Option.some.injEq] at h
      subst h
      exact ⟨by omega, hcount⟩

theorem obstacleLoop_stuck (theme : GameTheme) (rand gen : Nat → Nat)
    (exitX exitY maxObstacles : Int) (fuel : Nat) (s : ObstState)
    (hr : 1 ≤ s.grid.rows) (hc : 1 ≤ s.grid.cols) (hlt : s.obstacleCount < maxObstacles)
    (hstuck : NoCandidate s.grid exitX exitY) :
    obstacleLoop theme rand gen exitX exitY maxObstacles fuel s = none := by
  induction fuel generalizing s with
  | zero => rfl
  | succ fuel ih =>
    unfold obstacleLoop
    rw [if_pos hlt]
    cases hs1 : obstacleIter theme rand gen exitX exitY s with
    | none => rfl
    | some s1 =>
      simp only
      have hf := (obstacleIter_spec theme rand gen exitX exitY s s1 hs1).1
      have hr1 : 1 ≤ s1.grid.rows := by rw [hf.rows_eq]; exact hr
      have hc1 : 1 ≤ s1.grid.cols := by rw [hf.cols_eq]; exact hc
      rcases obstacleIter_count theme rand gen exitX exitY s s1 hr hc hs1 with
        ⟨h1, -, hsame⟩ | ⟨-, -, x, y, hin, hns, hne, hfree, hpe, -⟩
      · exact ih s1 hr1 hc1 (by omega) (sameMaze_noCandidate hsame.same_symm _ _ hstuck)
      · exfalso
        rcases hstuck x y hin with h | h | h | h
        · exact hns h
        · exact hne h
        · rw [hfree] at h
          exact Bool.noConfusion h
        · rw [hpe] at h
          simp at h

theorem obstacleLoop_counter (theme : GameTheme) (rand gen : Nat → Nat)
    (exitX exitY maxObstacles : Int) (fuel : Nat) (s t : ObstState)
    (hr : 1 ≤ s.grid.rows) (hc : 1 ≤ s.grid.cols)
    (hle : s.obstacleCount ≤ maxObstacles)
    (h : obstacleLoop theme rand gen exitX exitY maxObstacles fuel s = some t) :
    t.obstacleCount = maxObstacles := by
  induction fuel generalizing s with
  | zero => simp [obstacleLoop] at h
  | succ fuel ih =>
    unfold obstacleLoop at h
    split_ifs at h with hlt
    · split at h
      · rename_i s1 hs1
        have hf := (obstacleIter_spec theme rand gen exitX exitY s s1 hs1).1
        have hr1 : 1 ≤ s1.grid.rows := by rw [hf.rows_eq]; exact hr
        have hc1 : 1 ≤ s1.grid.cols := by rw [hf.cols_eq]; exact hc
        rcases obstacleIter_count theme rand gen exitX exitY s s1 hr hc hs1 with
          ⟨h1, -, -⟩ | ⟨h1, -, -⟩
        · exact ih s1 hr1 hc1 (by omega) h
        · exact ih s1 hr1 hc1 (by omega) h
      · simp at h
    · simp only [Option.some.injEq] at h
      subst h
      omega

theorem obstFrame_openPairs {exitX exitY : Int} {g h : Grid} (hf : ObstFrame exitX exitY g h) :
    openPairs h = openPairs g := by
  unfold openPairs allCells
  rw [hf.rows_eq, hf.cols_eq]
  apply List.countP_congr
  intro e _
  unfold pairOpen
  simp only [hf.frame_bounds, hf.walls_eq]

theorem reach_free (g : Grid) (a b : Int × Int) (h : Reach g a b) :
    b = a ∨ (g.cell b.1 b.2).isObstacle = false := by
  cases h with
  | refl => exact Or.inl rfl
  | tail _ hstep =>
    obtain ⟨i, rfl, -, hob, -⟩ := hstep
    exact Or.inr hob

/-- The stages of the build pipeline behind a result of `ResetGame`. -/
theorem ResetGame_stages (old : Grid) (theme : GameTheme) (scaled : Int)
    (rand genExit genObst : Nat → Nat) (seed fuelExit fuelObst : Nat) (b : Built)
    (h : ResetGame old theme scaled rand genExit genObst seed fuelExit fuelObst = some b) :
    ∃ s t, GenerateMaze
        (InitializeGrid { rows := old.rows, cols := old.cols, cell := fun _ _ => Cell.new 0 0 })
        rand seed = some s ∧
      PlaceRandomExit s.grid genExit fuelExit = some (b.exitX, b.exitY) ∧
      AddRandomObstacles theme scaled rand genObst b.exitX b.exitY s.grid s.seed fuelObst =
        some t ∧
      b.grid = t.grid ∧ b.seed = t.seed := by
  unfold ResetGame at h
  simp only at h
  split at h
  · simp at h
  · rename_i s hs
    split at h
    · simp at h
    · rename_i exitX exitY hexit
      split at h
      · simp at h
      · rename_i u hu
        simp only [Option.some.injEq] at h
        subst h
        exact ⟨s, u, hs, hexit, hu, rfl, rfl⟩

/-- The counts of a finished build: `R * C - 1` opened wall-pairs, `max(1, scaled)` cells
flagged as obstacle, none of which the oracle reaches from the start. -/
theorem ResetGame_counts (old : Grid) (theme : GameTheme) (scaled : Int)
    (rand genExit genObst : Nat → Nat) (seed fuelExit fuelObst : Nat) (b : Built)
    (hr : 1 ≤ old.rows) (hc : 1 ≤ old.cols)
    (h : ResetGame old theme scaled rand genExit genObst seed fuelExit fuelObst = some b) :
    openPairs b.grid = old.rows * old.cols - 1 ∧
      (obstacleCells b.grid : Int) = max 1 scaled ∧
      ∀ x y, (b.grid.cell x y).isObstacle = true → ¬ Reach b.grid (0, 0) (x, y) := by
  obtain ⟨s, t, hs, -, ht, hgrid, -⟩ := ResetGame_stages old theme scaled rand genExit genObst
    seed fuelExit fuelObst b h
  obtain ⟨s', hs', hinv, hstack, hrows, hcols⟩ := GenerateMaze_spec
    (InitializeGrid { rows := old.rows, cols := old.cols, cell := fun _ _ => Cell.new 0 0 })
    rand seed hr hc
  rw [hs] at hs'
  simp only [Option.some.injEq] at hs'
  subst hs'
  have hrows' : s.grid.rows = old.rows := hrows
  have hcols' : s.grid.cols = old.cols := hcols
  have hzero : obstacleCells s.grid = 0 := by
    unfold obstacleCells cellCount
    rw [List.countP_eq_zero]
    intro p hp
    simp only [hinv.noObst p.1 p.2 ((mem_allCells _ _).1 hp)]
    exact Bool.noConfusion
  obtain ⟨hf, -⟩ := obstacleLoop_spec _ _ _ _ _ _ _ _ _ ht
  obtain ⟨hcnt, hcells⟩ := obstacleLoop_count theme rand genObst b.exitX b.exitY (max 1 scaled)
    fuelObst _ t (by simp only; omega) (by simp only; omega)
    (by simp only; exact le_trans zero_le_one (le_max_left 1 scaled))
    (by simp only; rw [hzero]; rfl) ht
  simp only at hf
  refine ⟨?_, ?_, ?_⟩
  · rw [hgrid, obstFrame_openPairs hf, hinv.openPairs_eq hstack, hrows', hcols']
  · rw [hgrid, hcells, hcnt]
  · intro x y hob hreach
    rcases reach_free b.grid _ _ hreach with h0 | h0
    · have hx : x = 0 := congrArg Prod.fst h0
      have hy : y = 0 := congrArg Prod.snd h0
      subst hx hy
      rw [hgrid, hf.start_eq, hinv.noObst 0 0 hinv.origin_in] at hob
      exact Bool.noConfusion hob
    · simp only at h0
      rw [hob] at h0
      exact Bool.noConfusion h0

/-! ## The path oracle: optimality of the recorded cost -/

theorem searchTrace_fst (g : Grid) (endX endY : Int) (fuel : Nat) (s : SearchState) :
    (searchTrace g endX endY fuel s).map Prod.fst = searchLoop g endX endY fuel s := by
  induction fuel generalizing s with
  | zero => rfl
  | succ fuel ih =>
    unfold searchTrace searchLoop
    cases hpop : frontierPop s.frontier with
    | none => rfl
    | some r =>
      obtain ⟨⟨c, x, y⟩, rest⟩ := r
      simp only
      split_ifs
      · rfl
      · exact ih _
      · exact ih _

theorem frontierTop_le (a : Node) (l : List Node) :
    (frontierTop a l).1 ≤ a.1 ∧ ∀ n ∈ l, (frontierTop a l).1 ≤ n.1 := by
  induction l generalizing a with
  | nil => simp [frontierTop]
  | cons b l ih =>
    unfold frontierTop
    split_ifs with hlt
    · obtain ⟨h1, h2⟩ := ih b
      have hba : b.1 ≤ a.1 := by
        unfold Node.lt at hlt
        simp only [Bool.or_eq_true, decide_eq_true_eq, Bool.and_eq_true] at hlt
        rcases hlt with h | ⟨h, -⟩
        · exact le_of_lt h
        · exact le_of_eq h
      refine ⟨le_trans h1 hba, ?_⟩
      intro n hn
      rcases List.mem_cons.1 hn with rfl | hn
      · exact h1
      · exact h2 n hn
    · obtain ⟨h1, h2⟩ := ih a
      have hab : a.1 ≤ b.1 := by
        by_contra hc
        apply hlt
        unfold Node.lt
        simp only [Bool.or_eq_true, decide_eq_true_eq, Bool.and_eq_true]
        exact Or.inl (not_le.1 hc)
      refine ⟨h1, ?_⟩
      intro n hn
      rcases List.mem_cons.1 hn with rfl | hn
      · exact le_trans h1 hab
      · exact h2 n hn

theorem frontierPop_min (l : List Node) (m : Node) (rest : List Node)
    (h : frontierPop l = some (m, rest)) : ∀ n ∈ l, m.1 ≤ n.1 := by
  cases l with
  | nil => simp [frontierPop] at h
  | cons a l =>
    simp only [frontierPop, Option.some.injEq, Prod.mk.injEq] at h
    obtain ⟨rfl, -⟩ := h
    intro n hn
    rcases List.mem_cons.1 hn with rfl | hn
    · exact (frontierTop_le _ l).1
    · exact (frontierTop_le a l).2 n hn

/-- The Manhattan heuristic is consistent: a step changes it by at most one. -/
theorem heuristic_step (a : Int × Int) (i : Fin 4) (endX endY : Int) :
    Heuristic a.1 a.2 endX endY ≤
      1 + Heuristic (neighbor a i).1 (neighbor a i).2 endX endY := by
  unfold Heuristic
  fin_cases i
  · simp only [neighbor, directions, add_zero]
    rcases abs_cases (a.2 - endY) with ⟨h2, _⟩ | ⟨h2, _⟩ <;>
      rcases abs_cases (a.2 + -1 - endY) with ⟨h4, _⟩ | ⟨h4, _⟩ <;> omega
  · simp only [neighbor, directions, add_zero]
    rcases abs_cases (a.1 - endX) with ⟨h2, _⟩ | ⟨h2, _⟩ <;>
      rcases abs_cases (a.1 + 1 - endX) with ⟨h4, _⟩ | ⟨h4, _⟩ <;> omega
  · simp only [neighbor, directions, add_zero]
    rcases abs_cases (a.2 - endY) with ⟨h2, _⟩ | ⟨h2, _⟩ <;>
      rcases abs_cases (a.2 + 1 - endY) with ⟨h4, _⟩ | ⟨h4, _⟩ <;> omega
  · simp only [neighbor, directions, add_zero]
    rcases abs_cases (a.1 - endX) with ⟨h2, _⟩ | ⟨h2, _⟩ <;>
      rcases abs_cases (a.1 + -1 - endX) with ⟨h4, _⟩ | ⟨h4, _⟩ <;> omega

theorem relax_optimal (g : Grid) (start : Int × Int) (endX endY x y : Int)
    (s : SearchState) (i : Fin 4) (ds : List (Fin 4)) (hfit : GridFitsInt g)
    (hc : SearchComplete g start (endX, endY) s (x, y) (i :: ds))
    (ho : SearchOptimal g start (endX, endY) s (x, y) (i :: ds)) :
    SearchOptimal g start (endX, endY) (relax g endX endY x y s i) (x, y) ds := by
  have hcur := hc.cur_ok (List.cons_ne_nil _ _)
  simp only at hcur
  have hbound : (cellCount g s.visited : Int) < INT_MAX :=
    lt_of_le_of_lt (by exact_mod_cast cellCount_le g s.visited) hfit
  have hcurfin : s.cost x y < INT_MAX := by
    have := hcur.2
    omega
  obtain ⟨k, hk, hsteps⟩ := ho.realised (x, y) hcurfin
  simp only at hk
  unfold relax
  simp only
  split_ifs with h1 h2
  · simp only [Bool.and_eq_true, Bool.not_eq_eq_eq_not, Bool.not_true] at h1
    obtain ⟨⟨⟨hin, hob⟩, hnv⟩, hw⟩ := h1
    have hne : ¬ (x = x + (directions i).1 ∧ y = y + (directions i).2) := by
      rintro ⟨e1, e2⟩
      rw [← e1, ← e2] at hnv
      rw [hcur.1] at hnv
      exact Bool.noConfusion hnv
    have hvne : ∀ v : Int × Int, s.visited v.1 v.2 = true →
        ¬ (v.1 = x + (directions i).1 ∧ v.2 = y + (directions i).2) := by
      rintro v hv ⟨e1, e2⟩
      rw [e1, e2, hnv] at hv
      exact Bool.noConfusion hv
    have hle : ∀ a b : Int,
        (if a = x + (directions i).1 ∧ b = y + (directions i).2 then s.cost x y + 1
          else s.cost a b) ≤ s.cost a b := by
      intro a b
      split_ifs with hab
      · rw [hab.1, hab.2]
        exact le_of_lt h2
      · exact le_refl _
    refine ⟨?_, ?_, ?_, ?_, ?_, ?_⟩
    · intro v m hv hst
      simp only [if_neg (hvne v hv)]
      exact ho.vis_opt v m hv hst
    · intro v j hv hd
      simp only [if_neg (hvne v hv)]
      rcases ho.relaxed v j hv hd with ⟨rfl, hj⟩ | ⟨h3, h4⟩
      · rcases List.mem_cons.1 hj with rfl | hj
        · right
          simp only [neighbor, and_self, if_true]
          have := hcur.2
          constructor <;> omega
        · exact Or.inl ⟨rfl, hj⟩
      · right
        have := hle (neighbor v j).1 (neighbor v j).2
        constructor <;> omega
    · intro w hwv hfin
      simp only at hwv hfin ⊢
      by_cases hwn : w.1 = x + (directions i).1 ∧ w.2 = y + (directions i).2
      · rw [if_pos hwn, hwn.1, hwn.2]
        exact List.mem_cons_self _ _
      · rw [if_neg hwn] at hfin ⊢
        exact List.mem_cons_of_mem _ (ho.front_cur w hwv hfin)
    · intro n hn
      simp only at hn ⊢
      rcases List.mem_cons.1 hn with rfl | hn
      · simp
      · have h3 := ho.front_lb n hn
        have h4 := hle n.2.1 n.2.2
        simp only at h3
        omega
    · intro w hfin
      simp only at hfin ⊢
      by_cases hwn : w.1 = x + (directions i).1 ∧ w.2 = y + (directions i).2
      · rw [if_pos hwn]
        refine ⟨k + 1, by rw [hk]; push_cast; rfl, ?_⟩
        have hw' : w = neighbor (x, y) i := Prod.ext hwn.1 hwn.2
        rw [hw']
        exact StepsIn.succ hsteps ⟨i, rfl, hin, hob, hw⟩
      · rw [if_neg hwn] at hfin ⊢
        exact ho.realised w hfin
    · have h3 := hle start.1 start.2
      have h4 := ho.start_zero
      simp only at h3 h4 ⊢
      omega
  · refine ⟨ho.vis_opt, ?_, ho.front_cur, ho.front_lb, ho.realised, ho.start_zero⟩
    intro v j hv hd
    rcases ho.relaxed v j hv hd with ⟨rfl, hj⟩ | h3
    · rcases List.mem_cons.1 hj with rfl | hj
      · right
        have h3 : s.cost (neighbor (x, y) j).1 (neighbor (x, y) j).2 ≤ s.cost x y + 1 :=
          not_lt.1 h2
        have := hcur.2
        simp only
        constructor <;> omega
      · exact Or.inl ⟨rfl, hj⟩
    · exact Or.inr h3
  · refine ⟨ho.vis_opt, ?_, ho.front_cur, ho.front_lb, ho.realised, ho.start_zero⟩
    intro v j hv hd
    rcases ho.relaxed v j hv hd with ⟨rfl, hj⟩ | h3
    · rcases List.mem_cons.1 hj with rfl | hj
      · right
        obtain ⟨hin, hob, hw⟩ := hd
        have hvis : s.visited (neighbor (x, y) j).1 (neighbor (x, y) j).2 = true := by
          by_contra hcon
          apply h1
          simp only [neighbor] at hin hob hcon hw
          simp [hin, hob, hw, hcon]
        have h3 := ho.vis_opt (neighbor (x, y) j) (k + 1) hvis
          (StepsIn.succ hsteps ⟨j, rfl, hin, hob, hw⟩)
        have := hcur.2
        push_cast at h3
        simp only
        constructor <;> omega
      · exact Or.inl ⟨rfl, hj⟩
    · exact Or.inr h3

theorem foldl_relax_optimal (g : Grid) (start : Int × Int) (endX endY x y : Int)
    (hfit : GridFitsInt g) (ds : List (Fin 4)) (s : SearchState)
    (hc : SearchComplete g start (endX, endY) s (x, y) ds)
    (ho : SearchOptimal g start (endX, endY) s (x, y) ds) :
    SearchOptimal g start (endX, endY) (List.foldl (relax g endX endY x y) s ds) (x, y) [] := by
  induction ds generalizing s with
  | nil => exact ho
  | cons i ds ih =>
    rw [List.foldl_cons]
    exact ih _ (relax_complete g start (endX, endY) endX endY x y s i ds hfit hc)
      (relax_optimal g start endX endY x y s i ds hfit hc ho)

theorem searchComplete_skip (g : Grid) (start goal : Int × Int) (s : SearchState)
    (cur : Int × Int) (c x y : Int) (rest : List Node)
    (hs : SearchComplete g start goal s cur [])
    (hpop : frontierPop s.frontier = some ((c, x, y), rest)) (hv : s.visited x y = true) :
    SearchComplete g start goal { s with frontier := rest } cur [] := by
  obtain ⟨-, hsub, hcov, -⟩ := frontierPop_some _ _ _ hpop
  have hmono : ∀ b, Seen s b → Seen { s with frontier := rest } b := by
    intro b hb
    refine Seen.seen_mono hb (fun _ _ h => h) ?_
    intro n hn
    rcases hcov n hn with rfl | h
    · exact Or.inr hv
    · exact Or.inl h
  refine ⟨hmono _ hs.start_seen, ?_, fun b hb => hmono _ (hs.cost_seen b hb),
    fun n hn => hs.front_cost n (hsub n hn), hs.goal_unvisited, fun h => absurd rfl h⟩
  intro a i hva hd
  rcases hs.closed a i hva hd with ⟨-, hi⟩ | h
  · simp at hi
  · exact Or.inr (hmono _ h)

theorem searchComplete_expand (g : Grid) (start goal : Int × Int) (s : SearchState)
    (cur : Int × Int) (c x y : Int) (rest : List Node)
    (hs : SearchComplete g start goal s cur [])
    (hpop : frontierPop s.frontier = some ((c, x, y), rest))
    (hin : IsInBounds g x y = true) (hv : s.visited x y = false)
    (hgoal : ¬ (x = goal.1 ∧ y = goal.2)) :
    SearchComplete g start goal
      { frontier := rest, cost := s.cost,
        visited := fun x' y' => if x' = x ∧ y' = y then true else s.visited x' y' }
      (x, y) [0, 1, 2, 3] := by
  obtain ⟨hm, hsub, hcov, -⟩ := frontierPop_some _ _ _ hpop
  have hmono : ∀ b, Seen s b → Seen
      { frontier := rest, cost := s.cost,
        visited := fun x' y' => if x' = x ∧ y' = y then true else s.visited x' y' } b := by
    intro b hb
    refine Seen.seen_mono hb ?_ ?_
    · intro x' y' h
      simp only
      split_ifs
      · rfl
      · exact h
    · intro n hn
      rcases hcov n hn with rfl | h
      · right; simp
      · exact Or.inl h
  have hcount := cellCount_mark g s.visited x y hin hv
  refine ⟨hmono _ hs.start_seen, ?_, fun b hb => hmono _ (hs.cost_seen b hb), ?_, ?_, ?_⟩
  · intro a i hva hd
    simp only at hva
    split_ifs at hva with hax
    · left
      refine ⟨by ext <;> simp [hax.1, hax.2], ?_⟩
      fin_cases i <;> simp
    · rcases hs.closed a i hva hd with ⟨-, hi⟩ | h
      · simp at hi
      · exact Or.inr (hmono _ h)
  · intro n hn
    have := hs.front_cost n (hsub n hn)
    simp only at this ⊢
    rw [hcount]
    push_cast
    omega
  · simp only
    rw [if_neg (fun h => hgoal ⟨h.1.symm, h.2.symm⟩)]
    exact hs.goal_unvisited
  · intro _
    have := hs.front_cost _ hm
    simp only at this ⊢
    rw [hcount]
    refine ⟨by simp, ?_⟩
    push_cast
    omega

theorem optimal_witness (g : Grid) (start : Int × Int) (endX endY : Int) (s : SearchState)
    (cur : Int × Int) (ho : SearchOptimal g start (endX, endY) s cur []) (m : Nat)
    (v : Int × Int) (h : StepsIn g start m v) :
    (s.visited v.1 v.2 = true ∧ s.cost v.1 v.2 ≤ (m : Int)) ∨
      ∃ w : Int × Int, s.visited w.1 w.2 = false ∧ s.cost w.1 w.2 < INT_MAX ∧
        s.cost w.1 w.2 + Heuristic w.1 w.2 endX endY ≤
          (m : Int) + Heuristic v.1 v.2 endX endY := by
  have hz := ho.start_zero
  induction h with
  | zero =>
    by_cases hv : s.visited start.1 start.2 = true
    · exact Or.inl ⟨hv, by exact_mod_cast hz⟩
    · right
      refine ⟨start, by simpa using hv, ?_, ?_⟩
      · unfold INT_MAX
        omega
      · push_cast
        omega
  | @succ n b c _ hstep ih =>
    obtain ⟨i, rfl, hd⟩ := hstep
    have hh := heuristic_step b i endX endY
    rcases ih with ⟨hvb, hcb⟩ | ⟨w, hw1, hw2, hw3⟩
    · rcases ho.relaxed b i hvb hd with ⟨-, hi⟩ | ⟨h1, h2⟩
      · simp at hi
      · by_cases hvc : s.visited (neighbor b i).1 (neighbor b i).2 = true
        · left
          refine ⟨hvc, ?_⟩
          push_cast
          omega
        · right
          refine ⟨neighbor b i, by simpa using hvc, h2, ?_⟩
          push_cast
          omega
    · right
      refine ⟨w, hw1, hw2, ?_⟩
      push_cast
      omega

theorem pop_optimal (g : Grid) (start : Int × Int) (endX endY : Int) (s : SearchState)
    (cur : Int × Int) (ho : SearchOptimal g start (endX, endY) s cur [])
    (c x y : Int) (rest : List Node)
    (hpop : frontierPop s.frontier = some ((c, x, y), rest)) (hv : s.visited x y = false)
    (m : Nat) (h : StepsIn g start m (x, y)) : s.cost x y ≤ (m : Int) := by
  obtain ⟨hm, -, -, -⟩ := frontierPop_some _ _ _ hpop
  have hmin := frontierPop_min _ _ _ hpop
  have hlb := ho.front_lb _ hm
  simp only at hlb
  rcases optimal_witness g start endX endY s cur ho m (x, y) h with ⟨hv', -⟩ | ⟨w, h1, h2, h3⟩
  · simp only at hv'
    rw [hv] at hv'
    exact Bool.noConfusion hv'
  · have h4 := hmin _ (ho.front_cur w h1 h2)
    simp only at h3 h4
    omega

theorem searchOptimal_skip (g : Grid) (start goal : Int × Int) (s : SearchState)
    (cur : Int × Int) (c x y : Int) (rest : List Node)
    (ho : SearchOptimal g start goal s cur [])
    (hpop : frontierPop s.frontier = some ((c, x, y), rest)) (hv : s.visited x y = true) :
    SearchOptimal g start goal { s with frontier := rest } cur [] := by
  obtain ⟨-, hsub, hcov, -⟩ := frontierPop_some _ _ _ hpop
  refine ⟨ho.vis_opt, ho.relaxed, ?_, fun n hn => ho.front_lb n (hsub n hn), ho.realised,
    ho.start_zero⟩
  intro w hw hfin
  rcases hcov _ (ho.front_cur w hw hfin) with h | h
  · simp only [Prod.mk.injEq] at h
    simp only at hw
    rw [h.2.1, h.2.2, hv] at hw
    exact Bool.noConfusion hw
  · exact h

theorem searchOptimal_expand (g : Grid) (start : Int × Int) (endX endY : Int)
    (s : SearchState) (cur : Int × Int) (c x y : Int) (rest : List Node)
    (ho : SearchOptimal g start (endX, endY) s cur [])
    (hpop : frontierPop s.frontier = some ((c, x, y), rest)) (hv : s.visited x y = false) :
    SearchOptimal g start (endX, endY)
      { frontier := rest, cost := s.cost,
        visited := fun x' y' => if x' = x ∧ y' = y then true else s.visited x' y' }
      (x, y) [0, 1, 2, 3] := by
  obtain ⟨-, hsub, hcov, -⟩ := frontierPop_some _ _ _ hpop
  refine ⟨?_, ?_, ?_, fun n hn => ho.front_lb n (hsub n hn), ho.realised, ho.start_zero⟩
  · intro v m hvv hst
    simp only at hvv ⊢
    split_ifs at hvv with hvx
    · have hv' : v = (x, y) := Prod.ext hvx.1 hvx.2
      rw [hv'] at hst
      rw [hvx.1, hvx.2]
      exact pop_optimal g start endX endY s cur ho c x y rest hpop hv m hst
    · exact ho.vis_opt v m hvv hst
  · intro v i hvv hd
    simp only at hvv ⊢
    split_ifs at hvv with hvx
    · left
      refine ⟨Prod.ext hvx.1 hvx.2, ?_⟩
      fin_cases i <;> simp
    · rcases ho.relaxed v i hvv hd with ⟨-, hi⟩ | h
      · simp at hi
      · exact Or.inr h
  · intro w hw hfin
    simp only at hw hfin ⊢
    split_ifs at hw with hwx
    rcases hcov _ (ho.front_cur w hw hfin) with h | h
    · simp only [Prod.mk.injEq] at h
      exact absurd ⟨h.2.1, h.2.2⟩ hwx
    · exact h

/-- The optimality invariant holds once the start cell has been popped and marked. -/
theorem searchFirst_optimal (g : Grid) (startX startY endX endY : Int) :
    SearchOptimal g (startX, startY) (endX, endY)
      { frontier := [], cost := (searchInit startX startY).cost,
        visited := fun x' y' =>
          if x' = startX ∧ y' = startY then true else (searchInit startX startY).visited x' y' }
      (startX, startY) [0, 1, 2, 3] := by
  refine ⟨?_, ?_, ?_, ?_, ?_, ?_⟩
  · intro v m hv _
    simp only [searchInit] at hv ⊢
    split_ifs at hv with h
    rw [if_pos h]
    exact_mod_cast Nat.zero_le m
  · intro v i hv _
    simp only [searchInit] at hv
    split_ifs at hv with h
    left
    refine ⟨Prod.ext h.1 h.2, ?_⟩
    fin_cases i <;> simp
  · intro w hw hfin
    simp only [searchInit] at hw hfin
    split_ifs at hw with h
    rw [if_neg h] at hfin
    exact absurd hfin (lt_irrefl _)
  · intro n hn
    simp at hn
  · intro w hfin
    simp only [searchInit] at hfin ⊢
    split_ifs at hfin with h
    · refine ⟨0, by simp [h], ?_⟩
      have hw : w = (startX, startY) := Prod.ext h.1 h.2
      rw [hw]
      exact StepsIn.zero
    · exact absurd hfin (lt_irrefl _)
  · simp [searchInit]

theorem searchTrace_optimal (g : Grid) (start : Int × Int) (endX endY : Int)
    (hfit : GridFitsInt g) (fuel : Nat) (s : SearchState) (cur : Int × Int) (t : SearchState)
    (hsound : SearchSound g start s) (hc : SearchComplete g start (endX, endY) s cur [])
    (ho : SearchOptimal g start (endX, endY) s cur [])
    (h : searchTrace g endX endY fuel s = some (true, t)) :
    ∃ n : Nat, t.cost endX endY = (n : Int) ∧ StepsIn g start n (endX, endY) ∧
      ∀ m, StepsIn g start m (endX, endY) → n ≤ m := by
  induction fuel generalizing s cur with
  | zero => simp [searchTrace] at h
  | succ fuel ih =>
    unfold searchTrace at h
    cases hpop : frontierPop s.frontier with
    | none => simp [hpop] at h
    | some r =>
      obtain ⟨⟨c, x, y⟩, rest⟩ := r
      obtain ⟨hm, hsub, -, -⟩ := frontierPop_some _ _ _ hpop
      have hrest : ∀ v, SearchSound g start { frontier := rest, cost := s.cost, visited := v } :=
        fun v => ⟨fun n hn => hsound.reach n (hsub n hn), fun n hn => hsound.inb n (hsub n hn)⟩
      rw [hpop] at h
      simp only at h
      split_ifs at h with h1 h2
      · simp only [Option.some.injEq, Prod.mk.injEq, true_and] at h
        subst h
        simp only
        obtain ⟨rfl, rfl⟩ := h1
        have hbound : (cellCount g s.visited : Int) < INT_MAX :=
          lt_of_le_of_lt (by exact_mod_cast cellCount_le g s.visited) hfit
        have hfin : s.cost x y < INT_MAX := lt_of_le_of_lt (hc.front_cost _ hm) hbound
        obtain ⟨n, hn, hsteps⟩ := ho.realised (x, y) hfin
        refine ⟨n, hn, hsteps, ?_⟩
        intro m hst
        have := pop_optimal g start x y s cur ho c x y rest hpop hc.goal_unvisited m hst
        simp only at hn
        omega
      · exact ih _ cur (hrest _) (searchComplete_skip g start _ s cur c x y rest hc hpop h2)
          (searchOptimal_skip g start _ s cur c x y rest ho hpop h2) h
      · have hv : s.visited x y = false := by simpa using h2
        have hin := hsound.inb _ hm
        have hc1 := searchComplete_expand g start (endX, endY) s cur c x y rest hc hpop hin hv h1
        have ho1 := searchOptimal_expand g start endX endY s cur c x y rest ho hpop hv
        exact ih _ (x, y)
          (foldl_relax_sound g start endX endY x y _ _ (hrest _) (hsound.reach _ hm))
          (foldl_relax_complete g start (endX, endY) endX endY x y hfit _ _ hc1)
          (foldl_relax_optimal g start endX endY x y hfit _ _ hc1 ho1) h

/-- When the search of `PathExists` returns true, the cost it has recorded for the goal is
the length of a shortest path over the edges it explores. -/
theorem searchTrace_init_optimal (g : Grid) (startX startY endX endY : Int)
    (hfit : GridFitsInt g) (hin : IsInBounds g startX startY = true) (fuel : Nat)
    (t : SearchState)
    (h : searchTrace g endX endY fuel (searchInit startX startY) = some (true, t)) :
    ∃ n : Nat, t.cost endX endY = (n : Int) ∧ StepsIn g (startX, startY) n (endX, endY) ∧
      ∀ m, StepsIn g (startX, startY) m (endX, endY) → n ≤ m := by
  cases fuel with
  | zero => simp [searchTrace] at h
  | succ fuel =>
    have hpop : frontierPop (searchInit startX startY).frontier =
        some ((0, startX, startY), []) := by
      simp [searchInit, frontierPop, frontierTop]
    unfold searchTrace at h
    rw [hpop] at h
    simp only at h
    split_ifs at h with h1 h2
    · simp only [Option.some.injEq, Prod.mk.injEq, true_and] at h
      subst h
      obtain ⟨rfl, rfl⟩ := h1
      exact ⟨0, by simp [searchInit], StepsIn.zero, fun m _ => Nat.zero_le m⟩
    · simp [searchInit] at h2
    · have hsound := searchInit_sound g startX startY hin
      have hc1 := searchComplete_expand g (startX, startY) (endX, endY) _ (endX, endY) 0
        startX startY [] (searchInit_complete g startX startY endX endY) hpop hin rfl h1
      have ho1 := searchFirst_optimal g startX startY endX endY
      exact searchTrace_optimal g (startX, startY) endX endY hfit fuel _ (startX, startY) t
        (foldl_relax_sound g (startX, startY) endX endY startX startY _ _
          ⟨fun n hn => by simp at hn, fun n hn => by simp at hn⟩
          (hsound.reach _ (List.mem_singleton_self _)))
        (foldl_relax_complete g (startX, startY) (endX, endY) endX endY startX startY hfit _ _
          hc1)
        (foldl_relax_optimal g (startX, startY) endX endY startX startY hfit _ _ hc1 ho1) h

/-! ## Fewer obstacles, more routes; unit moves and the heuristic -/

theorem step_antitone (g h : Grid) (hrows : h.rows = g.rows) (hcols : h.cols = g.cols)
    (hw : ∀ x y, IsInBounds g x y = true → (h.cell x y).walls = (g.cell x y).walls)
    (hsub : ∀ x y, IsInBounds g x y = true → (g.cell x y).isObstacle = true →
      (h.cell x y).isObstacle = true)
    (a b : Int × Int) (ha : IsInBounds g a.1 a.2 = true) (hstep : Step h a b) :
    Step g a b ∧ IsInBounds g b.1 b.2 = true := by
  have hb : ∀ x y, IsInBounds h x y = IsInBounds g x y := by
    intro x y
    simp only [IsInBounds, hrows, hcols]
  obtain ⟨i, rfl, hin, hfree, hwall⟩ := hstep
  rw [hb] at hin
  refine ⟨⟨i, rfl, hin, ?_, ?_⟩, hin⟩
  · cases hg : (g.cell (neighbor a i).1 (neighbor a i).2).isObstacle with
    | false => rfl
    | true =>
      rw [hsub _ _ hin hg] at hfree
      exact Bool.noConfusion hfree
  · rw [← hw _ _ ha]
    exact hwall

theorem reach_antitone (g h : Grid) (hrows : h.rows = g.rows) (hcols : h.cols = g.cols)
    (hw : ∀ x y, IsInBounds g x y = true → (h.cell x y).walls = (g.cell x y).walls)
    (hsub : ∀ x y, IsInBounds g x y = true → (g.cell x y).isObstacle = true →
      (h.cell x y).isObstacle = true)
    (a b : Int × Int) (ha : IsInBounds g a.1 a.2 = true) (hreach : Reach h a b) :
    Reach g a b ∧ IsInBounds g b.1 b.2 = true := by
  induction hreach with
  | refl => exact ⟨Relation.ReflTransGen.refl, ha⟩
  | tail _ hstep ih =>
    obtain ⟨h1, h2⟩ := step_antitone g h hrows hcols hw hsub _ _ ih.2 hstep
    exact ⟨ih.1.tail h1, h2⟩

theorem heuristic_moves (a b : Int × Int) (n : Nat) (h : MovesIn a n b) (endX endY : Int) :
    Heuristic a.1 a.2 endX endY ≤ (n : Int) + Heuristic b.1 b.2 endX endY := by
  induction h with
  | zero => simp
  | @succ m c i _ ih =>
    have := heuristic_step c i endX endY
    push_cast
    omega

theorem heuristic_self (x y : Int) : Heuristic x y x y = 0 := by
  simp [Heuristic]

theorem movesIn_of_stepsIn (g : Grid) (a b : Int × Int) (n : Nat) (h : StepsIn g a n b) :
    MovesIn a n b := by
  induction h with
  | zero => exact MovesIn.zero
  | succ _ hstep ih =>
    obtain ⟨i, rfl, -⟩ := hstep
    exact MovesIn.succ i ih

/-! ## Obstacle injection: one iteration, case by case -/

/-- The three ways through an iteration of the loop of `AddRandomObstacles`: the sampled
cell is skipped, kept, or reverted. -/
theorem obstacleIter_cases (theme : GameTheme) (rand gen : Nat → Nat) (exitX exitY : Int)
    (s t : ObstState) (h : obstacleIter theme rand gen exitX exitY s = some t) :
    (sampleSkipped s.grid exitX exitY (sampledCell rand s) ∧ t.grid = s.grid ∧
        t.obstacleCount = s.obstacleCount) ∨
      (¬ sampleSkipped s.grid exitX exitY (sampledCell rand s) ∧
        PathExists (tentativeGrid theme rand gen s) 0 0 exitX exitY = some true ∧
        t.grid = tentativeGrid theme rand gen s ∧ t.obstacleCount = s.obstacleCount + 1) ∨
      (¬ sampleSkipped s.grid exitX exitY (sampledCell rand s) ∧
        PathExists (tentativeGrid theme rand gen s) 0 0 exitX exitY = some false ∧
        t.grid = setObstacle (tentativeGrid theme rand gen s) (sampledCell rand s).1
          (sampledCell rand s).2 false ∧
        t.obstacleCount = s.obstacleCount) := by
  unfold obstacleIter at h
  simp only at h
  split_ifs at h with hskip
  · simp only [Option.some.injEq] at h
    subst h
    exact Or.inl ⟨hskip, rfl, rfl⟩
  · split at h
    · rename_i hpe
      simp only [Option.some.injEq] at h
      subst h
      exact Or.inr (Or.inl ⟨hskip, hpe, rfl, rfl⟩)
    · rename_i hpe
      simp only [Option.some.injEq] at h
      subst h
      exact Or.inr (Or.inr ⟨hskip, hpe, rfl, rfl⟩)
    · simp at h

theorem tentativeGrid_fields (theme : GameTheme) (rand gen : Nat → Nat) (s : ObstState)
    (x y : Int) :
    (tentativeGrid theme rand gen s).rows = s.grid.rows ∧
      (tentativeGrid theme rand gen s).cols = s.grid.cols ∧
      ((tentativeGrid theme rand gen s).cell x y).walls = (s.grid.cell x y).walls ∧
      ((tentativeGrid theme rand gen s).cell x y).isObstacle =
        if (x, y) = sampledCell rand s then true else (s.grid.cell x y).isObstacle := by
  unfold tentativeGrid
  obtain ⟨h1, h2, h3, h4⟩ := setSprite_fields theme gen s.genPos
    (setObstacle s.grid (sampledCell rand s).1 (sampledCell rand s).2 true)
    (sampledCell rand s).1 (sampledCell rand s).2 x y
  obtain ⟨k1, k2, k3, k4⟩ := setObstacle_fields s.grid (sampledCell rand s).1
    (sampledCell rand s).2 true x y
  refine ⟨h1.trans k1, h2.trans k2, h3.trans k3, ?_⟩
  rw [h4, k4]
  simp only [Prod.ext_iff]

/-- Every iteration of the loop of `AddRandomObstacles` keeps the counter equal to the
number of flagged cells. -/
theorem obstacleRun_count (theme : GameTheme) (rand gen : Nat → Nat)
    (exitX exitY maxObstacles : Int) (k : Nat) (s t : ObstState)
    (hr : 1 ≤ s.grid.rows) (hc : 1 ≤ s.grid.cols)
    (hcount : (obstacleCells s.grid : Int) = s.obstacleCount)
    (h : obstacleRun theme rand gen exitX exitY maxObstacles k s = some t) :
    (obstacleCells t.grid : Int) = t.obstacleCount := by
  induction k generalizing s with
  | zero =>
    simp only [obstacleRun, Option.some.injEq] at h
    subst h
    exact hcount
  | succ k ih =>
    unfold obstacleRun at h
    split_ifs at h with hlt
    · split at h
      · rename_i s1 hs1
        have hf := (obstacleIter_spec theme rand gen exitX exitY s s1 hs1).1
        have hr1 : 1 ≤ s1.grid.rows := by rw [hf.rows_eq]; exact hr
        have hc1 : 1 ≤ s1.grid.cols := by rw [hf.cols_eq]; exact hc
        rcases obstacleIter_count theme rand gen exitX exitY s s1 hr hc hs1 with
          ⟨h1, h2, -⟩ | ⟨h1, h2, -⟩
        · exact ih s1 hr1 hc1 (by omega) h
        · exact ih s1 hr1 hc1 (by omega) h
      · simp at h
    · simp only [Option.some.injEq] at h
      subst h
      exact hcount

theorem obstacleCells_eq_zero (g : Grid)
    (hclean : ∀ x y, IsInBounds g x y = true → (g.cell x y).isObstacle = false) :
    obstacleCells g = 0 := by
  unfold obstacleCells cellCount
  rw [List.countP_eq_zero]
  intro p hp
  simp only [hclean p.1 p.2 ((mem_allCells _ _).1 hp)]
  exact Bool.noConfusion

/-! ## Maze generation: the cells pushed -/

/-- What an iteration of the loop of `GenerateMaze` does to the `visited` flags: with a
neighbour returned, that cell, in bounds and unvisited so far, is marked; otherwise the
grid stays. -/
theorem generateStep_visited (rand : Nat → Nat) (s : GenState) (cur : Int × Int)
    (rest : List (Int × Int)) (hs : GenInv s) (hstack : s.stack = cur :: rest) :
    (∀ next, (GetUnvisitedNeighbor s.grid rand s.seed cur).1 = some next →
        IsInBounds s.grid next.1 next.2 = true ∧ (s.grid.cell next.1 next.2).visited = false ∧
          ∀ x y, ((generateStep rand s cur rest).grid.cell x y).visited =
            if (x, y) = next then true else (s.grid.cell x y).visited) ∧
      ((GetUnvisitedNeighbor s.grid rand s.seed cur).1 = none →
        (generateStep rand s cur rest).grid = s.grid) := by
  have hcs := hs.stack_ok cur (by rw [hstack]; exact List.mem_cons_self _ _)
  have hcc := hs.coords _ _ hcs.1
  unfold generateStep
  split
  · rename_i next k heq
    obtain ⟨i, rfl, hin, hv⟩ := GetUnvisitedNeighbor_some _ _ _ _ _ _ hcc heq
    have hcarved := carved_step s.grid cur i hcc (hs.coords _ _ hin)
    rw [heq]
    refine ⟨?_, fun h => by simp at h⟩
    intro next hnext
    simp only [Option.some.injEq] at hnext
    subst hnext
    exact ⟨hin, hv, hcarved.visited_eq⟩
  · rename_i k heq
    rw [heq]
    exact ⟨fun next h => by simp at h, fun _ => rfl⟩

/-- The cells pushed so far are the visited cells, each of them once; the loop of
`GenerateMaze` keeps it so. -/
theorem generatePushes_inv (rand : Nat → Nat) (k : Nat) (s : GenState) (hs : GenInv s)
    (l : List (Int × Int)) (hnd : l.Nodup)
    (hmem : ∀ p : Int × Int, p ∈ l ↔
      IsInBounds s.grid p.1 p.2 = true ∧ (s.grid.cell p.1 p.2).visited = true) :
    (l ++ generatePushes rand k s).Nodup ∧
      ∀ p : Int × Int, p ∈ l ++ generatePushes rand k s ↔
        IsInBounds (generateRun rand k s).grid p.1 p.2 = true ∧
          ((generateRun rand k s).grid.cell p.1 p.2).visited = true := by
  induction k generalizing s l with
  | zero =>
    simp only [generatePushes, generateRun, List.append_nil]
    exact ⟨hnd, hmem⟩
  | succ k ih =>
    cases hstack : s.stack with
    | nil =>
      simp only [generatePushes, generateRun, hstack, List.append_nil]
      exact ⟨hnd, hmem⟩
    | cons cur rest =>
      obtain ⟨hsome, hnone⟩ := generateStep_visited rand s cur rest hs hstack
      have hinv := hs.step_inv rand s cur rest hstack
      have hdims := generateStep_dims rand s cur rest hs hstack
      have hb : ∀ x y,
          IsInBounds (generateStep rand s cur rest).grid x y = IsInBounds s.grid x y := by
        intro x y
        simp only [IsInBounds, hdims.1, hdims.2]
      simp only [generatePushes, generateRun, hstack]
      cases hget : (GetUnvisitedNeighbor s.grid rand s.seed cur).1 with
      | none =>
        simp only
        apply ih _ hinv l hnd
        intro p
        rw [hnone hget]
        exact hmem p
      | some next =>
        simp only
        obtain ⟨hin, hv, hvis⟩ := hsome next hget
        have hnot : next ∉ l := by
          intro hl
          have := ((hmem next).1 hl).2
          rw [hv] at this
          exact Bool.noConfusion this
        have key := ih _ hinv (l ++ [next])
          (List.Nodup.append hnd (List.nodup_singleton next)
            (by
              intro a ha hb'
              rw [List.mem_singleton] at hb'
              subst hb'
              exact hnot ha))
          (by
            intro p
            rw [List.mem_append, List.mem_singleton, hb, hvis, hmem p]
            constructor
            · rintro (⟨h1, h2⟩ | rfl)
              · exact ⟨h1, by rw [h2]; simp⟩
              · exact ⟨hin, by simp⟩
            · rintro ⟨h1, h2⟩
              by_cases hp : p = next
              · exact Or.inr hp
              · left
                refine ⟨h1, ?_⟩
                rw [if_neg] at h2
                · exact h2
                · intro hxy
                  exact hp (Prod.ext (congrArg Prod.fst hxy) (congrArg Prod.snd hxy)))
        rw [List.append_assoc, List.singleton_append] at key
        exact key

/-- The cells `GenerateMaze` has marked visited and pushed when it returns: each cell of
the grid, once. -/
theorem GenerateMaze_pushes (g : Grid) (rand : Nat → Nat) (seed : Nat) (hr : 1 ≤ g.rows)
    (hc : 1 ≤ g.cols) :
    ((0, 0) :: generatePushes rand (generateFuel g) (generateInit g seed)).Nodup ∧
      ∀ p : Int × Int,
        p ∈ (0, 0) :: generatePushes rand (generateFuel g) (generateInit g seed) ↔
          IsInBounds g p.1 p.2 = true := by
  obtain ⟨t, ht, hinv, hstack, hrows, hcols⟩ := GenerateMaze_spec g rand seed hr hc
  obtain ⟨hrun, -⟩ := generateLoop_eq_run rand (generateFuel g) _ t ht
  have h0 := generateInit_inv g seed hr hc
  have hm := markVisited_fields (InitializeGrid g) (0, 0)
  have hb : ∀ x y, IsInBounds t.grid x y = IsInBounds g x y := by
    intro x y
    simp only [IsInBounds, hrows, hcols]
  have key := generatePushes_inv rand (generateFuel g) (generateInit g seed) h0 [(0, 0)]
    (List.nodup_singleton _)
    (by
      intro p
      rw [List.mem_singleton]
      constructor
      · rintro rfl
        exact ⟨h0.origin_in, h0.origin_visited⟩
      · rintro ⟨hin, hv⟩
        have hin' : IsInBounds g p.1 p.2 = true := hin
        simp only [generateInit] at hv
        rw [(hm p.1 p.2).2.2.2.2] at hv
        by_contra hne
        rw [if_neg hne] at hv
        simp [InitializeGrid, hin', Cell.new] at hv)
  rw [List.singleton_append, ← hrun] at key
  refine ⟨key.1, fun p => ?_⟩
  rw [key.2 p, hb]
  constructor
  · exact fun h => h.1
  · intro h
    exact ⟨h, hinv.all_visited hstack p.1 p.2 (by rw [hb]; exact h)⟩

/-! ## The path oracle: expansions and table indices -/

theorem searchExpansions_fresh (g : Grid) (endX endY : Int) (fuel : Nat) (s : SearchState) :
    (∀ q ∈ searchExpansions g endX endY fuel s, s.visited q.1 q.2 = false) ∧
      (searchExpansions g endX endY fuel s).Nodup := by
  induction fuel generalizing s with
  | zero => simp [searchExpansions]
  | succ fuel ih =>
    unfold searchExpansions
    cases hpop : frontierPop s.frontier with
    | none => simp
    | some r =>
      obtain ⟨⟨c, x, y⟩, rest⟩ := r
      simp only
      split_ifs with h1 h2
      · simp
      · exact ih { s with frontier := rest }
      · obtain ⟨hfresh, hnd⟩ := ih (List.foldl (relax g endX endY x y)
          { frontier := rest, cost := s.cost,
            visited := fun x' y' => if x' = x ∧ y' = y then true else s.visited x' y' }
          [0, 1, 2, 3])
        rw [foldl_relax_visited] at hfresh
        simp only at hfresh
        constructor
        · intro q hq
          rcases List.mem_cons.1 hq with rfl | hq
          · simpa using h2
          · have := hfresh q hq
            split_ifs at this
            exact this
        · refine List.nodup_cons.2 ⟨?_, hnd⟩
          intro hmem
          have := hfresh (x, y) hmem
          simp at this

/-- The neighbour loop of `PathExists` pushes a cell only together with a strictly
smaller entry in the cost table. -/
theorem relax_push (g : Grid) (endX endY x y : Int) (s : SearchState) (i : Fin 4) :
    relax g endX endY x y s i = s ∨
      ((relax g endX endY x y s i).frontier =
          ((relax g endX endY x y s i).cost (x + (directions i).1) (y + (directions i).2) +
            Heuristic (x + (directions i).1) (y + (directions i).2) endX endY,
            x + (directions i).1, y + (directions i).2) :: s.frontier ∧
        (relax g endX endY x y s i).cost (x + (directions i).1) (y + (directions i).2) <
          s.cost (x + (directions i).1) (y + (directions i).2)) := by
  unfold relax
  simp only
  split_ifs with h1 h2
  · right
    simp only [and_self, if_true]
    exact ⟨trivial, h2⟩
  · exact Or.inl rfl
  · exact Or.inl rfl

theorem relaxReads_mem (g : Grid) (x y : Int) (s : SearchState) (i : Fin 4) (q : Int × Int)
    (hq : q ∈ relaxReads g x y s i) : q = (x, y) ∨ IsInBounds g q.1 q.2 = true := by
  unfold relaxReads at hq
  simp only at hq
  split_ifs at hq with h1 h2 h3 h4 <;>
    simp only [List.mem_cons, List.mem_singleton, List.not_mem_nil, or_false] at hq
  all_goals
    first
    | exact absurd hq id
    | (rcases hq with rfl | rfl | rfl | rfl | rfl
       all_goals first | exact Or.inl rfl | exact Or.inr h1)

theorem relaxAllReads_mem (g : Grid) (endX endY x y : Int) (ds : List (Fin 4)) (s : SearchState)
    (q : Int × Int) (hq : q ∈ relaxAllReads g endX endY x y s ds) :
    q = (x, y) ∨ IsInBounds g q.1 q.2 = true := by
  induction ds generalizing s with
  | nil => simp [relaxAllReads] at hq
  | cons i ds ih =>
    simp only [relaxAllReads, List.mem_append] at hq
    rcases hq with hq | hq
    · exact relaxReads_mem g x y s i q hq
    · exact ih _ hq

theorem searchReads_inBounds (g : Grid) (start : Int × Int) (endX endY : Int) (fuel : Nat)
    (s : SearchState) (hs : SearchSound g start s) :
    ∀ q ∈ searchReads g endX endY fuel s, IsInBounds g q.1 q.2 = true := by
  induction fuel generalizing s with
  | zero => simp [searchReads]
  | succ fuel ih =>
    unfold searchReads
    cases hpop : frontierPop s.frontier with
    | none => simp
    | some r =>
      obtain ⟨⟨c, x, y⟩, rest⟩ := r
      obtain ⟨hm, hsub, -, -⟩ := frontierPop_some _ _ _ hpop
      have hxy : IsInBounds g x y = true := hs.inb _ hm
      have hrest : ∀ v, SearchSound g start { frontier := rest, cost := s.cost, visited := v } :=
        fun v => ⟨fun n hn => hs.reach n (hsub n hn), fun n hn => hs.inb n (hsub n hn)⟩
      simp only
      split_ifs with h1 h2
      · simp
      · intro q hq
        rcases List.mem_cons.1 hq with rfl | hq
        · exact hxy
        · exact ih _ (hrest s.visited) q hq
      · intro q hq
        rcases List.mem_cons.1 hq with rfl | hq
        · exact hxy
        rcases List.mem_cons.1 hq with rfl | hq
        · exact hxy
        rcases List.mem_append.1 hq with hq | hq
        · rcases relaxAllReads_mem g endX endY x y _ _ q hq with rfl | h
          · exact hxy
          · exact h
        · exact ih _ (foldl_relax_sound g start endX endY x y _ _ (hrest _) (hs.reach _ hm)) q hq

theorem reach_inBounds (g : Grid) (a b : Int × Int) (ha : IsInBounds g a.1 a.2 = true)
    (h : Reach g a b) : IsInBounds g b.1 b.2 = true := by
  cases h with
  | refl => exact ha
  | tail _ hstep =>
    obtain ⟨i, rfl, hin, -⟩ := hstep
    exact hin

/-! ## Obstacles and the start-to-exit path -/

theorem walk_inBounds (m : Grid) {a b : Int × Int} (w : (passageGraph m).Walk a b)
    (ha : IsInBounds m a.1 a.2 = true) : ∀ v ∈ w.support, IsInBounds m v.1 v.2 = true := by
  induction w with
  | nil =>
    intro v hv
    rw [SimpleGraph.Walk.support_nil, List.mem_singleton] at hv
    rw [hv]
    exact ha
  | cons hadj w ih =>
    intro v hv
    rw [SimpleGraph.Walk.support_cons] at hv
    rcases List.mem_cons.1 hv with rfl | hv
    · exact ha
    · obtain ⟨i, -, -, hb, -⟩ := hadj
      exact ih hb v hv

/-- A walk of the passage graph whose cells after the first are free of obstacles is a
route of the path oracle. -/
theorem reach_of_walk (m h : Grid) (hrows : h.rows = m.rows) (hcols : h.cols = m.cols)
    (hw : ∀ x y, (h.cell x y).walls = (m.cell x y).walls) {a b : Int × Int}
    (w : (passageGraph m).Walk a b)
    (hfree : ∀ v ∈ w.support.tail, (h.cell v.1 v.2).isObstacle = false) : Reach h a b := by
  induction w with
  | nil => exact Relation.ReflTransGen.refl
  | @cons u v z hadj w ih =>
    rw [SimpleGraph.Walk.support_cons, List.tail_cons] at hfree
    obtain ⟨i, hv, -, hb, hwa, -⟩ := hadj
    have hstep : Step h u v := by
      refine ⟨i, hv, ?_, ?_, ?_⟩
      · rw [← hv]
        simpa only [IsInBounds, hrows, hcols] using hb
      · rw [← hv]
        exact hfree v (SimpleGraph.Walk.start_mem_support w)
      · rw [hw]
        exact hwa
    exact Relation.ReflTransGen.head hstep
      (ih (fun x hx => hfree x (List.mem_of_mem_tail hx)))

/-- A route of the path oracle is a walk of the passage graph, and each of its cells
after the first is free of obstacles. -/
theorem walk_of_reach (m h : Grid) (hsym : WallsSymmetric m) (hrows : h.rows = m.rows)
    (hcols : h.cols = m.cols) (hw : ∀ x y, (h.cell x y).walls = (m.cell x y).walls)
    (a b : Int × Int) (ha : IsInBounds m a.1 a.2 = true) (hr : Reach h a b) :
    ∃ w : (passageGraph m).Walk a b,
      ∀ v ∈ w.support, v = a ∨ (h.cell v.1 v.2).isObstacle = false := by
  have hb : ∀ x y, IsInBounds h x y = IsInBounds m x y := by
    intro x y
    simp only [IsInBounds, hrows, hcols]
  induction hr with
  | refl =>
    refine ⟨SimpleGraph.Walk.nil, fun v hv => ?_⟩
    rw [SimpleGraph.Walk.support_nil, List.mem_singleton] at hv
    exact Or.inl hv
  | @tail c d hcd hstep ih =>
    obtain ⟨w, hfree⟩ := ih
    have hc : IsInBounds m c.1 c.2 = true := by
      rw [← hb]
      exact reach_inBounds h a c (by rw [hb]; exact ha) hcd
    obtain ⟨i, rfl, hin, hob, hwall⟩ := hstep
    rw [hb] at hin
    rw [hw] at hwall
    have hadj : (passageGraph m).Adj c (neighbor c i) :=
      ⟨i, rfl, hc, hin, hwall, by rw [← hsym c i hc hin]; exact hwall⟩
    refine ⟨w.concat hadj, fun v hv => ?_⟩
    rw [SimpleGraph.Walk.support_concat, List.concat_eq_append, List.mem_append,
      List.mem_singleton] at hv
    rcases hv with hv | rfl
    · exact hfree v hv
    · exact Or.inr hob

/-- On a maze whose start-to-exit path `p` is the only one and carries no obstacle, the
oracle still finds the exit after the cell `c` has been flagged exactly when `c` is not on
`p`. -/
theorem pathExists_flagged_iff (m h k : Grid) (hsym : WallsSymmetric m) (hfit : GridFitsInt m)
    (h00 : IsInBounds m 0 0 = true) (exitX exitY : Int)
    (p : (passageGraph m).Walk (0, 0) (exitX, exitY))
    (huniq : ∀ q : (passageGraph m).Walk (0, 0) (exitX, exitY), q.IsPath → q = p)
    (hoff : OffPath m h p.support) (c : Int × Int) (hc : c ≠ (0, 0))
    (hrows : k.rows = h.rows) (hcols : k.cols = h.cols)
    (hwalls : ∀ x y, (k.cell x y).walls = (h.cell x y).walls)
    (hobst : ∀ x y, (k.cell x y).isObstacle =
      if (x, y) = c then true else (h.cell x y).isObstacle) :
    PathExists k 0 0 exitX exitY = some true ↔ c ∉ p.support := by
  have hkr : k.rows = m.rows := hrows.trans hoff.rows_eq
  have hkc : k.cols = m.cols := hcols.trans hoff.cols_eq
  have hkw : ∀ x y, (k.cell x y).walls = (m.cell x y).walls :=
    fun x y => (hwalls x y).trans (hoff.walls_eq x y)
  have hk00 : IsInBounds k 0 0 = true := by
    simpa only [IsInBounds, hkr, hkc] using h00
  constructor
  · intro hpe hmem
    have hreach := PathExists_sound k 0 0 exitX exitY hk00 hpe
    obtain ⟨w, hfree⟩ := walk_of_reach m k hsym hkr hkc hkw (0, 0) (exitX, exitY) h00 hreach
    have hpath := huniq (w.toPath : (passageGraph m).Walk (0, 0) (exitX, exitY)) w.toPath.2
    rw [← hpath] at hmem
    rcases hfree c (SimpleGraph.Walk.support_toPath_subset w hmem) with h1 | h1
    · exact hc h1
    · rw [hobst, if_pos rfl] at h1
      exact Bool.noConfusion h1
  · intro hmem
    apply PathExists_complete k 0 0 exitX exitY hk00
    · unfold GridFitsInt
      rw [hkr, hkc]
      exact hfit
    · apply reach_of_walk m k hkr hkc hkw p
      intro v hv
      have hv' := List.mem_of_mem_tail hv
      rw [hobst, if_neg]
      · exact hoff.free v hv'
      · intro hvc
        apply hmem
        rw [← hvc]
        exact hv'

/-- An iteration of the loop of `AddRandomObstacles` keeps the start-to-exit path free,
and keeps its candidate exactly when the candidate is not on that path. -/
theorem obstacleIter_offPath (m : Grid) (hsym : WallsSymmetric m) (hfit : GridFitsInt m)
    (h00 : IsInBounds m 0 0 = true) (theme : GameTheme) (rand gen : Nat → Nat)
    (exitX exitY : Int) (p : (passageGraph m).Walk (0, 0) (exitX, exitY))
    (huniq : ∀ q : (passageGraph m).Walk (0, 0) (exitX, exitY), q.IsPath → q = p)
    (s t : ObstState) (hoff : OffPath m s.grid p.support)
    (h : obstacleIter theme rand gen exitX exitY s = some t) :
    OffPath m t.grid p.support ∧
      (¬ sampleSkipped s.grid exitX exitY (sampledCell rand s) →
        ((t.grid.cell (sampledCell rand s).1 (sampledCell rand s).2).isObstacle = true ↔
          sampledCell rand s ∉ p.support)) := by
  have hf := (obstacleIter_spec theme rand gen exitX exitY s t h).1
  have hkey : ¬ sampleSkipped s.grid exitX exitY (sampledCell rand s) →
      (PathExists (tentativeGrid theme rand gen s) 0 0 exitX exitY = some true ↔
        sampledCell rand s ∉ p.support) := by
    intro hns
    apply pathExists_flagged_iff m s.grid _ hsym hfit h00 exitX exitY p huniq hoff
    · intro hc0
      apply hns
      left
      rw [hc0]
      exact ⟨rfl, rfl⟩
    · exact (tentativeGrid_fields theme rand gen s 0 0).1
    · exact (tentativeGrid_fields theme rand gen s 0 0).2.1
    · exact fun x y => (tentativeGrid_fields theme rand gen s x y).2.2.1
    · exact fun x y => (tentativeGrid_fields theme rand gen s x y).2.2.2
  rcases obstacleIter_cases theme rand gen exitX exitY s t h with
    ⟨hsk, hg, -⟩ | ⟨hns, hpe, hg, -⟩ | ⟨hns, hpe, hg, -⟩
  · refine ⟨?_, fun hns => absurd hsk hns⟩
    rw [hg]
    exact hoff
  · have hnot := (hkey hns).1 hpe
    refine ⟨⟨hf.rows_eq.trans hoff.rows_eq, hf.cols_eq.trans hoff.cols_eq,
      fun x y => (hf.walls_eq x y).trans (hoff.walls_eq x y), ?_⟩, fun _ => ?_⟩
    · intro v hv
      rw [hg, (tentativeGrid_fields theme rand gen s v.1 v.2).2.2.2, if_neg]
      · exact hoff.free v hv
      · intro hvc
        apply hnot
        rw [← hvc]
        exact hv
    · constructor
      · exact fun _ => hnot
      · intro _
        rw [hg, (tentativeGrid_fields theme rand gen s _ _).2.2.2, if_pos rfl]
  · have hflag : (t.grid.cell (sampledCell rand s).1 (sampledCell rand s).2).isObstacle =
        false := by
      rw [hg, (setObstacle_fields _ _ _ false _ _).2.2.2, if_pos ⟨rfl, rfl⟩]
    have hsame : SameMaze t.grid s.grid := by
      rw [hg]
      apply revert_sameMaze
      unfold sampleSkipped at hns
      push_neg at hns
      exact Bool.eq_false_iff.2 hns.2.2
    refine ⟨⟨hf.rows_eq.trans hoff.rows_eq, hf.cols_eq.trans hoff.cols_eq,
      fun x y => (hf.walls_eq x y).trans (hoff.walls_eq x y), ?_⟩, fun _ => ?_⟩
    · intro v hv
      rw [(hsame.2.2 v.1 v.2).1]
      exact hoff.free v hv
    · constructor
      · intro htrue
        rw [hflag] at htrue
        exact Bool.noConfusion htrue
      · intro hnot
        have := (hkey hns).2 hnot
        rw [hpe] at this
        simp at this

theorem obstacleRun_offPath (m : Grid) (hsym : WallsSymmetric m) (hfit : GridFitsInt m)
    (h00 : IsInBounds m 0 0 = true) (theme : GameTheme) (rand gen : Nat → Nat)
    (exitX exitY maxObstacles : Int) (p : (passageGraph m).Walk (0, 0) (exitX, exitY))
    (huniq : ∀ q : (passageGraph m).Walk (0, 0) (exitX, exitY), q.IsPath → q = p)
    (k : Nat) (s t : ObstState) (hoff : OffPath m s.grid p.support)
    (h : obstacleRun theme rand gen exitX exitY maxObstacles k s = some t) :
    OffPath m t.grid p.support := by
  induction k generalizing s with
  | zero =>
    simp only [obstacleRun, Option.some.injEq] at h
    subst h
    exact hoff
  | succ k ih =>
    unfold obstacleRun at h
    split_ifs at h with hlt
    · split at h
      · rename_i s1 hs1
        exact ih s1 (obstacleIter_offPath m hsym hfit h00 theme rand gen exitX exitY p huniq
          s s1 hoff hs1).1 h
      · simp at h
    · simp only [Option.some.injEq] at h
      subst h
      exact hoff

theorem obstacleLoop_run (theme : GameTheme) (rand gen : Nat → Nat)
    (exitX exitY maxObstacles : Int) (fuel : Nat) (s t : ObstState)
    (h : obstacleLoop theme rand gen exitX exitY maxObstacles fuel s = some t) :
    obstacleRun theme rand gen exitX exitY maxObstacles fuel s = some t := by
  induction fuel generalizing s with
  | zero => simp [obstacleLoop] at h
  | succ fuel ih =>
    unfold obstacleLoop at h
    unfold obstacleRun
    split_ifs at h with hlt
    · rw [if_pos hlt]
      split at h
      · rename_i s1 hs1
        exact ih s1 h
      · simp at h
    · rw [if_neg hlt]
      exact h

/-- The flagged cells and the cells of a path that carries no obstacle fit into the grid
side by side. -/
theorem offPath_count (m h : Grid) (l : List (Int × Int)) (hoff : OffPath m h l)
    (hnd : l.Nodup) (hin : ∀ v ∈ l, IsInBounds m v.1 v.2 = true) :
    obstacleCells h + l.length ≤ m.rows * m.cols := by
  have hcells : allCells h = allCells m := by
    unfold allCells
    rw [hoff.rows_eq, hoff.cols_eq]
  unfold obstacleCells cellCount
  rw [List.countP_eq_length_filter, hcells, ← List.length_append, ← length_allCells m]
  apply List.Subperm.length_le
  apply List.Nodup.subperm
  · refine List.Nodup.append ((nodup_allCells m).filter _) hnd ?_
    intro v hv1 hv2
    have : (h.cell v.1 v.2).isObstacle = true := (List.mem_filter.1 hv1).2
    rw [hoff.free v hv2] at this
    exact Bool.noConfusion this
  · intro v hv
    rcases List.mem_append.1 hv with hv | hv
    · exact (List.mem_filter.1 hv).1
    · exact (mem_allCells m v).2 (hin v hv)

/-! ## Obstacle injection: running out of candidates; themes and sprite draws -/

/-- Once the loop of `AddRandomObstacles` has reached, below its target, a grid on which
no cell can be kept, the function does not return, whatever the number of iterations. -/
theorem obstacleLoop_stuck_later (theme : GameTheme) (rand gen : Nat → Nat)
    (exitX exitY maxObstacles : Int) (k : Nat) (s0 s : ObstState)
    (hr : 1 ≤ s0.grid.rows) (hc : 1 ≤ s0.grid.cols)
    (hrun : obstacleRun theme rand gen exitX exitY maxObstacles k s0 = some s)
    (hlt : s.obstacleCount < maxObstacles) (hstuck : NoCandidate s.grid exitX exitY)
    (fuel : Nat) : obstacleLoop theme rand gen exitX exitY maxObstacles fuel s0 = none := by
  induction k generalizing s0 fuel with
  | zero =>
    simp only [obstacleRun, Option.some.injEq] at hrun
    subst hrun
    exact obstacleLoop_stuck theme rand gen exitX exitY maxObstacles fuel s0 hr hc hlt hstuck
  | succ k ih =>
    unfold obstacleRun at hrun
    split_ifs at hrun with hlt0
    · cases hs1 : obstacleIter theme rand gen exitX exitY s0 with
      | none => simp [hs1] at hrun
      | some s1 =>
        rw [hs1] at hrun
        simp only at hrun
        have hf := (obstacleIter_spec theme rand gen exitX exitY s0 s1 hs1).1
        cases fuel with
        | zero => rfl
        | succ fuel =>
          unfold obstacleLoop
          rw [if_pos hlt0, hs1]
          exact ih s1 (by rw [hf.rows_eq]; exact hr) (by rw [hf.cols_eq]; exact hc) hrun fuel
    · simp only [Option.some.injEq] at hrun
      subst hrun
      exact absurd hlt hlt0

theorem obstacleIter_seed (theme : GameTheme) (rand gen : Nat → Nat) (exitX exitY : Int)
    (s t : ObstState) (h : obstacleIter theme rand gen exitX exitY s = some t) :
    t.seed = s.seed + 2 := by
  unfold obstacleIter at h
  simp only at h
  split_ifs at h with hskip
  · simp only [Option.some.injEq] at h
    subst h
    rfl
  · split at h
    · simp only [Option.some.injEq] at h
      subst h
      rfl
    · simp only [Option.some.injEq] at h
      subst h
      rfl
    · simp at h

/-- An iteration of the loop of `AddRandomObstacles` does the same to the walls, the
obstacle flags, the counter and the position in the `std::rand()` stream, whatever the
theme, the draws of its engine and the cosmetic fields of the grid. -/
theorem obstacleIter_congr (theme1 theme2 : GameTheme) (rand gen1 gen2 : Nat → Nat)
    (exitX exitY : Int) (s1 s2 t1 t2 : ObstState) (hsame : SameMaze s1.grid s2.grid)
    (hcount : s1.obstacleCount = s2.obstacleCount) (hseed : s1.seed = s2.seed)
    (h1 : obstacleIter theme1 rand gen1 exitX exitY s1 = some t1)
    (h2 : obstacleIter theme2 rand gen2 exitX exitY s2 = some t2) :
    SameMaze t1.grid t2.grid ∧ t1.obstacleCount = t2.obstacleCount ∧ t1.seed = t2.seed := by
  have hseed' : t1.seed = t2.seed := by
    rw [obstacleIter_seed _ _ _ _ _ _ _ h1, obstacleIter_seed _ _ _ _ _ _ _ h2, hseed]
  have hcell : sampledCell rand s1 = sampledCell rand s2 := by
    unfold sampledCell
    rw [hseed, hsame.1, hsame.2.1]
  have hskip : sampleSkipped s1.grid exitX exitY (sampledCell rand s1) ↔
      sampleSkipped s2.grid exitX exitY (sampledCell rand s2) := by
    unfold sampleSkipped
    rw [hcell, (hsame.2.2 _ _).1]
  have htent : SameMaze (tentativeGrid theme1 rand gen1 s1) (tentativeGrid theme2 rand gen2 s2) := by
    refine ⟨?_, ?_, fun x y => ⟨?_, ?_⟩⟩
    · rw [(tentativeGrid_fields theme1 rand gen1 s1 0 0).1,
        (tentativeGrid_fields theme2 rand gen2 s2 0 0).1, hsame.1]
    · rw [(tentativeGrid_fields theme1 rand gen1 s1 0 0).2.1,
        (tentativeGrid_fields theme2 rand gen2 s2 0 0).2.1, hsame.2.1]
    · rw [(tentativeGrid_fields theme1 rand gen1 s1 x y).2.2.2,
        (tentativeGrid_fields theme2 rand gen2 s2 x y).2.2.2, hcell, (hsame.2.2 x y).1]
    · rw [(tentativeGrid_fields theme1 rand gen1 s1 x y).2.2.1,
        (tentativeGrid_fields theme2 rand gen2 s2 x y).2.2.1, (hsame.2.2 x y).2]
  have hpe := PathExists_congr htent 0 0 exitX exitY
  rcases obstacleIter_cases theme1 rand gen1 exitX exitY s1 t1 h1 with
    ⟨hsk1, hg1, hc1⟩ | ⟨hns1, hpe1, hg1, hc1⟩ | ⟨hns1, hpe1, hg1, hc1⟩ <;>
  rcases obstacleIter_cases theme2 rand gen2 exitX exitY s2 t2 h2 with
    ⟨hsk2, hg2, hc2⟩ | ⟨hns2, hpe2, hg2, hc2⟩ | ⟨hns2, hpe2, hg2, hc2⟩
  · rw [hg1, hg2, hc1, hc2]
    exact ⟨hsame, hcount, hseed'⟩
  · exact absurd (hskip.1 hsk1) hns2
  · exact absurd (hskip.1 hsk1) hns2
  · exact absurd (hskip.2 hsk2) hns1
  · rw [hg1, hg2, hc1, hc2, hcount]
    exact ⟨htent, rfl, hseed'⟩
  · rw [hpe, hpe2] at hpe1
    simp at hpe1
  · exact absurd (hskip.2 hsk2) hns1
  · rw [hpe, hpe2] at hpe1
    simp at hpe1
  · refine ⟨?_, by rw [hc1, hc2, hcount], hseed'⟩
    have hfree : ∀ s : ObstState, ¬ sampleSkipped s.grid exitX exitY (sampledCell rand s) →
        (s.grid.cell (sampledCell rand s).1 (sampledCell rand s).2).isObstacle = false := by
      intro s hns
      unfold sampleSkipped at hns
      push_neg at hns
      exact Bool.eq_false_iff.2 hns.2.2
    have r1 : SameMaze t1.grid s1.grid := by
      rw [hg1]
      exact revert_sameMaze theme1 gen1 s1.genPos s1.grid _ _ (hfree s1 hns1)
    have r2 : SameMaze t2.grid s2.grid := by
      rw [hg2]
      exact revert_sameMaze theme2 gen2 s2.genPos s2.grid _ _ (hfree s2 hns2)
    exact (r1.same_trans hsame).same_trans r2.same_symm

/-- Two runs of the loop of `AddRandomObstacles` that read the same `std::rand()` draws
end with the same walls, obstacle flags and counter, whatever the themes, the draws of
their engines and the numbers of iterations they were allowed. -/
theorem obstacleLoop_congr (theme1 theme2 : GameTheme) (rand gen1 gen2 : Nat → Nat)
    (exitX exitY maxObstacles : Int) (fuel1 fuel2 : Nat) (s1 s2 t1 t2 : ObstState)
    (hsame : SameMaze s1.grid s2.grid) (hcount : s1.obstacleCount = s2.obstacleCount)
    (hseed : s1.seed = s2.seed)
    (h1 : obstacleLoop theme1 rand gen1 exitX exitY maxObstacles fuel1 s1 = some t1)
    (h2 : obstacleLoop theme2 rand gen2 exitX exitY maxObstacles fuel2 s2 = some t2) :
    SameMaze t1.grid t2.grid ∧ t1.obstacleCount = t2.obstacleCount ∧ t1.seed = t2.seed := by
  induction fuel1 generalizing fuel2 s1 s2 with
  | zero => simp [obstacleLoop] at h1
  | succ fuel1 ih =>
    cases fuel2 with
    | zero => simp [obstacleLoop] at h2
    | succ fuel2 =>
      unfold obstacleLoop at h1 h2
      rw [← hcount] at h2
      split_ifs at h1 h2 with hlt
      · cases hi1 : obstacleIter theme1 rand gen1 exitX exitY s1 with
        | none => simp [hi1] at h1
        | some u1 =>
          cases hi2 : obstacleIter theme2 rand gen2 exitX exitY s2 with
          | none => simp [hi2] at h2
          | some u2 =>
            rw [hi1] at h1
            rw [hi2] at h2
            obtain ⟨k1, k2, k3⟩ := obstacleIter_congr theme1 theme2 rand gen1 gen2 exitX exitY
              s1 s2 u1 u2 hsame hcount hseed hi1 hi2
            exact ih fuel2 u1 u2 k1 k2 k3 h1 h2
      · simp only [Option.some.injEq] at h1 h2
        subst h1
        subst h2
        exact ⟨hsame, hcount, hseed⟩

/-- Two finished builds on grids of the same size that read the same draws of
`std::rand()` and of the exit engine have the same walls, obstacle flags and exit. -/
theorem ResetGame_congr (old1 old2 : Grid) (theme1 theme2 : GameTheme) (scaled : Int)
    (rand genExit genObst1 genObst2 : Nat → Nat)
    (seed fuelExit1 fuelObst1 fuelExit2 fuelObst2 : Nat) (b1 b2 : Built)
    (hrows : old1.rows = old2.rows) (hcols : old1.cols = old2.cols)
    (h1 : ResetGame old1 theme1 scaled rand genExit genObst1 seed fuelExit1 fuelObst1 = some b1)
    (h2 : ResetGame old2 theme2 scaled rand genExit genObst2 seed fuelExit2 fuelObst2 = some b2) :
    SameMaze b1.grid b2.grid ∧ b1.exitX = b2.exitX ∧ b1.exitY = b2.exitY ∧ b1.seed = b2.seed := by
  obtain ⟨s1, t1, hg1, he1, ho1, hb1, hs1⟩ := ResetGame_stages _ _ _ _ _ _ _ _ _ _ h1
  obtain ⟨s2, t2, hg2, he2, ho2, hb2, hs2⟩ := ResetGame_stages _ _ _ _ _ _ _ _ _ _ h2
  rw [← hrows, ← hcols, hg1] at hg2
  simp only [Option.some.injEq] at hg2
  subst hg2
  have he := placeExitLoop_fuel s1.grid genExit fuelExit1 fuelExit2 0 _ _ he1 he2
  simp only [Prod.mk.injEq] at he
  rw [← he.1, ← he.2] at ho2
  obtain ⟨k1, -, k3⟩ := obstacleLoop_congr theme1 theme2 rand genObst1 genObst2 b1.exitX
    b1.exitY (max 1 scaled) fuelObst1 fuelObst2 _ _ t1 t2 (SameMaze.same_refl _) rfl rfl ho1 ho2
  rw [hb1, hb2, hs1, hs2]
  exact ⟨k1, he.1, he.2, k3⟩

/-! ## The contracts -/

/-- Claim C1: for every grid size `R, C ≥ 1`, every obstacle density and all random draws
for which the build pipeline of `ResetGame` completes, `PathExists(0, 0, exitX, exitY)`
is true on the finished grid, and the grid contains a path from the start cell to the
exit cell that stays on non-obstacle cells of the grid and crosses no wall. -/
theorem ResetGame_exit_reachable (old : Grid) (theme : GameTheme) (scaled : Int)
    (rand genExit genObst : Nat → Nat) (seed fuelExit fuelObst : Nat) (b : Built)
    (hr : 1 ≤ old.rows) (hc : 1 ≤ old.cols)
    (h : ResetGame old theme scaled rand genExit genObst seed fuelExit fuelObst = some b) :
    PathExists b.grid 0 0 b.exitX b.exitY = some true ∧
      ∃ p, IsPassagePath b.grid p (0, 0) (b.exitX, b.exitY) ∧
        ∀ c ∈ p, IsInBounds b.grid c.1 c.2 = true ∧ (b.grid.cell c.1 c.2).isObstacle = false := by
  obtain ⟨-, -, hsym, hin, hfree, -, -, hpe⟩ :=
    ResetGame_spec old theme scaled rand genExit genObst seed fuelExit fuelObst b hr hc h
  exact ⟨hpe, path_of_pathExists b.grid hsym 0 0 b.exitX b.exitY hin hfree hpe⟩

theorem ResetGame_exit_reachable_witness :
    ∃ b, ResetGame demoOld GameTheme.Space 1 demoRand demoGen demoGen 0 4 4 = some b ∧
      PathExists b.grid 0 0 b.exitX b.exitY = some true ∧
      ∃ p, IsPassagePath b.grid p (0, 0) (b.exitX, b.exitY) ∧
        ∀ c ∈ p, IsInBounds b.grid c.1 c.2 = true ∧ (b.grid.cell c.1 c.2).isObstacle = false := by
  have hsome :
      (ResetGame demoOld GameTheme.Space 1 demoRand demoGen demoGen 0 4 4).isSome = true := by
    decide
  obtain ⟨b, hb⟩ := Option.isSome_iff_exists.1 hsome
  exact ⟨b, hb, ResetGame_exit_reachable demoOld GameTheme.Space 1 demoRand demoGen demoGen
    0 4 4 b (by decide) (by decide) hb⟩

/-- Claim C2: reachability is a loop invariant of `AddRandomObstacles`. If
`PathExists(0, 0, exitX, exitY)` is true in a state of the loop, the next iteration
returns and it is true again after it, whether the sampled cell was skipped, kept or
reverted; so it is true after every number of iterations, for all random draws. -/
theorem AddRandomObstacles_keeps_reachability (theme : GameTheme) (rand gen : Nat → Nat)
    (exitX exitY maxObstacles : Int) (s : ObstState) (hr : 1 ≤ s.grid.rows)
    (hc : 1 ≤ s.grid.cols) (h : PathExists s.grid 0 0 exitX exitY = some true) :
    (∃ t, obstacleIter theme rand gen exitX exitY s = some t ∧
        PathExists t.grid 0 0 exitX exitY = some true) ∧
      ∀ k, ∃ t, obstacleRun theme rand gen exitX exitY maxObstacles k s = some t ∧
        PathExists t.grid 0 0 exitX exitY = some true := by
  have hin : IsInBounds s.grid 0 0 = true := by
    rw [isInBounds_iff]
    omega
  constructor
  · obtain ⟨t, ht⟩ := obstacleIter_total theme rand gen exitX exitY s hin
    exact ⟨t, ht, (obstacleIter_spec theme rand gen exitX exitY s t ht).2 h⟩
  · intro k
    obtain ⟨t, ht, -, hp⟩ := obstacleRun_spec theme rand gen exitX exitY maxObstacles k s hin
    exact ⟨t, ht, hp h⟩

theorem AddRandomObstacles_keeps_reachability_witness :
    PathExists demoEntry.grid 0 0 1 0 = some true ∧
      ((∃ t, obstacleIter GameTheme.Jungle demoRand demoGen 1 0 demoEntry = some t ∧
          PathExists t.grid 0 0 1 0 = some true) ∧
        ∀ k, ∃ t, obstacleRun GameTheme.Jungle demoRand demoGen 1 0 2 k demoEntry = some t ∧
          PathExists t.grid 0 0 1 0 = some true) :=
  ⟨by decide, AddRandomObstacles_keeps_reachability GameTheme.Jungle demoRand demoGen 1 0 2
    demoEntry (by decide) (by decide) (by decide)⟩

/-- Claim C3: if the start cell `(0,0)` and the exit cell are not flagged as obstacles
when `AddRandomObstacles(exitX, exitY)` is entered (as on the obstacle-free grid
`GenerateMaze` leaves), neither is flagged after any number of iterations of the loop, nor
when the function returns, for every grid size, exit position and random draws. -/
theorem AddRandomObstacles_spares_start_and_exit (theme : GameTheme) (scaled : Int)
    (rand gen : Nat → Nat) (exitX exitY : Int) (g : Grid) (seed : Nat) (hr : 1 ≤ g.rows)
    (hc : 1 ≤ g.cols) (hstart : (g.cell 0 0).isObstacle = false)
    (hexit : (g.cell exitX exitY).isObstacle = false) :
    (∀ k, ∃ t, obstacleRun theme rand gen exitX exitY (max 1 scaled) k
          { grid := g, obstacleCount := 0, seed := seed, genPos := 0 } = some t ∧
        (t.grid.cell 0 0).isObstacle = false ∧ (t.grid.cell exitX exitY).isObstacle = false) ∧
      ∀ fuel t, AddRandomObstacles theme scaled rand gen exitX exitY g seed fuel = some t →
        (t.grid.cell 0 0).isObstacle = false ∧ (t.grid.cell exitX exitY).isObstacle = false := by
  have hin : IsInBounds g 0 0 = true := by
    rw [isInBounds_iff]
    omega
  constructor
  · intro k
    obtain ⟨t, ht, hf, -⟩ := obstacleRun_spec theme rand gen exitX exitY (max 1 scaled) k
      { grid := g, obstacleCount := 0, seed := seed, genPos := 0 } hin
    exact ⟨t, ht, hf.start_eq.trans hstart, hf.exit_eq.trans hexit⟩
  · intro fuel t ht
    obtain ⟨hf, -⟩ := obstacleLoop_spec theme rand gen exitX exitY (max 1 scaled) fuel _ t ht
    exact ⟨hf.start_eq.trans hstart, hf.exit_eq.trans hexit⟩

theorem AddRandomObstacles_spares_start_and_exit_witness :
    (∀ k, ∃ t, obstacleRun GameTheme.Desert demoRand demoGen 1 0 (max 1 1) k
          { grid := demoMaze, obstacleCount := 0, seed := 3, genPos := 0 } = some t ∧
        (t.grid.cell 0 0).isObstacle = false ∧ (t.grid.cell 1 0).isObstacle = false) ∧
      ∀ fuel t, AddRandomObstacles GameTheme.Desert 1 demoRand demoGen 1 0 demoMaze 3 fuel =
          some t →
        (t.grid.cell 0 0).isObstacle = false ∧ (t.grid.cell 1 0).isObstacle = false :=
  AddRandomObstacles_spares_start_and_exit GameTheme.Desert 1 demoRand demoGen 1 0 demoMaze 3
    (by decide) (by decide) (by decide) (by decide)

/-- Claim C4: for every `R, C ≥ 1` and all random neighbour choices, `GenerateMaze`
returns, and on the `R x C` grid it returns the number of opened wall-pairs (adjacent
cells whose two facing wall flags are both false) is exactly `R * C - 1`. -/
theorem GenerateMaze_opens_all_but_one (g : Grid) (rand : Nat → Nat) (seed : Nat)
    (hr : 1 ≤ g.rows) (hc : 1 ≤ g.cols) :
    ∃ t, GenerateMaze g rand seed = some t ∧ t.grid.rows = g.rows ∧ t.grid.cols = g.cols ∧
      openPairs t.grid = g.rows * g.cols - 1 := by
  obtain ⟨t, ht, hinv, hstack, hrows, hcols⟩ := GenerateMaze_spec g rand seed hr hc
  refine ⟨t, ht, hrows, hcols, ?_⟩
  rw [hinv.openPairs_eq hstack, hrows, hcols]

theorem GenerateMaze_opens_all_but_one_witness :
    ∃ t, GenerateMaze { demoOld with rows := 10, cols := 10 } demoRand 0 = some t ∧
      t.grid.rows = 10 ∧ t.grid.cols = 10 ∧ openPairs t.grid = 99 :=
  GenerateMaze_opens_all_but_one { demoOld with rows := 10, cols := 10 } demoRand 0
    (by decide) (by decide)

/-- Claim C5: for every `R, C ≥ 1` (with `R * C` in the `int` range) and all random
neighbour choices, right after `GenerateMaze` every cell of the grid is reachable from
the start cell `(0,0)` through opened walls: there is a path of passages to it, which is
what a breadth-first traversal follows, and `PathExists(0, 0, x, y)` is true. -/
theorem GenerateMaze_connects_all_cells (g : Grid) (rand : Nat → Nat) (seed : Nat)
    (hr : 1 ≤ g.rows) (hc : 1 ≤ g.cols) (hfit : GridFitsInt g) :
    ∃ t, GenerateMaze g rand seed = some t ∧ t.grid.rows = g.rows ∧ t.grid.cols = g.cols ∧
      ∀ x y, IsInBounds t.grid x y = true →
        (∃ p, IsPassagePath t.grid p (0, 0) (x, y)) ∧ PathExists t.grid 0 0 x y = some true := by
  obtain ⟨t, ht, hinv, hstack, hrows, hcols⟩ := GenerateMaze_spec g rand seed hr hc
  refine ⟨t, ht, hrows, hcols, ?_⟩
  intro x y hin
  have hfit' : GridFitsInt t.grid := by
    unfold GridFitsInt at hfit ⊢
    rw [hrows, hcols]
    exact hfit
  refine ⟨isPassagePath_of_reflTransGen _ _ _ (hinv.passage_all hstack x y hin), ?_⟩
  exact PathExists_complete t.grid 0 0 x y hinv.origin_in hfit'
    (hinv.conn x y hin (hinv.all_visited hstack x y hin))

theorem GenerateMaze_connects_all_cells_witness :
    ∃ t, GenerateMaze demoOld demoRand 0 = some t ∧ t.grid.rows = 2 ∧ t.grid.cols = 2 ∧
      ∀ x y, IsInBounds t.grid x y = true →
        (∃ p, IsPassagePath t.grid p (0, 0) (x, y)) ∧ PathExists t.grid 0 0 x y = some true :=
  GenerateMaze_connects_all_cells demoOld demoRand 0 (by decide) (by decide)
    (by unfold GridFitsInt INT_MAX; decide)

/-- Claim C6: the maze `GenerateMaze` produces is a perfect maze. For every `R, C ≥ 1`
and all random choices the graph whose edges are the opened wall-pairs has no cycle, and
between every two cells of the grid there is exactly one simple path in it. -/
theorem GenerateMaze_perfect_maze (g : Grid) (rand : Nat → Nat) (seed : Nat)
    (hr : 1 ≤ g.rows) (hc : 1 ≤ g.cols) :
    ∃ t, GenerateMaze g rand seed = some t ∧ (passageGraph t.grid).IsAcyclic ∧
      ∀ u v : Int × Int, IsInBounds t.grid u.1 u.2 = true → IsInBounds t.grid v.1 v.2 = true →
        ∃! p : (passageGraph t.grid).Walk u v, p.IsPath := by
  obtain ⟨t, ht, hinv, hstack, -, -⟩ := GenerateMaze_spec g rand seed hr hc
  exact ⟨t, ht, hinv.acyclic, fun u v hu hv => hinv.unique_path hstack u v hu hv⟩

theorem GenerateMaze_perfect_maze_witness :
    ∃ t, GenerateMaze demoOld demoRand 0 = some t ∧ (passageGraph t.grid).IsAcyclic ∧
      ∀ u v : Int × Int, IsInBounds t.grid u.1 u.2 = true → IsInBounds t.grid v.1 v.2 = true →
        ∃! p : (passageGraph t.grid).Walk u v, p.IsPath :=
  GenerateMaze_perfect_maze demoOld demoRand 0 (by decide) (by decide)

/-- Claim C7: wall symmetry is an invariant of the grid. After `InitializeGrid`, after
every number of iterations of the loop of `GenerateMaze` and after `AddRandomObstacles`
has run on the generated maze, every in-bounds cell `A` and its in-bounds neighbour `B` in
direction `i` satisfy `A.walls[i] = B.walls[(i + 2) mod 4]`. -/
theorem walls_stay_symmetric (g : Grid) (theme : GameTheme) (scaled : Int)
    (rand gen : Nat → Nat) (seed : Nat) (hr : 1 ≤ g.rows) (hc : 1 ≤ g.cols) :
    WallsSymmetric (InitializeGrid g) ∧
      (∀ k, WallsSymmetric (generateRun rand k (generateInit g seed)).grid) ∧
      ∀ (s : GenState) (exitX exitY : Int) (fuel : Nat) (t : ObstState),
        GenerateMaze g rand seed = some s →
        AddRandomObstacles theme scaled rand gen exitX exitY s.grid s.seed fuel = some t →
        WallsSymmetric t.grid := by
  refine ⟨?_, ?_, ?_⟩
  · intro a i ha hb
    have ha' : IsInBounds g a.1 a.2 = true := ha
    have hb' : IsInBounds g (neighbor a i).1 (neighbor a i).2 = true := hb
    simp [InitializeGrid, ha', hb', Cell.new]
  · intro k
    exact (generateRun_inv rand k _ (generateInit_inv g seed hr hc)).1.sym
  · intro s exitX exitY fuel t hs ht
    obtain ⟨s', hs', hinv, -, -, -⟩ := GenerateMaze_spec g rand seed hr hc
    rw [hs] at hs'
    simp only [Option.some.injEq] at hs'
    subst hs'
    exact (obstacleLoop_spec theme rand gen exitX exitY _ fuel _ t ht).1.frame_symmetric hinv.sym

theorem walls_stay_symmetric_witness :
    WallsSymmetric (InitializeGrid demoOld) ∧
      (∀ k, WallsSymmetric (generateRun demoRand k (generateInit demoOld 0)).grid) ∧
      ∀ (s : GenState) (exitX exitY : Int) (fuel : Nat) (t : ObstState),
        GenerateMaze demoOld demoRand 0 = some s →
        AddRandomObstacles GameTheme.Space 1 demoRand demoGen exitX exitY s.grid s.seed fuel =
          some t →
        WallsSymmetric t.grid :=
  walls_stay_symmetric demoOld GameTheme.Space 1 demoRand demoGen 0 (by decide) (by decide)

/-- Claim C8: `PathExists` is complete. On every grid (with `R * C` in the `int` range)
and for every in-bounds start and goal, if there is a sequence of cells from start to goal
in which consecutive cells are adjacent, both in bounds, neither flagged obstacle and not
separated by a wall, then `PathExists(startX, startY, endX, endY)` returns true. -/
theorem PathExists_complete_on_paths (g : Grid) (startX startY endX endY : Int)
    (p : List (Int × Int)) (hfit : GridFitsInt g) (hstart : IsInBounds g startX startY = true)
    (_hgoal : IsInBounds g endX endY = true)
    (hp : IsPassagePath g p (startX, startY) (endX, endY)) :
    PathExists g startX startY endX endY = some true :=
  PathExists_complete g startX startY endX endY hstart hfit (reach_of_isPassagePath g p _ _ hp)

theorem PathExists_complete_on_paths_witness :
    IsPassagePath demoMaze [(0, 0), (1, 0), (1, 1)] (0, 0) (1, 1) ∧
      PathExists demoMaze 0 0 1 1 = some true := by
  have hp : IsPassagePath demoMaze [(0, 0), (1, 0), (1, 1)] (0, 0) (1, 1) := by
    refine ⟨rfl, rfl, ?_⟩
    simp only [List.chain'_cons, List.chain'_singleton, and_true]
    exact ⟨⟨1, by decide, by decide, by decide, by decide, by decide, by decide, by decide⟩,
      ⟨2, by decide, by decide, by decide, by decide, by decide, by decide, by decide⟩⟩
  exact ⟨hp, PathExists_complete_on_paths demoMaze 0 0 1 1 _
    (by unfold GridFitsInt INT_MAX; decide) (by decide) (by decide) hp⟩

/-- Claim C9, as stated, fails: on a grid with symmetric walls whose start cell is
flagged as an obstacle no path of passages leaves the start, yet `PathExists` moves on
from the start and returns true. -/
theorem PathExists_sound_counterexample :
    WallsSymmetric blockedStart ∧ IsInBounds blockedStart 0 0 = true ∧
      IsInBounds blockedStart 1 0 = true ∧
      (¬ ∃ p, IsPassagePath blockedStart p (0, 0) (1, 0)) ∧
      PathExists blockedStart 0 0 1 0 = some true := by
  refine ⟨?_, by decide, by decide, ?_, by decide⟩
  · rintro ⟨x, y⟩ i ha hb
    rw [isInBounds_iff] at ha hb
    simp only [blockedStart, Nat.cast_ofNat, Nat.cast_one] at ha hb
    have hy : y = 0 := by omega
    subst hy
    have hx : x = 0 ∨ x = 1 := by omega
    rcases hx with rfl | rfl <;> fin_cases i <;>
      simp [neighbor, directions] at hb <;> simp [blockedStart, neighbor, directions]
  · rintro ⟨p, hhead, hlast, hchain⟩
    cases p with
    | nil => simp at hhead
    | cons a l =>
      simp only [List.head?_cons, Option.some.injEq] at hhead
      subst hhead
      cases l with
      | nil => exact absurd (congrArg Prod.fst (Option.some.inj hlast)) (by decide)
      | cons b l =>
        rw [List.chain'_cons] at hchain
        obtain ⟨i, -, -, -, hob, -⟩ := hchain.1
        simp [blockedStart] at hob

/-- Claim C9, amended: `PathExists` is sound when the start cell is not flagged as an
obstacle. On every grid with symmetric walls, for every in-bounds start and goal with a
free start cell, if no path of passages (adjacent in-bounds cells, neither flagged
obstacle, not separated by a wall) leads from start to goal, `PathExists` returns false. -/
theorem PathExists_sound_free_start (g : Grid) (startX startY endX endY : Int)
    (hsym : WallsSymmetric g) (hstart : IsInBounds g startX startY = true)
    (_hgoal : IsInBounds g endX endY = true)
    (hfree : (g.cell startX startY).isObstacle = false)
    (hno : ¬ ∃ p, IsPassagePath g p (startX, startY) (endX, endY)) :
    PathExists g startX startY endX endY = some false := by
  apply PathExists_false g startX startY endX endY hstart
  intro hreach
  exact hno (isPassagePath_of_reflTransGen g _ _
    (passage_of_reach g hsym _ _ hstart hfree hreach).1)

theorem PathExists_sound_free_start_witness :
    (¬ ∃ p, IsPassagePath walledGrid p (0, 0) (1, 0)) ∧
      PathExists walledGrid 0 0 1 0 = some false := by
  have hsym : WallsSymmetric walledGrid := by
    intro a i ha hb
    have ha' : IsInBounds demoOld a.1 a.2 = true := ha
    have hb' : IsInBounds demoOld (neighbor a i).1 (neighbor a i).2 = true := hb
    simp [walledGrid, InitializeGrid, ha', hb', Cell.new]
  have hno : ¬ ∃ p, IsPassagePath walledGrid p (0, 0) (1, 0) := by
    rintro ⟨p, hhead, hlast, hchain⟩
    cases p with
    | nil => simp at hhead
    | cons a l =>
      simp only [List.head?_cons, Option.some.injEq] at hhead
      subst hhead
      cases l with
      | nil => exact absurd (congrArg Prod.fst (Option.some.inj hlast)) (by decide)
      | cons b l =>
        rw [List.chain'_cons] at hchain
        obtain ⟨i, -, -, -, -, -, hw, -⟩ := hchain.1
        simp [walledGrid, InitializeGrid, demoOld, IsInBounds, Cell.new] at hw
  exact ⟨hno, PathExists_sound_free_start walledGrid 0 0 1 0 hsym (by decide) (by decide)
    (by decide) hno⟩

/-- Claim C10: for every `R, C ≥ 1` and all random draws, whenever `PlaceRandomExit`
returns, the exit it chose is in bounds and its Manhattan distance from the start `(0,0)`,
`exitX + exitY`, is at least `max(C, R) / 2` with integer division. -/
theorem PlaceRandomExit_far_enough (g : Grid) (gen : Nat → Nat) (fuel : Nat)
    (exitX exitY : Int) (hr : 1 ≤ g.rows) (hc : 1 ≤ g.cols)
    (h : PlaceRandomExit g gen fuel = some (exitX, exitY)) :
    IsInBounds g exitX exitY = true ∧
      exitX + exitY ≥ max (g.cols : Int) (g.rows : Int) / 2 := by
  obtain ⟨hin, hdist, -, -⟩ := placeExitLoop_spec g gen fuel 0 exitX exitY hr hc h
  exact ⟨hin, hdist⟩

theorem PlaceRandomExit_far_enough_witness :
    PlaceRandomExit demoMaze demoGen 4 = some (1, 0) ∧ IsInBounds demoMaze 1 0 = true ∧
      (1 : Int) + 0 ≥ max (demoMaze.cols : Int) (demoMaze.rows : Int) / 2 :=
  ⟨by decide, PlaceRandomExit_far_enough demoMaze demoGen 4 1 0 (by decide) (by decide)
    (by decide)⟩

/-- Claim C11, as stated, fails: on the one by one grid `GenerateMaze` leaves,
`PlaceRandomExit` returns, and the exit it returns with is the start cell `(0,0)`. -/
theorem PlaceRandomExit_start_counterexample :
    (GenerateMaze (InitializeGrid unitOld) demoRand 0).bind
      (fun s => PlaceRandomExit s.grid demoGen 1) = some (0, 0) := by
  decide

/-- Claim C11, amended: for every `R, C ≥ 1` with `max(R, C) ≥ 2` and all random draws,
`PlaceRandomExit` never returns with the exit equal to the start cell `(0,0)`. -/
theorem PlaceRandomExit_not_start (g : Grid) (gen : Nat → Nat) (fuel : Nat)
    (exitX exitY : Int) (hr : 1 ≤ g.rows) (hc : 1 ≤ g.cols) (hbig : 2 ≤ max g.rows g.cols)
    (h : PlaceRandomExit g gen fuel = some (exitX, exitY)) :
    ¬ (exitX = 0 ∧ exitY = 0) := by
  obtain ⟨-, hdist, -, -⟩ := placeExitLoop_spec g gen fuel 0 exitX exitY hr hc h
  rintro ⟨rfl, rfl⟩
  have h2 : (2 : Int) ≤ max (g.cols : Int) (g.rows : Int) := by
    rcases le_max_iff.1 hbig with h | h
    · exact le_max_of_le_right (by exact_mod_cast h)
    · exact le_max_of_le_left (by exact_mod_cast h)
  omega

theorem PlaceRandomExit_not_start_witness :
    PlaceRandomExit demoMaze demoGen 4 = some (1, 0) ∧ ¬ ((1 : Int) = 0 ∧ (0 : Int) = 0) :=
  ⟨by decide, PlaceRandomExit_not_start demoMaze demoGen 4 1 0 (by decide) (by decide)
    (by decide) (by decide)⟩

/-- Claim C12, as stated, fails: on a one by two grid whose two cells are the start and
the exit no cell is free, and whatever the random draws `AddRandomObstacles` never
returns, however many iterations it is allowed. -/
theorem AddRandomObstacles_spins_counterexample :
    ¬ ∃ (rand gen : Nat → Nat) (fuel : Nat) (t : ObstState),
      AddRandomObstacles GameTheme.Space 0 rand gen 1 0 corridor 0 fuel = some t := by
  rintro ⟨rand, gen, fuel, t, h⟩
  have hstuck : NoCandidate corridor 1 0 := by
    intro x y hin
    rw [isInBounds_iff] at hin
    simp only [corridor, Nat.cast_ofNat, Nat.cast_one] at hin
    have hx : x = 0 ∨ x = 1 := by omega
    have hy : y = 0 := by omega
    rcases hx with hx | hx
    · exact Or.inl ⟨hx, hy⟩
    · exact Or.inr (Or.inl ⟨hx, hy⟩)
  have hnone := obstacleLoop_stuck GameTheme.Space rand gen 1 0 (max 1 0) fuel
    { grid := corridor, obstacleCount := 0, seed := 0, genPos := 0 } (by decide) (by decide)
    (by decide) hstuck
  unfold AddRandomObstacles at h
  rw [hnone] at h
  exact Option.noConfusion h

/-- Claim C12, amended: the loop of `AddRandomObstacles` has no bound on the number of
attempts. For every grid with `R, C ≥ 1`, exit and target, every iteration of the loop
returns, and the function returns only with the obstacle count equal to the target
`max(1, scaled)`. When the loop reaches, at entry or after any number of iterations and
with the count still below the target, a grid on which the free cells are exhausted or
every remaining candidate would disconnect start from exit, the function never returns. -/
theorem AddRandomObstacles_no_attempt_bound (theme : GameTheme) (scaled : Int)
    (rand gen : Nat → Nat) (exitX exitY : Int) (g : Grid) (seed : Nat) (hr : 1 ≤ g.rows)
    (hc : 1 ≤ g.cols) :
    (∀ s : ObstState, s.grid.rows = g.rows → s.grid.cols = g.cols →
        ∃ t, obstacleIter theme rand gen exitX exitY s = some t) ∧
      (∀ fuel t, AddRandomObstacles theme scaled rand gen exitX exitY g seed fuel = some t →
        t.obstacleCount = max 1 scaled) ∧
      (∀ k s, obstacleRun theme rand gen exitX exitY (max 1 scaled) k
          { grid := g, obstacleCount := 0, seed := seed, genPos := 0 } = some s →
        s.obstacleCount < max 1 scaled → NoCandidate s.grid exitX exitY →
        ∀ fuel, AddRandomObstacles theme scaled rand gen exitX exitY g seed fuel = none) := by
  refine ⟨?_, ?_, ?_⟩
  · intro s hrows hcols
    apply obstacleIter_total
    rw [isInBounds_iff, hrows, hcols]
    omega
  · intro fuel t ht
    exact obstacleLoop_counter theme rand gen exitX exitY (max 1 scaled) fuel _ t hr hc
      (le_trans zero_le_one (le_max_left 1 scaled)) ht
  · intro k s hrun hlt hstuck fuel
    exact obstacleLoop_stuck_later theme rand gen exitX exitY (max 1 scaled) k _ s hr hc hrun
      hlt hstuck fuel

theorem AddRandomObstacles_no_attempt_bound_witness :
    ∃ s, obstacleRun GameTheme.Space demoRand demoGen 1 0 (max 1 3) 3
        { grid := demoMaze, obstacleCount := 0, seed := 0, genPos := 0 } = some s ∧
      s.obstacleCount = 2 ∧ NoCandidate s.grid 1 0 ∧
      (∀ fuel t, AddRandomObstacles GameTheme.Space 3 demoRand demoGen 1 0 demoMaze 0 fuel =
          some t →
        t.obstacleCount = max 1 3) ∧
      ∀ fuel, AddRandomObstacles GameTheme.Space 3 demoRand demoGen 1 0 demoMaze 0 fuel =
        none := by
  have hfacts : (obstacleRun GameTheme.Space demoRand demoGen 1 0 (max 1 3) 3
      { grid := demoMaze, obstacleCount := 0, seed := 0, genPos := 0 }).map
        (fun s => (s.grid.rows, s.grid.cols, s.obstacleCount, (s.grid.cell 0 1).isObstacle,
          (s.grid.cell 1 1).isObstacle)) = some (2, 2, 2, true, true) := by
    decide
  obtain ⟨s, hs, hval⟩ := Option.map_eq_some'.1 hfacts
  simp only [Prod.mk.injEq] at hval
  obtain ⟨hrows, hcols, hcount, h01, h11⟩ := hval
  have hstuck : NoCandidate s.grid 1 0 := by
    intro x y hin
    rw [isInBounds_iff, hrows, hcols] at hin
    have hx : x = 0 ∨ x = 1 := by omega
    have hy : y = 0 ∨ y = 1 := by omega
    rcases hx with rfl | rfl <;> rcases hy with rfl | rfl
    · exact Or.inl ⟨rfl, rfl⟩
    · exact Or.inr (Or.inr (Or.inl h01))
    · exact Or.inr (Or.inl ⟨rfl, rfl⟩)
    · exact Or.inr (Or.inr (Or.inl h11))
  have h := AddRandomObstacles_no_attempt_bound GameTheme.Space 3 demoRand demoGen 1 0
    demoMaze 0 (by decide) (by decide)
  exact ⟨s, hs, hcount, hstuck, h.2.1, h.2.2 3 s hs (by rw [hcount]; decide) hstuck⟩

/-- Claim C13, as stated, fails: with density `0` on a freshly generated two by two grid
`AddRandomObstacles` returns with one cell flagged as obstacle, more than
`floor(0 * 2 * 2) = 0`. -/
theorem AddRandomObstacles_density_counterexample :
    (GenerateMaze (InitializeGrid demoOld) demoRand 0).bind
      (fun s => (AddRandomObstacles GameTheme.Space 0 demoRand demoGen 1 0 s.grid s.seed 4).map
        (fun t => obstacleCells t.grid)) = some 1 := by
  decide

/-- Claim C13, amended: for every `R, C ≥ 1` and every density, when
`AddRandomObstacles` returns on a freshly generated `R x C` grid the number of cells
flagged as obstacle is at most `max(1, scaled)`, where `scaled` is the truncated product
`R * C * density` (60 for `R = C = 20` and density `0.15`). -/
theorem AddRandomObstacles_count_bound (g : Grid) (theme : GameTheme) (scaled : Int)
    (rand gen : Nat → Nat) (seed : Nat) (exitX exitY : Int) (fuel : Nat) (s : GenState)
    (t : ObstState) (hr : 1 ≤ g.rows) (hc : 1 ≤ g.cols)
    (hs : GenerateMaze g rand seed = some s)
    (ht : AddRandomObstacles theme scaled rand gen exitX exitY s.grid s.seed fuel = some t) :
    (obstacleCells t.grid : Int) ≤ max 1 scaled := by
  obtain ⟨s', hs', hinv, -, hrows, hcols⟩ := GenerateMaze_spec g rand seed hr hc
  rw [hs] at hs'
  simp only [Option.some.injEq] at hs'
  subst hs'
  have hzero : obstacleCells s.grid = 0 := by
    unfold obstacleCells cellCount
    rw [List.countP_eq_zero]
    intro p hp
    simp only [hinv.noObst p.1 p.2 ((mem_allCells _ _).1 hp)]
    exact Bool.noConfusion
  obtain ⟨hcnt, hcells⟩ := obstacleLoop_count theme rand gen exitX exitY (max 1 scaled)
    fuel _ t (by simp only; omega) (by simp only; omega)
    (by simp only; exact le_trans zero_le_one (le_max_left 1 scaled))
    (by simp only; rw [hzero]; rfl) ht
  rw [hcells, hcnt]

theorem AddRandomObstacles_count_bound_witness :
    ∃ s t, GenerateMaze (InitializeGrid demoOld) demoRand 0 = some s ∧
      AddRandomObstacles GameTheme.Space 1 demoRand demoGen 1 0 s.grid s.seed 4 = some t ∧
      (obstacleCells t.grid : Int) ≤ max 1 1 := by
  have hsome : ((GenerateMaze (InitializeGrid demoOld) demoRand 0).bind
      (fun s => AddRandomObstacles GameTheme.Space 1 demoRand demoGen 1 0 s.grid s.seed
        4)).isSome = true := by
    decide
  obtain ⟨t, ht⟩ := Option.isSome_iff_exists.1 hsome
  obtain ⟨s, hs, hst⟩ := Option.bind_eq_some.1 ht
  exact ⟨s, t, hs, hst, AddRandomObstacles_count_bound (InitializeGrid demoOld)
    GameTheme.Space 1 demoRand demoGen 0 1 0 4 s t (by decide) (by decide) hs hst⟩

set_option maxRecDepth 100000 in
/-- Claim C14, as stated, fails: a ten by ten build with density `0` ends with `99`
opened wall-pairs and with a cell of the grid flagged as obstacle, which a traversal over
the edges of the oracle does not reach from the start. -/
theorem ResetGame_density_zero_counterexample :
    ∃ b, ResetGame tenOld GameTheme.Space 0 tenRand demoGen demoGen 0 2 2 = some b ∧
      openPairs b.grid = 99 ∧
      ∃ x y, IsInBounds b.grid x y = true ∧ (b.grid.cell x y).isObstacle = true ∧
        ¬ Reach b.grid (0, 0) (x, y) := by
  have hsome : (ResetGame tenOld GameTheme.Space 0 tenRand demoGen demoGen 0 2 2).isSome =
      true := by
    decide
  obtain ⟨b, hb⟩ := Option.isSome_iff_exists.1 hsome
  obtain ⟨hopen, hcells, hreach⟩ := ResetGame_counts tenOld GameTheme.Space 0 tenRand demoGen
    demoGen 0 2 2 b (by decide) (by decide) hb
  refine ⟨b, hb, hopen, ?_⟩
  have hpos : 0 < obstacleCells b.grid := by
    have h1 : (obstacleCells b.grid : Int) = 1 := hcells
    omega
  obtain ⟨p, hp, hob⟩ := List.countP_pos_iff.1 hpos
  exact ⟨p.1, p.2, (mem_allCells _ _).1 hp, hob, hreach p.1 p.2 hob⟩

/-- Claim C14, amended: for a build with obstacle density `0` that completes, the
finished grid has exactly `R * C - 1` opened wall-pairs and exactly one cell flagged as
obstacle (the target is `max(1, 0) = 1`); a traversal from the start over the edges of the
oracle (no wall, no obstacle) does not reach that cell. -/
theorem ResetGame_density_zero (old : Grid) (theme : GameTheme)
    (rand genExit genObst : Nat → Nat) (seed fuelExit fuelObst : Nat) (b : Built)
    (hr : 1 ≤ old.rows) (hc : 1 ≤ old.cols)
    (h : ResetGame old theme 0 rand genExit genObst seed fuelExit fuelObst = some b) :
    openPairs b.grid = old.rows * old.cols - 1 ∧ obstacleCells b.grid = 1 ∧
      ∃ x y, IsInBounds b.grid x y = true ∧ (b.grid.cell x y).isObstacle = true ∧
        ¬ Reach b.grid (0, 0) (x, y) := by
  obtain ⟨hopen, hcells, hreach⟩ := ResetGame_counts old theme 0 rand genExit genObst seed
    fuelExit fuelObst b hr hc h
  have h1 : obstacleCells b.grid = 1 := by
    have h2 : (obstacleCells b.grid : Int) = 1 := hcells
    omega
  refine ⟨hopen, h1, ?_⟩
  obtain ⟨p, hp, hob⟩ := List.countP_pos_iff.1 (show 0 < obstacleCells b.grid by omega)
  exact ⟨p.1, p.2, (mem_allCells _ _).1 hp, hob, hreach p.1 p.2 hob⟩

theorem ResetGame_density_zero_witness :
    ∃ b, ResetGame demoOld GameTheme.Jungle 0 demoRand demoGen demoGen 0 4 4 = some b ∧
      openPairs b.grid = 2 * 2 - 1 ∧ obstacleCells b.grid = 1 ∧
      ∃ x y, IsInBounds b.grid x y = true ∧ (b.grid.cell x y).isObstacle = true ∧
        ¬ Reach b.grid (0, 0) (x, y) := by
  have hsome :
      (ResetGame demoOld GameTheme.Jungle 0 demoRand demoGen demoGen 0 4 4).isSome = true := by
    decide
  obtain ⟨b, hb⟩ := Option.isSome_iff_exists.1 hsome
  exact ⟨b, hb, ResetGame_density_zero demoOld GameTheme.Jungle demoRand demoGen demoGen
    0 4 4 b (by decide) (by decide) hb⟩

/-- Claim C15: the build is a function of its inputs only. Two runs of the build pipeline
of `ResetGame` with the same `R`, `C`, obstacle density and the same random draws (of
`std::rand()` and of the engine of `PlaceRandomExit`) that both complete end with
identical wall layouts, the same exit position and the same obstacle set, whatever the
grid contained before each run; the themes, the sprite draws of the engine of
`AddRandomObstacles` and the iteration bounds of the two runs need not agree. -/
theorem ResetGame_same_inputs_same_build (old1 old2 : Grid) (theme1 theme2 : GameTheme)
    (scaled : Int) (rand genExit genObst1 genObst2 : Nat → Nat)
    (seed fuelExit1 fuelObst1 fuelExit2 fuelObst2 : Nat) (b1 b2 : Built)
    (hrows : old1.rows = old2.rows) (hcols : old1.cols = old2.cols)
    (h1 : ResetGame old1 theme1 scaled rand genExit genObst1 seed fuelExit1 fuelObst1 = some b1)
    (h2 : ResetGame old2 theme2 scaled rand genExit genObst2 seed fuelExit2 fuelObst2 = some b2) :
    b1.grid.rows = b2.grid.rows ∧ b1.grid.cols = b2.grid.cols ∧
      b1.exitX = b2.exitX ∧ b1.exitY = b2.exitY ∧
      ∀ x y, (b1.grid.cell x y).walls = (b2.grid.cell x y).walls ∧
        (b1.grid.cell x y).isObstacle = (b2.grid.cell x y).isObstacle := by
  obtain ⟨hsame, hx, hy, -⟩ := ResetGame_congr old1 old2 theme1 theme2 scaled rand genExit
    genObst1 genObst2 seed fuelExit1 fuelObst1 fuelExit2 fuelObst2 b1 b2 hrows hcols h1 h2
  exact ⟨hsame.1, hsame.2.1, hx, hy, fun x y => ⟨(hsame.2.2 x y).2, (hsame.2.2 x y).1⟩⟩

theorem ResetGame_same_inputs_same_build_witness :
    ∃ b1 b2, ResetGame demoOld GameTheme.Space 1 demoRand demoGen demoGen 0 4 4 = some b1 ∧
      ResetGame demoMaze GameTheme.Desert 1 demoRand demoGen demoRand 0 5 6 = some b2 ∧
      (b1.grid.cell 1 1).spriteCol ≠ (b2.grid.cell 1 1).spriteCol ∧
      b1.grid.rows = b2.grid.rows ∧ b1.grid.cols = b2.grid.cols ∧
      b1.exitX = b2.exitX ∧ b1.exitY = b2.exitY ∧
      ∀ x y, (b1.grid.cell x y).walls = (b2.grid.cell x y).walls ∧
        (b1.grid.cell x y).isObstacle = (b2.grid.cell x y).isObstacle := by
  have hsprite1 : (ResetGame demoOld GameTheme.Space 1 demoRand demoGen demoGen 0 4 4).map
      (fun b => (b.grid.cell 1 1).spriteCol) = some 2 := by
    decide
  have hsprite2 : (ResetGame demoMaze GameTheme.Desert 1 demoRand demoGen demoRand 0 5 6).map
      (fun b => (b.grid.cell 1 1).spriteCol) = some 0 := by
    decide
  obtain ⟨b1, hb1, hv1⟩ := Option.map_eq_some'.1 hsprite1
  obtain ⟨b2, hb2, hv2⟩ := Option.map_eq_some'.1 hsprite2
  refine ⟨b1, b2, hb1, hb2, ?_, ResetGame_same_inputs_same_build demoOld demoMaze
    GameTheme.Space GameTheme.Desert 1 demoRand demoGen demoGen demoRand 0 4 4 5 6 b1 b2
    (by decide) (by decide) hb1 hb2⟩
  rw [hv1, hv2]
  decide

/-- Claim C16: the search is optimal. On every grid (with `R * C` in the `int` range) and
for every in-bounds start and goal, when `PathExists` returns true it has popped the goal,
and the value it has then recorded in `cost[endY][endX]` is the number of steps of a
shortest path from start to goal over the edges the search explores (adjacent, in bounds,
neighbour not obstacle, no wall). -/
theorem PathExists_cost_is_shortest (g : Grid) (startX startY endX endY : Int)
    (hfit : GridFitsInt g) (hstart : IsInBounds g startX startY = true)
    (_hgoal : IsInBounds g endX endY = true)
    (h : PathExists g startX startY endX endY = some true) :
    ∃ t, searchTrace g endX endY (searchFuel g) (searchInit startX startY) = some (true, t) ∧
      ∃ n : Nat, t.cost endX endY = (n : Int) ∧ StepsIn g (startX, startY) n (endX, endY) ∧
        ∀ m, StepsIn g (startX, startY) m (endX, endY) → n ≤ m := by
  have hfst := searchTrace_fst g endX endY (searchFuel g) (searchInit startX startY)
  unfold PathExists at h
  rw [h] at hfst
  cases htr : searchTrace g endX endY (searchFuel g) (searchInit startX startY) with
  | none =>
    rw [htr] at hfst
    simp at hfst
  | some r =>
    obtain ⟨b, t⟩ := r
    rw [htr] at hfst
    simp only [Option.map_some', Option.some.injEq] at hfst
    subst hfst
    exact ⟨t, rfl, searchTrace_init_optimal g startX startY endX endY hfit hstart _ t htr⟩

theorem PathExists_cost_is_shortest_witness :
    PathExists demoMaze 0 0 1 1 = some true ∧
      ∃ t, searchTrace demoMaze 1 1 (searchFuel demoMaze) (searchInit 0 0) = some (true, t) ∧
        ∃ n : Nat, t.cost 1 1 = (n : Int) ∧ StepsIn demoMaze (0, 0) n (1, 1) ∧
          ∀ m, StepsIn demoMaze (0, 0) m (1, 1) → n ≤ m :=
  ⟨by decide, PathExists_cost_is_shortest demoMaze 0 0 1 1
    (by unfold GridFitsInt INT_MAX; decide) (by decide) (by decide) (by decide)⟩

/-- Claim C17: for every `R x C` grid with `max(R, C) ≥ 2` (and `R * C` in the `int`
range), right after `GenerateMaze` the cells `PlaceRandomExit` can return with are exactly
the in-bounds cells whose Manhattan distance from `(0,0)` is at least `max(C, R) / 2`; this
set is not empty and does not contain the start cell. -/
theorem PlaceRandomExit_accepts_far_cells (g : Grid) (rand : Nat → Nat) (seed : Nat)
    (hr : 1 ≤ g.rows) (hc : 1 ≤ g.cols) (hbig : 2 ≤ max g.rows g.cols)
    (hfit : GridFitsInt g) :
    ∃ t, GenerateMaze g rand seed = some t ∧
      (∀ x y : Int, (∃ gen fuel, PlaceRandomExit t.grid gen fuel = some (x, y)) ↔
        (IsInBounds t.grid x y = true ∧ x + y ≥ max (g.cols : Int) (g.rows : Int) / 2)) ∧
      (∃ x y : Int, IsInBounds t.grid x y = true ∧
        x + y ≥ max (g.cols : Int) (g.rows : Int) / 2) ∧
      ¬ ((0 : Int) + 0 ≥ max (g.cols : Int) (g.rows : Int) / 2) := by
  obtain ⟨t, ht, hinv, hstack, hrows, hcols⟩ := GenerateMaze_spec g rand seed hr hc
  have hfit' : GridFitsInt t.grid := by
    unfold GridFitsInt at hfit ⊢
    rw [hrows, hcols]
    exact hfit
  have h2 : (2 : Int) ≤ max (g.cols : Int) (g.rows : Int) := by
    rcases le_max_iff.1 hbig with h | h
    · exact le_max_of_le_right (by exact_mod_cast h)
    · exact le_max_of_le_left (by exact_mod_cast h)
  refine ⟨t, ht, ?_, ?_, by omega⟩
  · intro x y
    constructor
    · rintro ⟨gen, fuel, h⟩
      obtain ⟨hin, hdist, -, -⟩ := placeExitLoop_spec t.grid gen fuel 0 x y
        (by omega) (by omega) h
      rw [hrows, hcols] at hdist
      exact ⟨hin, hdist⟩
    · rintro ⟨hin, hdist⟩
      have hb := (isInBounds_iff _ _ _).1 hin
      refine ⟨fun n => if n = 0 then x.toNat else y.toNat, 1, ?_⟩
      apply placeExitLoop_accept t.grid _ 0 0 x y _ _ hb.1 hb.2.2.1
      · rw [hrows, hcols]
        exact hdist
      · exact hinv.noObst x y hin
      · exact PathExists_complete t.grid 0 0 x y hinv.origin_in hfit'
          (hinv.conn x y hin (hinv.all_visited hstack x y hin))
      · simp only [if_true]
        exact uniformInt_toNat _ x hb.1 hb.2.1
      · simp only [Nat.zero_add, Nat.one_ne_zero, if_false]
        exact uniformInt_toNat _ y hb.2.2.1 hb.2.2.2
  · refine ⟨(g.cols : Int) - 1, (g.rows : Int) - 1, ?_, ?_⟩
    · rw [isInBounds_iff, hrows, hcols]
      omega
    · rcases max_cases (g.cols : Int) (g.rows : Int) with ⟨h, -⟩ | ⟨h, -⟩ <;> rw [h] at h2 ⊢ <;>
        omega

theorem PlaceRandomExit_accepts_far_cells_witness :
    ∃ t, GenerateMaze { demoOld with rows := 3, cols := 3 } demoRand 0 = some t ∧
      (∀ x y : Int, (∃ gen fuel, PlaceRandomExit t.grid gen fuel = some (x, y)) ↔
        (IsInBounds t.grid x y = true ∧ x + y ≥ max ((3 : Nat) : Int) ((3 : Nat) : Int) / 2)) ∧
      (∃ x y : Int, IsInBounds t.grid x y = true ∧
        x + y ≥ max ((3 : Nat) : Int) ((3 : Nat) : Int) / 2) ∧
      ¬ ((0 : Int) + 0 ≥ max ((3 : Nat) : Int) ((3 : Nat) : Int) / 2) :=
  PlaceRandomExit_accepts_far_cells { demoOld with rows := 3, cols := 3 } demoRand 0
    (by decide) (by decide) (by decide) (by unfold GridFitsInt INT_MAX; decide)

/-- Claim C18: the player-step check uses the edge relation of the oracle. For every
grid, every player cell `p` and every direction `d` in `0..3`, `CanMove(d)` is true
exactly when the neighbour of `p` in direction `d` is in bounds, `p.walls[d]` is false and
the neighbour is no obstacle, which is exactly when `PathExists`, expanding `p` at the
start of a search, pushes that neighbour onto its frontier. Consequently, whenever
`PathExists(0, 0, exitX, exitY)` is true, moves that `CanMove` permits lead the player from
the start cell to the exit. -/
theorem CanMove_matches_oracle (g : Grid) (playerX playerY : Int) (d : Fin 4)
    (exitX exitY : Int) (_hp : IsInBounds g playerX playerY = true) :
    (CanMove g playerX playerY d = true ↔
        IsInBounds g (playerX + (directions d).1) (playerY + (directions d).2) = true ∧
          (g.cell playerX playerY).walls d = false ∧
          (g.cell (playerX + (directions d).1) (playerY + (directions d).2)).isObstacle =
            false) ∧
      (CanMove g playerX playerY d = true ↔
        (relax g exitX exitY playerX playerY (searchInit playerX playerY) d).frontier =
          [(1 + Heuristic (playerX + (directions d).1) (playerY + (directions d).2) exitX exitY,
            playerX + (directions d).1, playerY + (directions d).2), (0, playerX, playerY)]) ∧
      (IsInBounds g 0 0 = true → PathExists g 0 0 exitX exitY = some true →
        ∃ ds, walkPlayer g (0, 0) ds = some (exitX, exitY)) := by
  refine ⟨?_, ?_, ?_⟩
  · rw [CanMove_iff_stepDir]
    unfold StepDir neighbor
    simp only
    constructor
    · rintro ⟨h1, h2, h3⟩
      exact ⟨h1, h3, h2⟩
    · rintro ⟨h1, h2, h3⟩
      exact ⟨h1, h3, h2⟩
  · rw [relax_searchInit]
    by_cases h : CanMove g playerX playerY d = true
    · simp [h]
    · simp [h]
  · intro h0 hpe
    exact walkPlayer_of_reach g _ _ (PathExists_sound g 0 0 exitX exitY h0 hpe)

theorem CanMove_matches_oracle_witness :
    (CanMove demoMaze 0 0 1 = true ↔
        IsInBounds demoMaze (0 + (directions 1).1) (0 + (directions 1).2) = true ∧
          (demoMaze.cell 0 0).walls 1 = false ∧
          (demoMaze.cell (0 + (directions 1).1) (0 + (directions 1).2)).isObstacle = false) ∧
      (CanMove demoMaze 0 0 1 = true ↔
        (relax demoMaze 1 1 0 0 (searchInit 0 0) 1).frontier =
          [(1 + Heuristic (0 + (directions 1).1) (0 + (directions 1).2) 1 1,
            0 + (directions 1).1, 0 + (directions 1).2), (0, 0, 0)]) ∧
      (IsInBounds demoMaze 0 0 = true → PathExists demoMaze 0 0 1 1 = some true →
        ∃ ds, walkPlayer demoMaze (0, 0) ds = some (1, 1)) :=
  CanMove_matches_oracle demoMaze 0 0 1 1 1 (by decide)

/-- Claim C19: for the cell `c` an in-bounds pointer `current` points to, every grid
state and every random draw, a cell `GetUnvisitedNeighbor` returns is in bounds, at
Manhattan distance exactly 1 from `(c.x, c.y)` and not yet visited; it returns null
exactly when `(c.x, c.y)` has no in-bounds unvisited neighbour; and every grid index it
uses is in bounds. -/
theorem GetUnvisitedNeighbor_contract (g : Grid) (rand : Nat → Nat) (k : Nat)
    (current : Int × Int) (hin : IsInBounds g current.1 current.2 = true) :
    (∀ next k', GetUnvisitedNeighbor g rand k current = (some next, k') →
        IsInBounds g next.1 next.2 = true ∧
        |next.1 - (g.cell current.1 current.2).x| + |next.2 - (g.cell current.1 current.2).y| = 1 ∧
        (g.cell next.1 next.2).visited = false) ∧
      ((GetUnvisitedNeighbor g rand k current).1 = none ↔
        ∀ i : Fin 4,
          IsInBounds g ((g.cell current.1 current.2).x + (directions i).1)
              ((g.cell current.1 current.2).y + (directions i).2) = true →
            (g.cell ((g.cell current.1 current.2).x + (directions i).1)
              ((g.cell current.1 current.2).y + (directions i).2)).visited = true) ∧
      ∀ q ∈ GetUnvisitedNeighborReads g rand k current, IsInBounds g q.1 q.2 = true := by
  refine ⟨?_, GetUnvisitedNeighbor_none_iff g rand k current, ?_⟩
  · intro next k' h
    obtain ⟨i, rfl, hn, hv⟩ := GetUnvisitedNeighbor_some_fields g rand k k' current next h
    refine ⟨hn, ?_, hv⟩
    simp only [neighbor, add_sub_cancel_left]
    exact abs_directions i
  · intro q hq
    unfold GetUnvisitedNeighborReads at hq
    simp only [List.mem_cons, List.mem_append, List.mem_map, List.mem_filter] at hq
    rcases hq with rfl | ⟨i, ⟨-, hi⟩, rfl⟩ | hq
    · exact hin
    · exact hi
    · cases hres : GetUnvisitedNeighbor g rand k current with
      | mk r k' =>
        rw [hres] at hq
        cases r with
        | none => simp at hq
        | some next =>
          simp only [List.mem_singleton] at hq
          subst hq
          obtain ⟨i, -, hn, -⟩ := GetUnvisitedNeighbor_some_fields g rand k k' current q hres
          exact hn

theorem GetUnvisitedNeighbor_contract_witness :
    (∀ next k', GetUnvisitedNeighbor walledGrid demoRand 0 (0, 0) = (some next, k') →
        IsInBounds walledGrid next.1 next.2 = true ∧
        |next.1 - (walledGrid.cell 0 0).x| + |next.2 - (walledGrid.cell 0 0).y| = 1 ∧
        (walledGrid.cell next.1 next.2).visited = false) ∧
      ((GetUnvisitedNeighbor walledGrid demoRand 0 (0, 0)).1 = none ↔
        ∀ i : Fin 4,
          IsInBounds walledGrid ((walledGrid.cell 0 0).x + (directions i).1)
              ((walledGrid.cell 0 0).y + (directions i).2) = true →
            (walledGrid.cell ((walledGrid.cell 0 0).x + (directions i).1)
              ((walledGrid.cell 0 0).y + (directions i).2)).visited = true) ∧
      ∀ q ∈ GetUnvisitedNeighborReads walledGrid demoRand 0 (0, 0),
        IsInBounds walledGrid q.1 q.2 = true :=
  GetUnvisitedNeighbor_contract walledGrid demoRand 0 (0, 0) (by decide)

/-- Claim C20: for a cell `c` and its in-bounds neighbour `n` in direction `i`
(`n = c + directions[i]`), `RemoveWalls(c, n)` sets exactly `c.walls[i]` and
`n.walls[(i + 2) mod 4]` to false: every other wall flag of `c`, of `n` and of every
other cell is unchanged, and so is the size of the grid. -/
theorem RemoveWalls_frame (g : Grid) (c : Int × Int) (i : Fin 4)
    (_hcin : IsInBounds g c.1 c.2 = true)
    (_hnin : IsInBounds g (neighbor c i).1 (neighbor c i).2 = true)
    (hc : (g.cell c.1 c.2).x = c.1 ∧ (g.cell c.1 c.2).y = c.2)
    (hn : (g.cell (neighbor c i).1 (neighbor c i).2).x = (neighbor c i).1 ∧
      (g.cell (neighbor c i).1 (neighbor c i).2).y = (neighbor c i).2) :
    (RemoveWalls g c (neighbor c i)).rows = g.rows ∧
      (RemoveWalls g c (neighbor c i)).cols = g.cols ∧
      ∀ x y j, ((RemoveWalls g c (neighbor c i)).cell x y).walls j =
        if ((x, y) = c ∧ j = i) ∨ ((x, y) = neighbor c i ∧ j = i + 2) then false
        else (g.cell x y).walls j := by
  rw [RemoveWalls_eq g c i hc hn]
  refine ⟨rfl, rfl, ?_⟩
  intro x y j
  rw [clearWall_walls, clearWall_walls]
  by_cases h1 : (x, y) = c ∧ j = i
  · simp [h1]
  · by_cases h2 : (x, y) = neighbor c i ∧ j = i + 2
    · simp [h2]
    · simp [h1, h2]

theorem RemoveWalls_frame_witness :
    (RemoveWalls walledGrid (0, 0) (neighbor (0, 0) 1)).rows = walledGrid.rows ∧
      (RemoveWalls walledGrid (0, 0) (neighbor (0, 0) 1)).cols = walledGrid.cols ∧
      ∀ x y j, ((RemoveWalls walledGrid (0, 0) (neighbor (0, 0) 1)).cell x y).walls j =
        if ((x, y) = ((0, 0) : Int × Int) ∧ j = 1) ∨ ((x, y) = neighbor (0, 0) 1 ∧ j = 1 + 2)
        then false
        else (walledGrid.cell x y).walls j :=
  RemoveWalls_frame walledGrid (0, 0) 1 (by decide) (by decide) (by decide) (by decide)

/-- Claim C21: for every grid and every in-bounds start (so `R, C ≥ 1`) and every goal,
in bounds or not, every index `PathExists` uses into the grid, the cost table and the
visited table is in bounds (wall indices are `0..3` by their type), and when the goal lies
outside the grid the result is false. -/
theorem PathExists_indices_in_bounds (g : Grid) (startX startY endX endY : Int)
    (hstart : IsInBounds g startX startY = true) :
    (∀ q ∈ PathExistsReads g startX startY endX endY, IsInBounds g q.1 q.2 = true) ∧
      (IsInBounds g endX endY = false → PathExists g startX startY endX endY = some false) := by
  constructor
  · intro q hq
    rcases List.mem_cons.1 hq with rfl | hq
    · exact hstart
    · exact searchReads_inBounds g (startX, startY) endX endY _ _
        (searchInit_sound g _ _ hstart) q hq
  · intro hout
    apply PathExists_false g startX startY endX endY hstart
    intro hreach
    have := reach_inBounds g _ _ hstart hreach
    simp only at this
    rw [hout] at this
    exact Bool.noConfusion this

theorem PathExists_indices_in_bounds_witness :
    (∀ q ∈ PathExistsReads demoMaze 0 0 2 0, IsInBounds demoMaze q.1 q.2 = true) ∧
      (IsInBounds demoMaze 2 0 = false → PathExists demoMaze 0 0 2 0 = some false) :=
  PathExists_indices_in_bounds demoMaze 0 0 2 0 (by decide)

/-- Claim C22: for every `R, C ≥ 1` and every sequence of random neighbour choices,
`GenerateMaze` returns; then every cell of the grid has `visited = true`, and every cell
of the grid was marked visited and pushed onto the frontier stack exactly once during the
run (the start cell before the loop, the others inside it), `R * C` pushes in all. -/
theorem GenerateMaze_visits_each_cell_once (g : Grid) (rand : Nat → Nat) (seed : Nat)
    (hr : 1 ≤ g.rows) (hc : 1 ≤ g.cols) :
    ∃ t, GenerateMaze g rand seed = some t ∧
      (∀ x y, IsInBounds t.grid x y = true → (t.grid.cell x y).visited = true) ∧
      (∀ x y, IsInBounds g x y = true →
        List.countP (fun p => decide (p = (x, y)))
          ((0, 0) :: generatePushes rand (generateFuel g) (generateInit g seed)) = 1) ∧
      ((0, 0) :: generatePushes rand (generateFuel g) (generateInit g seed)).length =
        g.rows * g.cols := by
  obtain ⟨t, ht, hinv, hstack, -, -⟩ := GenerateMaze_spec g rand seed hr hc
  obtain ⟨hnd, hmem⟩ := GenerateMaze_pushes g rand seed hr hc
  refine ⟨t, ht, hinv.all_visited hstack, ?_, ?_⟩
  · intro x y hin
    have hcount := List.count_eq_one_of_mem hnd ((hmem (x, y)).2 hin)
    exact hcount
  · have hperm : List.Perm
        ((0, 0) :: generatePushes rand (generateFuel g) (generateInit g seed)) (allCells g) := by
      rw [List.perm_ext_iff_of_nodup hnd (nodup_allCells g)]
      intro p
      rw [hmem p, mem_allCells]
    rw [hperm.length_eq, length_allCells]

theorem GenerateMaze_visits_each_cell_once_witness :
    ∃ t, GenerateMaze demoOld demoRand 0 = some t ∧
      (∀ x y, IsInBounds t.grid x y = true → (t.grid.cell x y).visited = true) ∧
      (∀ x y, IsInBounds demoOld x y = true →
        List.countP (fun p => decide (p = (x, y)))
          ((0, 0) :: generatePushes demoRand (generateFuel demoOld) (generateInit demoOld 0)) =
            1) ∧
      ((0, 0) :: generatePushes demoRand (generateFuel demoOld) (generateInit demoOld 0)).length =
        demoOld.rows * demoOld.cols :=
  GenerateMaze_visits_each_cell_once demoOld demoRand 0 (by decide) (by decide)

/-- Claim C23: for every `R, C ≥ 1` and every sequence of random neighbour choices, the
frontier loop of `GenerateMaze` terminates (it returns within `2 * R * C + 1` iterations),
and when it does the frontier stack is empty, which is what the next build starts from. -/
theorem GenerateMaze_leaves_stack_empty (g : Grid) (rand : Nat → Nat) (seed : Nat)
    (hr : 1 ≤ g.rows) (hc : 1 ≤ g.cols) :
    ∃ t, GenerateMaze g rand seed = some t ∧ t.stack = [] := by
  obtain ⟨t, ht, -, hstack, -, -⟩ := GenerateMaze_spec g rand seed hr hc
  exact ⟨t, ht, hstack⟩

theorem GenerateMaze_leaves_stack_empty_witness :
    ∃ t, GenerateMaze tenOld tenRand 0 = some t ∧ t.stack = [] :=
  GenerateMaze_leaves_stack_empty tenOld tenRand 0 (by decide) (by decide)

/-- Claim C24: for every grid and every in-bounds start, `PathExists` terminates: it
returns within `4 * R * C + 2` iterations of its loop, with the frontier empty (false) or
the goal popped (true). On the way no cell is expanded twice, and the neighbour loop
pushes a cell onto the frontier only when it lowers the recorded cost of that cell
strictly. -/
theorem PathExists_terminates (g : Grid) (startX startY endX endY : Int)
    (hstart : IsInBounds g startX startY = true) :
    (∃ b, PathExists g startX startY endX endY = some b) ∧
      (searchExpansions g endX endY (searchFuel g) (searchInit startX startY)).Nodup ∧
      ∀ (s : SearchState) (x y : Int) (i : Fin 4),
        relax g endX endY x y s i = s ∨
          ((relax g endX endY x y s i).frontier =
              ((relax g endX endY x y s i).cost (x + (directions i).1) (y + (directions i).2) +
                Heuristic (x + (directions i).1) (y + (directions i).2) endX endY,
                x + (directions i).1, y + (directions i).2) :: s.frontier ∧
            (relax g endX endY x y s i).cost (x + (directions i).1) (y + (directions i).2) <
              s.cost (x + (directions i).1) (y + (directions i).2)) :=
  ⟨PathExists_total g startX startY endX endY hstart,
    (searchExpansions_fresh g endX endY _ _).2,
    fun s x y i => relax_push g endX endY x y s i⟩

theorem PathExists_terminates_witness :
    (∃ b, PathExists demoMaze 0 0 0 1 = some b) ∧
      (searchExpansions demoMaze 0 1 (searchFuel demoMaze) (searchInit 0 0)).Nodup ∧
      ∀ (s : SearchState) (x y : Int) (i : Fin 4),
        relax demoMaze 0 1 x y s i = s ∨
          ((relax demoMaze 0 1 x y s i).frontier =
              ((relax demoMaze 0 1 x y s i).cost (x + (directions i).1) (y + (directions i).2) +
                Heuristic (x + (directions i).1) (y + (directions i).2) 0 1,
                x + (directions i).1, y + (directions i).2) :: s.frontier ∧
            (relax demoMaze 0 1 x y s i).cost (x + (directions i).1) (y + (directions i).2) <
              s.cost (x + (directions i).1) (y + (directions i).2)) :=
  PathExists_terminates demoMaze 0 0 0 1 (by decide)

/-- Claim C25: `Heuristic(x1, y1, x2, y2)` is `|x1 - x2| + |y1 - y2|`, and it is
admissible: it is at most the number of moves of any sequence of axis-aligned unit moves
from the first cell to the second (in bounds or not), hence at most the number of steps of
any path between them over the edges of any grid, the true remaining cost. -/
theorem Heuristic_admissible (g : Grid) (u v : Int × Int) :
    Heuristic u.1 u.2 v.1 v.2 = |u.1 - v.1| + |u.2 - v.2| ∧
      (∀ n : Nat, MovesIn u n v → Heuristic u.1 u.2 v.1 v.2 ≤ (n : Int)) ∧
      (∀ n : Nat, StepsIn g u n v → Heuristic u.1 u.2 v.1 v.2 ≤ (n : Int)) := by
  have key : ∀ n : Nat, MovesIn u n v → Heuristic u.1 u.2 v.1 v.2 ≤ (n : Int) := by
    intro n h
    have := heuristic_moves u v n h v.1 v.2
    rw [heuristic_self] at this
    simpa using this
  exact ⟨rfl, key, fun n h => key n (movesIn_of_stepsIn g u v n h)⟩

theorem Heuristic_admissible_witness :
    Heuristic 0 0 1 1 = |(0 : Int) - 1| + |(0 : Int) - 1| ∧
      (∀ n : Nat, MovesIn ((0 : Int), (0 : Int)) n (1, 1) → Heuristic 0 0 1 1 ≤ (n : Int)) ∧
      (∀ n : Nat, StepsIn demoMaze ((0 : Int), (0 : Int)) n (1, 1) →
        Heuristic 0 0 1 1 ≤ (n : Int)) :=
  Heuristic_admissible demoMaze (0, 0) (1, 1)

/-- Claim C26: an iteration of the loop of `AddRandomObstacles` changes no wall flag of
any cell, and changes the obstacle flag of no cell but the sampled one. When the candidate
is rejected (the sampled cell passes the start, exit and already-obstacle test, and
`PathExists` is false on the grid with the tentative flag), the grid after the iteration
has the size, the wall flags and the obstacle flags it had before, and the counter
`obstacleCount` has not moved. -/
theorem obstacleIter_touches_sampled_flag_only (theme : GameTheme) (rand gen : Nat → Nat)
    (exitX exitY : Int) (s t : ObstState)
    (h : obstacleIter theme rand gen exitX exitY s = some t) :
    (∀ x y, (t.grid.cell x y).walls = (s.grid.cell x y).walls) ∧
      (∀ x y, (x, y) ≠ sampledCell rand s →
        (t.grid.cell x y).isObstacle = (s.grid.cell x y).isObstacle) ∧
      (¬ sampleSkipped s.grid exitX exitY (sampledCell rand s) →
        PathExists (tentativeGrid theme rand gen s) 0 0 exitX exitY = some false →
        SameMaze t.grid s.grid ∧ t.obstacleCount = s.obstacleCount) := by
  have hwalls := (obstacleIter_spec theme rand gen exitX exitY s t h).1.walls_eq
  refine ⟨hwalls, ?_, ?_⟩
  · intro x y hne
    rcases obstacleIter_cases theme rand gen exitX exitY s t h with
      ⟨-, hg, -⟩ | ⟨-, -, hg, -⟩ | ⟨-, -, hg, -⟩
    · rw [hg]
    · rw [hg, (tentativeGrid_fields theme rand gen s x y).2.2.2, if_neg hne]
    · rw [hg, (setObstacle_fields _ _ _ false x y).2.2.2,
        (tentativeGrid_fields theme rand gen s x y).2.2.2, if_neg hne, if_neg]
      intro hxy
      exact hne (Prod.ext hxy.1 hxy.2)
  · intro hns hpe
    rcases obstacleIter_cases theme rand gen exitX exitY s t h with
      ⟨hsk, -, -⟩ | ⟨-, hpe2, -, -⟩ | ⟨-, -, hg, hcnt⟩
    · exact absurd hsk hns
    · rw [hpe] at hpe2
      simp at hpe2
    · refine ⟨?_, hcnt⟩
      rw [hg]
      apply revert_sameMaze
      unfold sampleSkipped at hns
      push_neg at hns
      exact Bool.eq_false_iff.2 hns.2.2

theorem obstacleIter_touches_sampled_flag_only_witness :
    ∃ t, obstacleIter GameTheme.Space demoRand demoGen 1 1
        { grid := demoMaze, obstacleCount := 0, seed := 1, genPos := 0 } = some t ∧
      sampledCell demoRand { grid := demoMaze, obstacleCount := 0, seed := 1, genPos := 0 } =
        (1, 0) ∧
      (t.grid.cell 1 0).spriteCol ≠ (demoMaze.cell 1 0).spriteCol ∧
      (∀ x y, (t.grid.cell x y).walls = (demoMaze.cell x y).walls) ∧
      (∀ x y, (x, y) ≠ ((1 : Int), (0 : Int)) →
        (t.grid.cell x y).isObstacle = (demoMaze.cell x y).isObstacle) ∧
      SameMaze t.grid demoMaze ∧ t.obstacleCount = 0 := by
  have hsome : (obstacleIter GameTheme.Space demoRand demoGen 1 1
      { grid := demoMaze, obstacleCount := 0, seed := 1, genPos := 0 }).isSome = true := by
    decide
  obtain ⟨t, ht⟩ := Option.isSome_iff_exists.1 hsome
  have hsprite : ((obstacleIter GameTheme.Space demoRand demoGen 1 1
      { grid := demoMaze, obstacleCount := 0, seed := 1, genPos := 0 }).map
        (fun t => (t.grid.cell 1 0).spriteCol)) = some 2 := by
    decide
  have h := obstacleIter_touches_sampled_flag_only GameTheme.Space demoRand demoGen 1 1
    { grid := demoMaze, obstacleCount := 0, seed := 1, genPos := 0 } t ht
  refine ⟨t, ht, by decide, ?_, h.1, h.2.1, h.2.2 (by decide) (by decide)⟩
  rw [ht] at hsprite
  simp only [Option.map_some', Option.some.injEq] at hsprite
  rw [hsprite]
  decide

/-- Claim C27: the result of `PathExists` depends only on the grid dimensions, the wall
flags and the obstacle flags. For every start and goal, two grids of the same size that
agree on all wall flags and all obstacle flags give the same result, whatever their
`visited` flags and their cosmetic fields (`spriteRow`, `spriteCol`, `logSpriteRow`,
`logSpriteCol`, `desertObstacleType`) are. -/
theorem PathExists_reads_walls_and_obstacles (g h : Grid) (startX startY endX endY : Int)
    (hrows : g.rows = h.rows) (hcols : g.cols = h.cols)
    (hwalls : ∀ x y, (g.cell x y).walls = (h.cell x y).walls)
    (hobst : ∀ x y, (g.cell x y).isObstacle = (h.cell x y).isObstacle) :
    PathExists g startX startY endX endY = PathExists h startX startY endX endY :=
  PathExists_congr ⟨hrows, hcols, fun x y => ⟨hobst x y, hwalls x y⟩⟩ startX startY endX endY

theorem PathExists_reads_walls_and_obstacles_witness :
    (demoMaze.cell 0 0).visited ≠ (demoPainted.cell 0 0).visited ∧
      (demoMaze.cell 0 0).spriteCol ≠ (demoPainted.cell 0 0).spriteCol ∧
      PathExists demoMaze 0 0 0 1 = PathExists demoPainted 0 0 0 1 :=
  ⟨by decide, by decide,
    PathExists_reads_walls_and_obstacles demoMaze demoPainted 0 0 0 1 rfl rfl
      (fun _ _ => rfl) (fun _ _ => rfl)⟩

/-- Claim C28: started on a grid with `R, C ≥ 1` and no obstacle, the counter
`obstacleCount` of `AddRandomObstacles` equals the number of cells flagged as obstacle
at every iteration boundary; and whenever the function returns, that number is exactly
`max(1, scaled)`, where `scaled` is the truncated product `R * C * p`: at least one
obstacle is placed, also for `p = 0`. -/
theorem AddRandomObstacles_counter_is_flag_count (theme : GameTheme) (scaled : Int)
    (rand gen : Nat → Nat) (exitX exitY : Int) (g : Grid) (seed : Nat)
    (hr : 1 ≤ g.rows) (hc : 1 ≤ g.cols)
    (hclean : ∀ x y, IsInBounds g x y = true → (g.cell x y).isObstacle = false) :
    (∀ k, ∃ t, obstacleRun theme rand gen exitX exitY (max 1 scaled) k
        { grid := g, obstacleCount := 0, seed := seed, genPos := 0 } = some t ∧
      (obstacleCells t.grid : Int) = t.obstacleCount) ∧
      ∀ fuel t, AddRandomObstacles theme scaled rand gen exitX exitY g seed fuel = some t →
        (obstacleCells t.grid : Int) = t.obstacleCount ∧
          (obstacleCells t.grid : Int) = max 1 scaled ∧ 1 ≤ obstacleCells t.grid := by
  have hzero := obstacleCells_eq_zero g hclean
  have h00 : IsInBounds g 0 0 = true := by
    rw [isInBounds_iff]
    omega
  constructor
  · intro k
    obtain ⟨t, ht, -, -⟩ := obstacleRun_spec theme rand gen exitX exitY (max 1 scaled) k
      { grid := g, obstacleCount := 0, seed := seed, genPos := 0 } h00
    exact ⟨t, ht, obstacleRun_count theme rand gen exitX exitY (max 1 scaled) k _ t hr hc
      (by simp only; rw [hzero]; rfl) ht⟩
  · intro fuel t ht
    obtain ⟨hcnt, hcells⟩ := obstacleLoop_count theme rand gen exitX exitY (max 1 scaled)
      fuel _ t hr hc
      (by simp only; exact le_trans zero_le_one (le_max_left 1 scaled))
      (by simp only; rw [hzero]; rfl) ht
    refine ⟨hcells, by rw [hcells, hcnt], ?_⟩
    have : (1 : Int) ≤ (obstacleCells t.grid : Int) := by
      rw [hcells, hcnt]
      exact le_max_left 1 scaled
    exact_mod_cast this

theorem AddRandomObstacles_counter_is_flag_count_witness :
    (∀ k, ∃ t, obstacleRun GameTheme.Space demoRand demoGen 1 1 (max 1 0) k
        { grid := demoMaze, obstacleCount := 0, seed := 0, genPos := 0 } = some t ∧
      (obstacleCells t.grid : Int) = t.obstacleCount) ∧
      ∀ fuel t, AddRandomObstacles GameTheme.Space 0 demoRand demoGen 1 1 demoMaze 0 fuel =
          some t →
        (obstacleCells t.grid : Int) = t.obstacleCount ∧
          (obstacleCells t.grid : Int) = max 1 0 ∧ 1 ≤ obstacleCells t.grid :=
  AddRandomObstacles_counter_is_flag_count GameTheme.Space 0 demoRand demoGen 1 1 demoMaze 0
    (by decide) (by decide) (fun x y _ => rfl)

/-- Claim C29: on a maze produced by `GenerateMaze` (for `R, C ≥ 1`, `R * C` in the `int`
range) with an exit in the grid, there is exactly one path `p` of passages from the start
to the exit, and in every state the loop of `AddRandomObstacles` reaches from that maze:
the flagged cells and the cells of `p` together number at most `R * C`; and an iteration
whose sampled cell is a candidate (not the start, not the exit, not yet an obstacle) leaves
that cell flagged if and only if the cell is not on `p`. Hence whenever the function
returns, its target `max(1, scaled)` is at most `R * C` minus the number of cells of `p`. -/
theorem AddRandomObstacles_keeps_cells_off_the_path (g : Grid) (rand : Nat → Nat) (seed : Nat)
    (theme : GameTheme) (scaled : Int) (rand2 gen : Nat → Nat) (seed2 : Nat)
    (exitX exitY : Int) (hr : 1 ≤ g.rows) (hc : 1 ≤ g.cols) (hfit : GridFitsInt g)
    (hexit : IsInBounds g exitX exitY = true) :
    ∃ m, GenerateMaze g rand seed = some m ∧
      ∃ p : (passageGraph m.grid).Walk (0, 0) (exitX, exitY), p.IsPath ∧
        (∀ q : (passageGraph m.grid).Walk (0, 0) (exitX, exitY), q.IsPath → q = p) ∧
        (∀ k s, obstacleRun theme rand2 gen exitX exitY (max 1 scaled) k
            { grid := m.grid, obstacleCount := 0, seed := seed2, genPos := 0 } = some s →
          obstacleCells s.grid + p.support.length ≤ g.rows * g.cols ∧
          ∀ t, obstacleIter theme rand2 gen exitX exitY s = some t →
            ¬ sampleSkipped s.grid exitX exitY (sampledCell rand2 s) →
            ((t.grid.cell (sampledCell rand2 s).1 (sampledCell rand2 s).2).isObstacle = true ↔
              sampledCell rand2 s ∉ p.support)) ∧
        ∀ fuel t, AddRandomObstacles theme scaled rand2 gen exitX exitY m.grid seed2 fuel =
            some t →
          max 1 scaled + (p.support.length : Int) ≤ ((g.rows * g.cols : Nat) : Int) := by
  obtain ⟨m, hm, hinv, hstack, hrows, hcols⟩ := GenerateMaze_spec g rand seed hr hc
  have hb : ∀ x y, IsInBounds m.grid x y = IsInBounds g x y := by
    intro x y
    simp only [IsInBounds, hrows, hcols]
  have hfit' : GridFitsInt m.grid := by
    unfold GridFitsInt
    rw [hrows, hcols]
    exact hfit
  obtain ⟨p, hp, huniq⟩ := hinv.unique_path hstack (0, 0) (exitX, exitY) hinv.origin_in
    (by rw [hb]; exact hexit)
  have hoff0 : OffPath m.grid m.grid p.support :=
    ⟨rfl, rfl, fun _ _ => rfl, fun v hv =>
      hinv.noObst v.1 v.2 (walk_inBounds m.grid p hinv.origin_in v hv)⟩
  have hrun : ∀ k s, obstacleRun theme rand2 gen exitX exitY (max 1 scaled) k
      { grid := m.grid, obstacleCount := 0, seed := seed2, genPos := 0 } = some s →
      OffPath m.grid s.grid p.support ∧
        obstacleCells s.grid + p.support.length ≤ g.rows * g.cols := by
    intro k s hs
    have hoff := obstacleRun_offPath m.grid hinv.sym hfit' hinv.origin_in theme rand2 gen
      exitX exitY (max 1 scaled) p huniq k _ s hoff0 hs
    refine ⟨hoff, ?_⟩
    rw [← hrows, ← hcols]
    exact offPath_count m.grid s.grid p.support hoff hp.support_nodup
      (walk_inBounds m.grid p hinv.origin_in)
  refine ⟨m, hm, p, hp, huniq, ?_, ?_⟩
  · intro k s hs
    obtain ⟨hoff, hcount⟩ := hrun k s hs
    exact ⟨hcount, fun t ht => (obstacleIter_offPath m.grid hinv.sym hfit' hinv.origin_in theme
      rand2 gen exitX exitY p huniq s t hoff ht).2⟩
  · intro fuel t ht
    have hcount := (hrun fuel t (obstacleLoop_run theme rand2 gen exitX exitY (max 1 scaled)
      fuel _ t ht)).2
    obtain ⟨hcnt, hcells⟩ := obstacleLoop_count theme rand2 gen exitX exitY (max 1 scaled)
      fuel _ t (by simp only; omega) (by simp only; omega)
      (by simp only; exact le_trans zero_le_one (le_max_left 1 scaled))
      (by
        simp only
        rw [obstacleCells_eq_zero m.grid hinv.noObst]
        rfl) ht
    rw [← hcnt, ← hcells]
    exact_mod_cast hcount

theorem AddRandomObstacles_keeps_cells_off_the_path_witness :
    ∃ m, GenerateMaze demoOld demoRand 0 = some m ∧
      ∃ p : (passageGraph m.grid).Walk (0, 0) (1, 1), p.IsPath ∧
        (∀ q : (passageGraph m.grid).Walk (0, 0) (1, 1), q.IsPath → q = p) ∧
        (∀ k s, obstacleRun GameTheme.Space demoRand demoGen 1 1 (max 1 1) k
            { grid := m.grid, obstacleCount := 0, seed := 0, genPos := 0 } = some s →
          obstacleCells s.grid + p.support.length ≤ demoOld.rows * demoOld.cols ∧
          ∀ t, obstacleIter GameTheme.Space demoRand demoGen 1 1 s = some t →
            ¬ sampleSkipped s.grid 1 1 (sampledCell demoRand s) →
            ((t.grid.cell (sampledCell demoRand s).1 (sampledCell demoRand s).2).isObstacle =
                true ↔
              sampledCell demoRand s ∉ p.support)) ∧
        ∀ fuel t, AddRandomObstacles GameTheme.Space 1 demoRand demoGen 1 1 m.grid 0 fuel =
            some t →
          max 1 1 + (p.support.length : Int) ≤ ((demoOld.rows * demoOld.cols : Nat) : Int) :=
  AddRandomObstacles_keeps_cells_off_the_path demoOld demoRand 0 GameTheme.Space 1 demoRand
    demoGen 0 1 1 (by decide) (by decide) (by unfold GridFitsInt; decide) (by decide)

/-- Claim C30: `PathExists` is anti-monotone in the obstacle set. For two grids of the
same size (with `R * C` in the `int` range) with the same walls, the obstacle cells of the
first among those of the second, and every in-bounds start and goal: if `PathExists`
returns true on the second grid, it returns true on the first. -/
theorem PathExists_antitone_in_obstacles (g h : Grid) (startX startY endX endY : Int)
    (hfit : GridFitsInt g) (hrows : h.rows = g.rows) (hcols : h.cols = g.cols)
    (hwalls : ∀ x y, IsInBounds g x y = true → (h.cell x y).walls = (g.cell x y).walls)
    (hsub : ∀ x y, IsInBounds g x y = true → (g.cell x y).isObstacle = true →
      (h.cell x y).isObstacle = true)
    (hstart : IsInBounds g startX startY = true) (_hgoal : IsInBounds g endX endY = true)
    (hpath : PathExists h startX startY endX endY = some true) :
    PathExists g startX startY endX endY = some true := by
  have hin : IsInBounds h startX startY = true := by
    simpa only [IsInBounds, hrows, hcols] using hstart
  have hreach := PathExists_sound h startX startY endX endY hin hpath
  exact PathExists_complete g startX startY endX endY hstart hfit
    (reach_antitone g h hrows hcols hwalls hsub _ _ hstart hreach).1

theorem PathExists_antitone_in_obstacles_witness :
    (demoMaze.cell 0 1).isObstacle = false ∧ (demoBlocked.cell 0 1).isObstacle = true ∧
      PathExists demoBlocked 0 0 1 1 = some true ∧ PathExists demoMaze 0 0 1 1 = some true :=
  ⟨by decide, by decide, by decide,
    PathExists_antitone_in_obstacles demoMaze demoBlocked 0 0 1 1
      (by unfold GridFitsInt; decide) rfl rfl
      (fun x y _ => (setObstacle_fields demoMaze 0 1 true x y).2.2.1)
      (fun x y _ hx => by
        rw [demoBlocked, (setObstacle_fields demoMaze 0 1 true x y).2.2.2, hx]
        split <;> rfl)
      (by decide) (by decide) (by decide)⟩

end PortalPaths
